import Mathlib

/-! # pet-game: collision engine, dog kinematics, joining, saving and loading

A shallow embedding of `collision_detector.cpp`, of the simulation core of
`model.h`, of `Game::SaveGameState` / `Game::LoadGameState` with
`model_serialization.h`, and of `RequestHandler::HandleJoinGame`.

Numbers of C++ type `double` appear twice.  The game as a whole (joining, ticking,
gathering, saving and loading) is embedded with the arithmetic of `double` taken as
exact, on rationals: this is what the theorems on identifiers, rosters, bags and
registries rest on, and their concrete runs use numbers on which no operation
rounds.  The functions whose outcome a rounding decides (`TryCollectPoint` and
`FindGatherEvents`, `Dog::Move`, `Dog::SetPos`) are embedded a second time in the
namespace `IEEE`, operation by operation in binary64 arithmetic; the theorems on the
collection criterion, on the corridors and on the rounding of coordinates are about
these.  The result of the division in `TryCollectPoint` is kept in `FVal`, which
carries the IEEE-754 outcomes of a division by zero.
-/

namespace PetGame

/-! ## Doubles produced by a division -/

/-- A `double` as produced by a division: a finite value, an infinity or NaN. -/
inductive FVal where
  | num (q : ℚ)
  | posInf
  | negInf
  | nan
  deriving DecidableEq, Repr

namespace FVal

/-- The C++ expression `a / b` on finite doubles (`x/0` is an infinity, `0/0` is NaN). -/
def div (a b : ℚ) : FVal :=
  if b = 0 then
    (if a = 0 then nan else if 0 < a then posInf else negInf)
  else num (a / b)

/-- The C++ expression `a - b` for a finite `a`. -/
def rsub (a : ℚ) : FVal → FVal
  | num q => num (a - q)
  | posInf => negInf
  | negInf => posInf
  | nan => nan

/-- The C++ comparison `a < b` (false as soon as one side is NaN). -/
def lt : FVal → FVal → Bool
  | num a, num b => decide (a < b)
  | num _, posInf => true
  | negInf, num _ => true
  | negInf, posInf => true
  | _, _ => false

/-- The C++ comparison `a <= b` (false as soon as one side is NaN). -/
def le : FVal → FVal → Bool
  | num a, num b => decide (a ≤ b)
  | num _, posInf => true
  | negInf, num _ => true
  | negInf, posInf => true
  | posInf, posInf => true
  | negInf, negInf => true
  | _, _ => false

/-- The C++ comparison `a != b` (true as soon as one side is NaN). -/
def ne : FVal → FVal → Bool
  | num a, num b => decide (a ≠ b)
  | posInf, posInf => false
  | negInf, negInf => false
  | _, _ => true

end FVal

/-! ## collision_detector -/

/-- The type `geom::Point2D`: a point with `double` coordinates. -/
structure Point2D where
  x : ℚ
  y : ℚ
  deriving DecidableEq, Repr

/-- The type `CollectionResult` as built by `TryCollectPoint`:
`CollectionResult(sq_distance, proj_ratio)`. -/
structure CollectionResult where
  sq_distance : FVal
  proj_ratio : FVal
  deriving DecidableEq, Repr

/-- Modelled from the spec: `CollectionResult::IsCollected` is declared in
`collision_detector.h`, which is not among the sources.  The spec: "Collects iff
squared distance ≤ (gatherer_radius+item_radius)² and proj_ratio ∈ [0,1]". -/
def CollectionResult.IsCollected (r : CollectionResult) (collect_radius : ℚ) : Bool :=
  FVal.le (.num 0) r.proj_ratio && FVal.le r.proj_ratio (.num 1)
    && FVal.le r.sq_distance (.num (collect_radius * collect_radius))

/-- Function `TryCollectPoint` of `collision_detector.cpp`.  The `assert` on a
non-zero movement is commented out in the source, so both divisions are always
evaluated. -/
def TryCollectPoint (a b c : Point2D) : CollectionResult :=
  let u_x := c.x - a.x
  let u_y := c.y - a.y
  let v_x := b.x - a.x
  let v_y := b.y - a.y
  let u_dot_v := u_x * v_x + u_y * v_y
  let u_len2 := u_x * u_x + u_y * u_y
  let v_len2 := v_x * v_x + v_y * v_y
  let proj_ratio := FVal.div u_dot_v v_len2
  let sq_distance := FVal.rsub u_len2 (FVal.div (u_dot_v * u_dot_v) v_len2)
  { sq_distance := sq_distance, proj_ratio := proj_ratio }

/-- The type `Item` (position and width), as built in `GetItem` of `model.h`. -/
structure Item where
  position : Point2D
  width : ℚ
  deriving DecidableEq, Repr

/-- The type `Gatherer` (start, end, width), as built in `GetGatherer` of `model.h`. -/
structure Gatherer where
  start_pos : Point2D
  end_pos : Point2D
  width : ℚ
  deriving DecidableEq, Repr

/-- The type `GatheringEvent`, in the field order used by `FindGatherEvents`:
`{item_idx, gatherer_idx, sq_distance, proj_ratio}`. -/
structure GatheringEvent where
  item_id : ℕ
  gatherer_id : ℕ
  sq_distance : FVal
  time : FVal
  deriving DecidableEq, Repr

/-- The abstract class `ItemGathererProvider`: the four virtual methods. -/
structure ItemGathererProvider where
  ItemsCount : ℕ
  GetItem : ℕ → Item
  GatherersCount : ℕ
  GetGatherer : ℕ → Gatherer

/-- The body of the inner loop of `FindGatherEvents`: the event pushed for one
gatherer and one item, if any. -/
def gatherEventAt (provider : ItemGathererProvider) (gatherer_idx item_idx : ℕ) :
    Option GatheringEvent :=
  let gatherer := provider.GetGatherer gatherer_idx
  let gatherer_radius := gatherer.width / 2
  let item := provider.GetItem item_idx
  let item_radius := item.width / 2
  let collect_radius := gatherer_radius + item_radius
  let result := TryCollectPoint gatherer.start_pos gatherer.end_pos item.position
  if result.IsCollected collect_radius then
    some { item_id := item_idx, gatherer_id := gatherer_idx,
           sq_distance := result.sq_distance, time := result.proj_ratio }
  else none

/-- The two nested loops of `FindGatherEvents`: events in push order. -/
def collectEvents (provider : ItemGathererProvider) : List GatheringEvent :=
  (List.range provider.GatherersCount).flatMap fun gatherer_idx =>
    (List.range provider.ItemsCount).filterMap fun item_idx =>
      gatherEventAt provider gatherer_idx item_idx

/-- The comparator handed to `std::sort` in `FindGatherEvents`. -/
def eventLess (lhs rhs : GatheringEvent) : Bool :=
  if FVal.ne lhs.time rhs.time then FVal.lt lhs.time rhs.time
  else if lhs.gatherer_id ≠ rhs.gatherer_id then decide (lhs.gatherer_id < rhs.gatherer_id)
  else decide (lhs.item_id < rhs.item_id)

/-- The call `std::sort(events.begin(), events.end(), less)`, as an insertion sort
with the same comparator. -/
def sortEvents (events : List GatheringEvent) : List GatheringEvent :=
  events.insertionSort (fun a b => eventLess a b = true)

/-- Function `FindGatherEvents` of `collision_detector.cpp`. -/
def FindGatherEvents (provider : ItemGathererProvider) : List GatheringEvent :=
  sortEvents (collectEvents provider)

/-! ## model.h: geometry -/

/-- Constant `ROAD_RADIUS = 0.4`. -/
def ROAD_RADIUS : ℚ := 2 / 5

/-- Constant `LOOT_RADIUS = 0.0`. -/
def LOOT_RADIUS : ℚ := 0

/-- Constant `BASE_RADIUS = 0.5`. -/
def BASE_RADIUS : ℚ := 1 / 2

/-- The type `model::Point`: integer coordinates. -/
structure Point where
  x : ℤ
  y : ℤ
  deriving DecidableEq, Repr

/-- The enumeration `DIRECTION`. -/
inductive DIRECTION where
  | NORTH
  | SOUTH
  | WEST
  | EAST
  | NONE
  deriving DecidableEq, Repr

/-- The type `MapPoint`: a position with `double` coordinates. -/
structure MapPoint where
  x : ℚ
  y : ℚ
  deriving DecidableEq, Repr

/-- The type `MapSpeed`. -/
structure MapSpeed where
  dx : ℚ
  dy : ℚ
  deriving DecidableEq, Repr

/-- The class `Road`: the two private fields `start_` and `end_`. -/
structure Road where
  start_ : Point
  end_ : Point
  deriving DecidableEq, Repr

namespace Road

/-- Constructor `Road(HorizontalTag, Point start, Coord end_x)`. -/
def horizontal (start : Point) (end_x : ℤ) : Road :=
  { start_ := start, end_ := { x := end_x, y := start.y } }

/-- Constructor `Road(VerticalTag, Point start, Coord end_y)`. -/
def vertical (start : Point) (end_y : ℤ) : Road :=
  { start_ := start, end_ := { x := start.x, y := end_y } }

def IsHorizontal (r : Road) : Bool := decide (r.start_.y = r.end_.y)

def IsVertical (r : Road) : Bool := decide (r.start_.x = r.end_.x)

def GetStart (r : Road) : Point := r.start_

def GetEnd (r : Road) : Point := r.end_

end Road

/-- The class `Office`. -/
structure Office where
  id_ : String
  position_ : Point
  offset_ : ℤ × ℤ
  width_ : ℚ := 1 / 2
  deriving DecidableEq, Repr

/-- The class `Map`, without the cosmetic buildings. -/
structure Map where
  id_ : String
  name_ : String
  roads_ : List Road := []
  map_default_dogs_speed : ℚ := 1
  map_default_bag_capacity : ℕ := 3
  offices_ : List Office := []
  loot_types_count_ : ℤ := 0
  loot_id_to_value_ : List (ℕ × ℕ) := []
  player_id_counter_ : ℕ := 0
  deriving DecidableEq, Repr

/-! ## model.h: loot and dogs -/

/-- The class `Loot`. -/
structure Loot where
  loot_type_ : ℤ
  position_ : MapPoint
  id_ : ℕ
  value_ : ℤ
  deriving DecidableEq, Repr

/-- A `LootSharedPtr`: the address of the object (pointers are compared by address)
and the object itself, which nothing mutates once it is in a roster. -/
structure LootSharedPtr where
  addr : ℕ
  obj : Loot
  deriving DecidableEq, Repr

/-- The class `Dog`. -/
structure Dog where
  id_ : ℕ
  name_ : String
  pos_ : MapPoint
  speed_ : MapSpeed
  dir_ : DIRECTION
  movement_speed_ : ℚ := 0
  width_ : ℚ := 3 / 5
  lootbag_ : List LootSharedPtr := []
  lootbag_capacity_ : ℕ := 3
  score_ : ℤ := 0
  previous_pos_ : MapPoint
  AFK_time_ : ℚ := 0
  play_time_ : ℚ := 0
  /-- The address of the object: what the shared pointers to the dog are compared by. -/
  addr_ : ℕ := 0
  deriving DecidableEq, Repr

/-- The call `std::round`: to the nearest integer, halves away from zero. -/
def roundHalfAway (q : ℚ) : ℤ :=
  if 0 ≤ q then ⌊q + 1 / 2⌋ else -⌊-q + 1 / 2⌋

namespace Dog

/-- Constructor `Dog(std::string name)` for the counter value `dog_counter`.  The
constructor does not initialise `previous_pos_`; `uninit` is whatever it holds. -/
def create (dog_counter : ℕ) (name : String) (uninit : MapPoint) : Dog :=
  { id_ := dog_counter
    name_ := name ++ "_" ++ toString dog_counter
    pos_ := { x := 0, y := 0 }
    speed_ := { dx := 0, dy := 0 }
    dir_ := DIRECTION.NORTH
    previous_pos_ := uninit }

/-- Method `Dog::SetPos`, `std::round(point.x * 100.0) / 100.0`, in exact arithmetic:
the multiple of `1/100` nearest to the coordinate.  On the points it is given in
this development (integer road points, and positions it stored itself) the double
computation `IEEE.SetPos` yields the double nearest to the same multiple. -/
def SetPos (d : Dog) (point : MapPoint) : Dog :=
  { d with pos_ := { x := (roundHalfAway (point.x * 100) : ℚ) / 100,
                     y := (roundHalfAway (point.y * 100) : ℚ) / 100 } }

def SetDirection (d : Dog) (direction : String) : Dog :=
  if direction = "L" then
    { d with dir_ := DIRECTION.WEST, speed_ := { dx := -d.movement_speed_, dy := 0 } }
  else if direction = "R" then
    { d with dir_ := DIRECTION.EAST, speed_ := { dx := d.movement_speed_, dy := 0 } }
  else if direction = "U" then
    { d with dir_ := DIRECTION.NORTH, speed_ := { dx := 0, dy := -d.movement_speed_ } }
  else if direction = "D" then
    { d with dir_ := DIRECTION.SOUTH, speed_ := { dx := 0, dy := d.movement_speed_ } }
  else
    { d with speed_ := { dx := 0, dy := 0 } }

def SetMovementSpeed (d : Dog) (x : ℚ) : Dog := { d with movement_speed_ := x }

def SetBagCapacity (d : Dog) (x : ℕ) : Dog := { d with lootbag_capacity_ := x }

def IsMoving (d : Dog) : Bool := decide (d.speed_.dx ≠ 0) || decide (d.speed_.dy ≠ 0)

/-- Method `Dog::AddLoot`: the new dog and the returned flag.  In the source the
statement `score_ += loot->GetValue()` stands after `return true` and is never
executed. -/
def AddLoot (d : Dog) (loot : LootSharedPtr) : Dog × Bool :=
  if d.lootbag_capacity_ > d.lootbag_.length then
    ({ d with lootbag_ := d.lootbag_ ++ [loot] }, true)
  else (d, false)

def ClearBag (d : Dog) : Dog := { d with lootbag_ := [] }

def AddScore (d : Dog) (score_points : ℤ) : Dog := { d with score_ := d.score_ + score_points }

end Dog

/-! ## model.h: `Dog::Move` -/

/-- The variables the loop of `Dog::Move` reads and writes. -/
structure MoveState where
  pos_ : MapPoint
  speed_ : MapSpeed
  already_traveled : ℚ
  at_bound : Bool
  deriving DecidableEq, Repr

/-- One iteration of the loop of `Dog::Move` for a horizontal road.  The flag
tells whether the iteration ended with `break`. -/
def moveOnHorizontal (time : ℚ) (road : Road) (s : MoveState) : MoveState × Bool :=
  let road_start_x : ℚ := ((min road.GetStart.x road.GetEnd.x : ℤ) : ℚ)
  let road_end_x : ℚ := ((max road.GetStart.x road.GetEnd.x : ℤ) : ℚ)
  let road_y : ℚ := (road.GetStart.y : ℚ)
  if |s.pos_.y - road_y| ≤ ROAD_RADIUS ∧ s.pos_.x ≥ road_start_x - ROAD_RADIUS
      ∧ s.pos_.x ≤ road_end_x + ROAD_RADIUS then
    if s.speed_.dx > 0 then
      let distance := min (s.pos_.x - s.already_traveled + s.speed_.dx * time)
        (road_end_x + ROAD_RADIUS)
      let s1 := { s with pos_ := { s.pos_ with x := distance } }
      if distance ≥ road_end_x + ROAD_RADIUS then
        ({ s1 with at_bound := true, speed_ := { s1.speed_ with dx := 0 } }, true)
      else ({ s1 with at_bound := false }, true)
    else if s.speed_.dx < 0 then
      let distance := max (s.pos_.x - s.already_traveled + s.speed_.dx * time)
        (road_start_x - ROAD_RADIUS)
      let s1 := { s with pos_ := { s.pos_ with x := distance } }
      if distance ≤ road_start_x - ROAD_RADIUS then
        ({ s1 with at_bound := true, speed_ := { s1.speed_ with dx := 0 } }, true)
      else ({ s1 with at_bound := false }, true)
    else if s.speed_.dy ≠ 0 then
      let distance := s.pos_.y + s.speed_.dy * time
      let start_pos := s.pos_.y
      let s1 : MoveState :=
        if |distance| ≤ road_y + ROAD_RADIUS then
          { s with pos_ := { s.pos_ with y := distance }, at_bound := false }
        else
          { s with pos_ := { s.pos_ with
                               y := if s.speed_.dy < 0 then road_y - ROAD_RADIUS
                                    else road_y + ROAD_RADIUS },
                   at_bound := true }
      ({ s1 with already_traveled := s1.pos_.y - start_pos }, false)
    else (s, false)
  else (s, false)

/-- One iteration of the loop of `Dog::Move` for a vertical road. -/
def moveOnVertical (time : ℚ) (road : Road) (s : MoveState) : MoveState × Bool :=
  let road_start_y : ℚ := ((min road.GetStart.y road.GetEnd.y : ℤ) : ℚ)
  let road_end_y : ℚ := ((max road.GetStart.y road.GetEnd.y : ℤ) : ℚ)
  let road_x : ℚ := (road.GetStart.x : ℚ)
  if |s.pos_.x - road_x| ≤ ROAD_RADIUS ∧ s.pos_.y ≥ road_start_y - ROAD_RADIUS
      ∧ s.pos_.y ≤ road_end_y + ROAD_RADIUS then
    if s.speed_.dy > 0 then
      let distance := min (s.pos_.y - s.already_traveled + s.speed_.dy * time)
        (road_end_y + ROAD_RADIUS)
      let s1 := { s with pos_ := { s.pos_ with y := distance } }
      if distance ≥ road_end_y + ROAD_RADIUS then
        ({ s1 with at_bound := true, speed_ := { s1.speed_ with dy := 0 } }, true)
      else ({ s1 with at_bound := false }, true)
    else if s.speed_.dy < 0 then
      let distance := max (s.pos_.y - s.already_traveled + s.speed_.dy * time)
        (road_start_y - ROAD_RADIUS)
      let s1 := { s with pos_ := { s.pos_ with y := distance } }
      if distance ≤ road_start_y - ROAD_RADIUS then
        ({ s1 with at_bound := true, speed_ := { s1.speed_ with dy := 0 } }, true)
      else ({ s1 with at_bound := false }, true)
    else if s.speed_.dx ≠ 0 then
      let distance := s.pos_.x + s.speed_.dx * time
      let start_pos := s.pos_.x
      let s1 : MoveState :=
        if |distance| ≤ road_x + ROAD_RADIUS then
          { s with pos_ := { s.pos_ with x := distance }, at_bound := false }
        else
          { s with pos_ := { s.pos_ with
                               x := if s.speed_.dx < 0 then road_x - ROAD_RADIUS
                                    else road_x + ROAD_RADIUS },
                   at_bound := true }
      ({ s1 with already_traveled := s1.pos_.x - start_pos }, false)
    else (s, false)
  else (s, false)

/-- The body of the loop `for (const auto& road : roads)` of `Dog::Move`. -/
def moveStep (time : ℚ) (road : Road) (s : MoveState) : MoveState × Bool :=
  if road.IsHorizontal then moveOnHorizontal time road s
  else if road.IsVertical then moveOnVertical time road s
  else (s, false)

/-- The loop of `Dog::Move`: roads in order, until a `break`. -/
def moveLoop (time : ℚ) : List Road → MoveState → MoveState
  | [], s => s
  | road :: rest, s =>
    let r := moveStep time road s
    if r.2 then r.1 else moveLoop time rest r.1

/-- Method `Dog::Move`. -/
def Dog.Move (d : Dog) (time : ℚ) (roads : List Road) : Dog :=
  let s := moveLoop time roads
    { pos_ := d.pos_, speed_ := d.speed_, already_traveled := 0, at_bound := false }
  { d with previous_pos_ := d.pos_
           pos_ := s.pos_
           speed_ := if s.at_bound then { dx := 0, dy := 0 } else s.speed_ }

namespace Dog

def ResetAFKTime (d : Dog) : Dog := { d with AFK_time_ := 0 }

def UpdateAFKTime (d : Dog) (time : ℚ) : Dog := { d with AFK_time_ := d.AFK_time_ + time }

def UpdatePlaytime (d : Dog) (time : ℚ) : Dog := { d with play_time_ := d.play_time_ + time }

end Dog

/-! ## model.h: sessions and the gathering pass -/

/-- The class `GameSession`.  The roster `dogs_` holds the dogs themselves: the
position of a dog in the roster stands for its shared pointer. -/
structure GameSession where
  dogs_ : List Dog := []
  loot_ : List LootSharedPtr := []
  map_ : Map
  id_ : ℕ := 0
  /-- The member `session_counter` of `GameSession` (one per session, not static). -/
  session_counter : ℕ := 0
  deriving DecidableEq, Repr

/-- Method `GameSession::RemoveLoot`: erases every roster entry equal to the pointer. -/
def GameSession.RemoveLoot (s : GameSession) (loot : LootSharedPtr) : GameSession :=
  { s with loot_ := s.loot_.filter (fun l => decide (l.addr ≠ loot.addr)) }

/-- Method `GetGatherer`, the same in both providers: the segment from the dog's
previous position to its position, with the dog's width. -/
def dogGatherer (dogs : List Dog) (idx : ℕ) : Gatherer :=
  match dogs[idx]? with
  | some dog =>
    { start_pos := { x := dog.previous_pos_.x, y := dog.previous_pos_.y }
      end_pos := { x := dog.pos_.x, y := dog.pos_.y }
      width := dog.width_ }
  | none => { start_pos := { x := 0, y := 0 }, end_pos := { x := 0, y := 0 }, width := 0 }

/-- The class `GameItemGathererProvider` (loot as items).  `FindGatherEvents` calls
`GetItem` and `GetGatherer` below the counts only, where `at` does not throw. -/
def GameItemGathererProvider (dogs : List Dog) (loots : List LootSharedPtr) :
    ItemGathererProvider :=
  { ItemsCount := loots.length
    GetItem := fun idx =>
      match loots[idx]? with
      | some loot =>
        { position := { x := loot.obj.position_.x, y := loot.obj.position_.y }
          width := LOOT_RADIUS }
      | none => { position := { x := 0, y := 0 }, width := 0 }
    GatherersCount := dogs.length
    GetGatherer := dogGatherer dogs }

/-- The class `GameOfficePassProvider` (offices as items). -/
def GameOfficePassProvider (dogs : List Dog) (offices : List Office) :
    ItemGathererProvider :=
  { ItemsCount := offices.length
    GetItem := fun idx =>
      match offices[idx]? with
      | some office =>
        { position := { x := (office.position_.x : ℚ), y := (office.position_.y : ℚ) }
          width := BASE_RADIUS }
      | none => { position := { x := 0, y := 0 }, width := 0 }
    GatherersCount := dogs.length
    GetGatherer := dogGatherer dogs }

/-- The body of the first loop of `Game::UpdateGatheredLoot`, for one event.
`session_loots` is the copy of the roster taken when the pass started. -/
def gatherStep (session_loots : List LootSharedPtr) (session : GameSession)
    (event : GatheringEvent) : GameSession :=
  match session.dogs_[event.gatherer_id]?, session_loots[event.item_id]? with
  | some dog, some loot =>
    let r := dog.AddLoot loot
    if r.2 then
      ({ session with dogs_ := session.dogs_.set event.gatherer_id r.1 }).RemoveLoot loot
    else session
  | _, _ => session

/-- The body of the second loop of `Game::UpdateGatheredLoot`, for one event. -/
def passStep (session : GameSession) (event : GatheringEvent) : GameSession :=
  { session with dogs_ := session.dogs_.modify Dog.ClearBag event.gatherer_id }

/-- The first loop of `Game::UpdateGatheredLoot`, over the loot events. -/
def gatherPass (session : GameSession) : GameSession :=
  (FindGatherEvents (GameItemGathererProvider session.dogs_ session.loot_)).foldl
    (gatherStep session.loot_) session

/-- The office events of `Game::UpdateGatheredLoot`, computed before either loop runs. -/
def passEvents (session : GameSession) : List GatheringEvent :=
  FindGatherEvents (GameOfficePassProvider session.dogs_ session.map_.offices_)

/-- Method `Game::UpdateGatheredLoot`. -/
def UpdateGatheredLoot (session : GameSession) : GameSession :=
  (passEvents session).foldl passStep (gatherPass session)

/-! ## model.h: joining and ticking -/

/-- Method `Game::GetBeginMapPointOnRoads`: the start of the first road. -/
def GetBeginMapPointOnRoads (map : Map) : Option MapPoint :=
  match map.roads_ with
  | [] => none
  | test_road :: _ => some { x := (test_road.GetStart.x : ℚ), y := (test_road.GetStart.y : ℚ) }

/-- The dog built by `Game::AddPlayer` when randomized spawn is off: constructor,
`SetPos`, `SetMovementSpeed`, `SetBagCapacity`. -/
def spawnDog (dog_counter : ℕ) (name : String) (uninit : MapPoint) (map : Map) : Option Dog :=
  (GetBeginMapPointOnRoads map).map fun p =>
    (((Dog.create dog_counter name uninit).SetPos p).SetMovementSpeed
      map.map_default_dogs_speed).SetBagCapacity map.map_default_bag_capacity

/-- The body of the loop over dogs in `Game::MovePlayersAndUpdateLoot`; the flag
tells whether `RemovePlayerAndSaveStats` is called for the dog. -/
def tickDog (default_afk_time : ℚ) (tick_time : ℕ) (roads : List Road) (dog : Dog) :
    Dog × Bool :=
  let travel_time : ℚ := (tick_time : ℚ) / 1000
  if dog.IsMoving then
    (((dog.Move travel_time roads).UpdatePlaytime travel_time).ResetAFKTime, false)
  else if dog.AFK_time_ + travel_time ≥ default_afk_time then
    let d1 := dog.UpdatePlaytime (default_afk_time - dog.AFK_time_)
    (d1.UpdateAFKTime (default_afk_time - d1.AFK_time_), true)
  else
    ((dog.UpdateAFKTime travel_time).UpdatePlaytime travel_time, false)

/-- A point lies in the corridor of a road: within `ROAD_RADIUS` of the road's line
and within the road's extent widened by `ROAD_RADIUS` at both ends. -/
def Road.InCorridor (r : Road) (p : MapPoint) : Prop :=
  (r.start_.y = r.end_.y ∧ |p.y - (r.start_.y : ℚ)| ≤ ROAD_RADIUS
      ∧ ((min r.start_.x r.end_.x : ℤ) : ℚ) - ROAD_RADIUS ≤ p.x
      ∧ p.x ≤ ((max r.start_.x r.end_.x : ℤ) : ℚ) + ROAD_RADIUS)
  ∨ (r.start_.x = r.end_.x ∧ |p.x - (r.start_.x : ℚ)| ≤ ROAD_RADIUS
      ∧ ((min r.start_.y r.end_.y : ℤ) : ℚ) - ROAD_RADIUS ≤ p.y
      ∧ p.y ≤ ((max r.start_.y r.end_.y : ℤ) : ℚ) + ROAD_RADIUS)

instance (r : Road) (p : MapPoint) : Decidable (r.InCorridor p) := by
  unfold Road.InCorridor
  infer_instance

/-! ## The collision criterion in the words of the specification -/

/-- The spec's `proj_ratio = (u·v)/|v|²` for `u = c − a`, `v = b − a`. -/
def specProjRatio (a b c : Point2D) : ℚ :=
  ((c.x - a.x) * (b.x - a.x) + (c.y - a.y) * (b.y - a.y))
    / ((b.x - a.x) ^ 2 + (b.y - a.y) ^ 2)

/-- The spec's squared perpendicular distance `|u|² − (u·v)²/|v|²`. -/
def specSqDistance (a b c : Point2D) : ℚ :=
  ((c.x - a.x) ^ 2 + (c.y - a.y) ^ 2)
    - ((c.x - a.x) * (b.x - a.x) + (c.y - a.y) * (b.y - a.y)) ^ 2
      / ((b.x - a.x) ^ 2 + (b.y - a.y) ^ 2)

/-- The spec's collection criterion for a gatherer and an item: the segment has
non-zero length, the squared distance is at most the squared combined radius and
the projection ratio lies in `[0,1]`. -/
def specCollects (g : Gatherer) (it : Item) : Prop :=
  g.start_pos ≠ g.end_pos
  ∧ specSqDistance g.start_pos g.end_pos it.position ≤ (g.width / 2 + it.width / 2) ^ 2
  ∧ 0 ≤ specProjRatio g.start_pos g.end_pos it.position
  ∧ specProjRatio g.start_pos g.end_pos it.position ≤ 1

/-- The order of the output of `FindGatherEvents`: earlier time first, then the
smaller gatherer index, then the smaller item index. -/
def EventBefore (a b : GatheringEvent) : Prop :=
  ∃ ta tb : ℚ, a.time = FVal.num ta ∧ b.time = FVal.num tb ∧
    (ta < tb ∨ (ta = tb ∧ (a.gatherer_id < b.gatherer_id
      ∨ (a.gatherer_id = b.gatherer_id ∧ a.item_id < b.item_id))))

instance (g : Gatherer) (it : Item) : Decidable (specCollects g it) := by
  unfold specCollects
  infer_instance

/-- A provider with one gatherer moving from `(0,0)` to `(10,0)` (width `0.6`) and
two items of width `0` on its path: item 0 at `(8,0)`, item 1 at `(2,0)`. -/
def twoItemsProvider : ItemGathererProvider :=
  { ItemsCount := 2
    GetItem := fun i =>
      if i = 0 then { position := { x := 8, y := 0 }, width := 0 }
      else { position := { x := 2, y := 0 }, width := 0 }
    GatherersCount := 1
    GetGatherer := fun _ =>
      { start_pos := { x := 0, y := 0 }, end_pos := { x := 10, y := 0 }, width := 3 / 5 } }

/-- A provider with one gatherer that does not move (it stays at `(1,1)`) and one
item of width `0` lying exactly at that point. -/
def standingProvider : ItemGathererProvider :=
  { ItemsCount := 1
    GetItem := fun _ => { position := { x := 1, y := 1 }, width := 0 }
    GatherersCount := 1
    GetGatherer := fun _ =>
      { start_pos := { x := 1, y := 1 }, end_pos := { x := 1, y := 1 }, width := 3 / 5 } }

/-- The dog travels along the axis of the road (as `Dog::Move` classifies the road). -/
def AlongRoad (road : Road) (speed : MapSpeed) : Prop :=
  (road.IsHorizontal = true ∧ speed.dx ≠ 0)
  ∨ (road.IsHorizontal = false ∧ road.IsVertical = true ∧ speed.dy ≠ 0)

/-- A road along `y = 0` spanning `x ∈ [0,10]`. -/
def eastRoad : Road := Road.horizontal { x := 0, y := 0 } 10

/-- A dog at `(9,0)` of speed `1` that was told to go east. -/
def eastDog : Dog :=
  ((((Dog.create 0 "Rex" { x := 0, y := 0 }).SetPos { x := 9, y := 0 }).SetMovementSpeed
    1).SetBagCapacity 3).SetDirection "R"

/-- A junction at `(0,0)`: a road to the east listed first, then a road to the south. -/
def junctionRoads : List Road :=
  [Road.horizontal { x := 0, y := 0 } 10, Road.vertical { x := 0, y := 0 } 10]

/-- A dog at the junction `(0,0)` of speed `1` that was told to go south (`"D"`). -/
def junctionDog : Dog :=
  ((((Dog.create 0 "Rex" { x := 0, y := 0 }).SetPos { x := 0, y := 0 }).SetMovementSpeed
    1).SetBagCapacity 3).SetDirection "D"

/-! ## Concrete games -/

/-- A map with the single road `y = 10`, `x ∈ [0,10]`, default speed `1`, bag capacity `3`. -/
def cornerMap : Map :=
  { id_ := "map1", name_ := "Map 1", roads_ := [Road.horizontal { x := 0, y := 10 } 10] }

/-- A map with the single road `y = 0`, `x ∈ [0,20]`, default speed `10`, bag
capacity `3` and one office at `(5,0)`. -/
def officeMap : Map :=
  { id_ := "map2", name_ := "Map 2", roads_ := [Road.horizontal { x := 0, y := 0 } 20]
    map_default_dogs_speed := 10
    offices_ := [{ id_ := "o0", position_ := { x := 5, y := 0 }, offset_ := (0, 0) }] }

/-- The map `officeMap` without its office. -/
def plainMap : Map := { officeMap with offices_ := [] }

/-- A loot item of value `10` lying at `(5,0)`. -/
def coin : LootSharedPtr :=
  { addr := 100
    obj := { loot_type_ := 0, position_ := { x := 5, y := 0 }, id_ := 0, value_ := 10 } }

/-- A second loot item of value `10`, already carried. -/
def carried : LootSharedPtr :=
  { addr := 101
    obj := { loot_type_ := 0, position_ := { x := 3, y := 0 }, id_ := 1, value_ := 10 } }

/-- The dog of a player who joined `plainMap`, asked to go east and lived through a
tick of `1000` ms: it went from `(0,0)` to `(10,0)`; bag empty, capacity `3`, score `0`. -/
def runner : Dog :=
  match spawnDog 0 "Rex" { x := 0, y := 0 } plainMap with
  | some d => (tickDog 60 1000 plainMap.roads_ (d.SetDirection "R")).1
  | none => Dog.create 0 "Rex" { x := 0, y := 0 }

/-- The session of `plainMap` after that tick's movement, with `coin` on the dog's path. -/
def pickupSession : GameSession :=
  { dogs_ := [runner], loot_ := [coin], map_ := plainMap }

/-- The same with the dog's bag full: capacity `1`, holding `carried`. -/
def fullBagSession : GameSession :=
  { dogs_ := [{ runner with lootbag_capacity_ := 1, lootbag_ := [carried] }]
    loot_ := [coin], map_ := plainMap }

/-- The session of `officeMap`: the dog carries `carried`, and both `coin` and the
office lie on its path. -/
def deliverySession : GameSession :=
  { dogs_ := [{ runner with lootbag_ := [carried] }], loot_ := [coin], map_ := officeMap }

/-- The two calls `Game::UpdateGatheredLoot` makes on a dog. -/
inductive BagOp where
  | pickup (loot : LootSharedPtr)
  | deliver
  deriving DecidableEq, Repr

/-- The effect of one such call on the dog: `AddLoot` or `ClearBag`. -/
def applyBagOp (d : Dog) : BagOp → Dog
  | BagOp.pickup loot => (d.AddLoot loot).1
  | BagOp.deliver => d.ClearBag

/-! ## model_serialization.h

The archive is taken to store and return the `...Repr` records exactly.  An
`unordered_map` is an association list with pairwise distinct keys; the order of
the list stands for the (unspecified) iteration order of the container. -/

/-- The statement `m[key] = value` on an `unordered_map`: the entry of the key is
overwritten, or a new entry is added. -/
def umapAssign {β : Type} : List (ℕ × β) → ℕ → β → List (ℕ × β)
  | [], key, value => [(key, value)]
  | kv :: m, key, value =>
    if kv.1 = key then (key, value) :: m else kv :: umapAssign m key value

/-- The call `m.find(key)` on an `unordered_map`. -/
def umapFind {β : Type} (m : List (ℕ × β)) (key : ℕ) : Option β :=
  (m.find? (fun kv => decide (kv.1 = key))).map (fun kv => kv.2)

/-- The class `LootRepr`. -/
structure LootRepr where
  id_ : ℕ
  loot_type_ : ℤ
  position_ : MapPoint
  value_ : ℤ
  deriving DecidableEq, Repr

/-- Constructor `LootRepr(LootSharedPtr loot)`. -/
def LootRepr.ofLoot (loot : LootSharedPtr) : LootRepr :=
  { id_ := loot.obj.id_, loot_type_ := loot.obj.loot_type_
    position_ := loot.obj.position_, value_ := loot.obj.value_ }

/-- Method `LootRepr::Restore`: a default-constructed `Loot` at address `addr`, whose
four fields are then all set.  `Loot::UpdateLootCounter` is not called. -/
def LootRepr.Restore (r : LootRepr) (addr : ℕ) : LootSharedPtr :=
  { addr := addr
    obj := { loot_type_ := r.loot_type_, position_ := r.position_, id_ := r.id_
             value_ := r.value_ } }

/-- Function `RemovePreviousId`: drops the last `to_string(id).length() + 1`
characters of the name, or gives the empty string when the name is shorter. -/
def RemovePreviousId (name_with_id : String) (id : ℕ) : String :=
  let chars_to_remove := (toString id).length + 1
  if chars_to_remove ≤ name_with_id.length then
    String.mk (name_with_id.data.take (name_with_id.length - chars_to_remove))
  else ""

/-- The class `DogRepr`. -/
structure DogRepr where
  id_ : ℕ
  name_ : String
  pos_ : MapPoint
  previous_pos_ : MapPoint
  speed_ : MapSpeed
  dir_ : DIRECTION
  movement_speed_ : ℚ
  width_ : ℚ
  loot_id_to_value : List (ℕ × ℤ)
  loot_id_to_type : List (ℕ × ℤ)
  lootbag_capacity_ : ℕ
  score_ : ℤ
  deriving DecidableEq, Repr

/-- Constructor `DogRepr(const DogSharedPtr dog)`. -/
def DogRepr.ofDog (dog : Dog) : DogRepr :=
  { id_ := dog.id_
    name_ := RemovePreviousId dog.name_ dog.id_
    pos_ := dog.pos_
    previous_pos_ := dog.previous_pos_
    speed_ := dog.speed_
    dir_ := dog.dir_
    movement_speed_ := dog.movement_speed_
    width_ := dog.width_
    loot_id_to_value :=
      dog.lootbag_.foldl (fun m loot => umapAssign m loot.obj.id_ loot.obj.value_) []
    loot_id_to_type :=
      dog.lootbag_.foldl (fun m loot => umapAssign m loot.obj.id_ loot.obj.loot_type_) []
    lootbag_capacity_ := dog.lootbag_capacity_
    score_ := dog.score_ }

/-- Method `DogRepr::GetDirectionString`. -/
def DogRepr.GetDirectionString : DIRECTION → String
  | DIRECTION.NORTH => "U"
  | DIRECTION.SOUTH => "D"
  | DIRECTION.EAST => "R"
  | DIRECTION.WEST => "L"
  | DIRECTION.NONE => ""

namespace Dog

def SetId (d : Dog) (id : ℕ) : Dog := { d with id_ := id }

def SetPreviousPos (d : Dog) (point : MapPoint) : Dog :=
  { d with previous_pos_ := { x := (roundHalfAway (point.x * 100) : ℚ) / 100,
                              y := (roundHalfAway (point.y * 100) : ℚ) / 100 } }

def SetWidth (d : Dog) (x : ℚ) : Dog := { d with width_ := x }

end Dog

/-- Method `Dog::UpdateDogCounter`: the new value of the static `dog_counter`. -/
def UpdateDogCounter (d : Dog) (dog_counter : ℕ) : ℕ :=
  if d.id_ > dog_counter then d.id_ else dog_counter

/-- Constructor `Loot(int loot_type, int value)` for an object at address `addr`: it
sets the type and the value; `id_` and `position_` keep whatever the memory holds,
here `uninit addr`. -/
def Loot.ofTypeValue (uninit : ℕ → Loot) (addr : ℕ) (loot_type value : ℤ) : LootSharedPtr :=
  { addr := addr, obj := { uninit addr with loot_type_ := loot_type, value_ := value } }

/-- The loop over `loot_id_to_value` in `DogRepr::Restore`: one `Loot(type, val)` per
entry, handed to `AddLoot`.  An id missing from `loot_id_to_type` makes `at` throw. -/
def restoreBag (uninit : ℕ → Loot) (loot_id_to_type : List (ℕ × ℤ)) :
    List (ℕ × ℤ) → Dog → ℕ → Option (Dog × ℕ)
  | [], dog, next_addr => some (dog, next_addr)
  | (id, val) :: rest, dog, next_addr =>
    match umapFind loot_id_to_type id with
    | none => none
    | some type =>
      restoreBag uninit loot_id_to_type rest
        (dog.AddLoot (Loot.ofTypeValue uninit next_addr type val)).1 (next_addr + 1)

/-- The first statements of `DogRepr::Restore`, up to `SetWidth`: the constructor, run
when the static `dog_counter` has the given value, and the setters.  `uninitPoint`
is the content of `previous_pos_` left by the constructor (overwritten at once). -/
def DogRepr.restoreFields (r : DogRepr) (dog_counter : ℕ) (uninitPoint : MapPoint) : Dog :=
  let dog := Dog.create dog_counter r.name_ uninitPoint
  let dog := dog.SetId r.id_
  let dog := dog.SetPos r.pos_
  let dog := dog.SetPreviousPos r.previous_pos_
  let dog := dog.SetDirection (DogRepr.GetDirectionString r.dir_)
  let dog := dog.SetMovementSpeed r.movement_speed_
  let dog := dog.SetBagCapacity r.lootbag_capacity_
  dog.SetWidth r.width_

/-- Method `DogRepr::Restore`, run when the static `dog_counter` has the given value
and the allocator is at `next_addr`: the dog, the new `dog_counter` (the constructor
increments it, `UpdateDogCounter` may raise it) and the new allocator position. -/
def DogRepr.Restore (r : DogRepr) (dog_counter next_addr : ℕ) (uninitPoint : MapPoint)
    (uninit : ℕ → Loot) : Option (Dog × ℕ × ℕ) :=
  let dog := r.restoreFields dog_counter uninitPoint
  let dog_counter := UpdateDogCounter dog (dog_counter + 1)
  (restoreBag uninit r.loot_id_to_type r.loot_id_to_value dog next_addr).map fun res =>
    (res.1.AddScore r.score_, dog_counter, res.2)

/-! ## model.h: players and the game

`Dog::dog_counter` and `Loot::loot_counter` are static members; with one `Game` per
process they are kept in the game state, next to the position of the allocator
that hands out object addresses.  Counters are taken to stay far from the bounds
of their machine types. -/

/-- A `std::shared_ptr<Dog>` held outside a roster: the address of the dog and its
`id_`, which nothing writes once the dog is shared. -/
structure DogHandle where
  addr : ℕ
  id_ : ℕ
  deriving DecidableEq, Repr

/-- The class `Player`. -/
structure Player where
  playerId : ℤ
  userName : String
  authToken : String
  current_session_id_ : ℕ := 0
  player_dog_ : Option DogHandle := none
  deriving DecidableEq, Repr

/-- The class `Game`.  `players_` lists the entries of the `unordered_map` keyed by
token (at most one per token); `sessions_` maps a map id to the position in
`game_sessions_` of the session object its pointer refers to; `FindMap` goes through
`maps_` directly, `Game::AddMap` keeping the ids of `maps_` pairwise distinct. -/
structure Game where
  maps_ : List Map := []
  players_ : List Player := []
  game_sessions_ : List GameSession := []
  sessions_ : List (String × ℕ) := []
  dog_id_to_session_id_ : List (ℕ × ℕ) := []
  session_counter_ : ℕ := 0
  default_afk_time : ℚ := 60
  dog_random_spawning_mode_ : Bool := false
  manual_time_control_ : Bool := false
  state_file_path_ : String := ""
  passed_time : ℤ := 0
  save_period : ℤ := 0
  dog_counter : ℕ := 0
  loot_counter : ℕ := 0
  next_addr : ℕ := 0
  deriving DecidableEq, Repr

namespace Game

/-- Method `Game::AddMap`; `none` when it throws on a duplicate id. -/
def AddMap (g : Game) (map : Map) : Option Game :=
  if g.maps_.any (fun m => decide (m.id_ = map.id_)) then none
  else some { g with maps_ := g.maps_ ++ [map] }

/-- Method `Game::FindMap`. -/
def FindMap (g : Game) (id : String) : Option Map :=
  g.maps_.find? (fun m => decide (m.id_ = id))

/-- Method `Game::FindPlayerByToken`. -/
def FindPlayerByToken (g : Game) (token : String) : Option Player :=
  g.players_.find? (fun p => decide (p.authToken = token))

/-- Method `Game::FindGameSession`: the first session of `game_sessions_` with the id. -/
def FindGameSession (g : Game) (session_id : ℕ) : Option GameSession :=
  g.game_sessions_.find? (fun s => decide (s.id_ = session_id))

/-- The call `sessions_.find(map_id)`. -/
def findSessionIndex (g : Game) (map_id : String) : Option ℕ :=
  (g.sessions_.find? (fun kv => decide (kv.1 = map_id))).map (fun kv => kv.2)

/-- The statement `sessions_[map_id] = session` for the session at position `idx`. -/
def assignSessionIndex (sessions : List (String × ℕ)) (map_id : String) (idx : ℕ) :
    List (String × ℕ) :=
  if sessions.any (fun kv => decide (kv.1 = map_id)) then
    sessions.map (fun kv => if kv.1 = map_id then (map_id, idx) else kv)
  else sessions ++ [(map_id, idx)]

/-- The call `players_.emplace(token, player)`: nothing happens when the token is
already a key. -/
def emplacePlayer (players : List Player) (player : Player) : List Player :=
  if players.any (fun p => decide (p.authToken = player.authToken)) then players
  else players ++ [player]

/-- The call `map->UpdatePlayerIdCounter()` on the registered map with the id. -/
def bumpPlayerIdCounter (maps : List Map) (id : String) : List Map :=
  match maps with
  | [] => []
  | m :: rest =>
    if m.id_ = id then { m with player_id_counter_ := m.player_id_counter_ + 1 } :: rest
    else m :: bumpPlayerIdCounter rest id

end Game

/-- What a join draws at random or finds in uninitialised memory: the 32 draws of
`GenerateAuthToken` (each in `0..15`), the content of the new dog's `previous_pos_`,
and, for the randomized spawn, the road index and the point drawn on that road. -/
structure JoinDraws where
  token : Fin 32 → Fin 16
  uninit : MapPoint
  road : ℕ := 0
  x : ℤ := 0
  y : ℤ := 0

/-- The string literal indexed by `GenerateAuthToken`. -/
def hexDigits : List Char := "0123456789abcdef".data

/-- Function `GenerateAuthToken` of `request_handler.cpp`. -/
def GenerateAuthToken (draws : Fin 32 → Fin 16) : String :=
  String.mk ((List.finRange 32).map (fun i => hexDigits.getD (draws i).val '0'))

/-- Method `Game::GetRandomMapPointOnRoads`, given the road index and the two
coordinates the distributions return (`x` between the road's ends, `y` likewise). -/
def GetRandomMapPointOnRoads (map : Map) (draws : JoinDraws) : Option MapPoint :=
  match map.roads_[draws.road]? with
  | none => none
  | some _ => some { x := (draws.x : ℚ), y := (draws.y : ℚ) }

/-- The dog `Game::AddPlayer` makes for a player, spawned at `p`: constructor, `SetPos`,
`SetMovementSpeed`, `SetBagCapacity`, in a shared object at the next free address. -/
def Game.newDog (g : Game) (player : Player) (map_ptr : Map) (uninit p : MapPoint) : Dog :=
  { (((Dog.create g.dog_counter player.userName uninit).SetPos p).SetMovementSpeed
      map_ptr.map_default_dogs_speed).SetBagCapacity map_ptr.map_default_bag_capacity
    with addr_ := g.next_addr }

/-- Method `Game::AddPlayer`.  `none` stands for undefined behaviour: an unknown
map, or a map without roads, whose first road is read all the same. -/
def Game.AddPlayer (g : Game) (player : Player) (map_id : String) (draws : JoinDraws) :
    Option Game :=
  match g.FindMap map_id with
  | none => none
  | some map_ptr =>
    let spawn := if g.dog_random_spawning_mode_ then GetRandomMapPointOnRoads map_ptr draws
      else GetBeginMapPointOnRoads map_ptr
    match spawn with
    | none => none
    | some p =>
      let dog : Dog := g.newDog player map_ptr draws.uninit p
      let player := { player with player_dog_ := some { addr := dog.addr_, id_ := dog.id_ } }
      let g := { g with dog_counter := g.dog_counter + 1, next_addr := g.next_addr + 1 }
      match g.findSessionIndex map_id with
      | none =>
        let new_session : GameSession :=
          { dogs_ := [dog], loot_ := [], map_ := map_ptr, id_ := g.session_counter_ }
        let player := { player with current_session_id_ := new_session.id_ }
        some { g with
          session_counter_ := g.session_counter_ + 1
          game_sessions_ := g.game_sessions_ ++ [new_session]
          sessions_ := Game.assignSessionIndex g.sessions_ map_id g.game_sessions_.length
          players_ := Game.emplacePlayer g.players_ player }
      | some idx =>
        match g.game_sessions_[idx]? with
        | none => none
        | some session =>
          let player := { player with current_session_id_ := session.id_ }
          some { g with
            game_sessions_ :=
              g.game_sessions_.set idx { session with dogs_ := session.dogs_ ++ [dog] }
            players_ := Game.emplacePlayer g.players_ player }

/-- The answer of `RequestHandler::HandleJoinGame`: status `200` with token and player
id, or an error with its status and the `code` field of its body. -/
inductive JoinResponse where
  | ok (authToken : String) (playerId : ℤ)
  | error (status : ℕ) (code : String)
  deriving DecidableEq, Repr

/-- Method `RequestHandler::HandleJoinGame` for a `POST` with content type
`application/json` whose body is an object with the strings `userName` and
`mapId`.  `none` stands for the undefined behaviour of `Game::AddPlayer`. -/
def HandleJoinGame (g : Game) (username map_id : String) (draws : JoinDraws) :
    Option (JoinResponse × Game) :=
  if username = "" then some (JoinResponse.error 400 "invalidArgument", g)
  else
    match g.FindMap map_id with
    | none => some (JoinResponse.error 404 "mapNotFound", g)
    | some map =>
      if map_id = "" then some (JoinResponse.error 404 "mapNotFound", g)
      else
        let player_id : ℤ := (map.player_id_counter_ : ℤ)
        let g := { g with maps_ := Game.bumpPlayerIdCounter g.maps_ map_id }
        let auth_token := GenerateAuthToken draws.token
        let new_player : Player :=
          { playerId := player_id, userName := username, authToken := auth_token }
        (g.AddPlayer new_player map.id_ draws).map fun g =>
          (JoinResponse.ok auth_token player_id, g)

/-! ## Saving and loading the game state -/

/-- The class `PlayerRepr`. -/
structure PlayerRepr where
  id_ : ℤ
  name_ : String
  token_ : String
  session_id_ : ℕ
  dog_id_ : ℕ
  deriving DecidableEq, Repr

/-- Constructor `PlayerRepr(const Player& player)`; `none` when the player's dog
pointer is null, which the constructor dereferences. -/
def PlayerRepr.ofPlayer (player : Player) : Option PlayerRepr :=
  player.player_dog_.map fun dog =>
    { id_ := player.playerId, name_ := player.userName, token_ := player.authToken
      session_id_ := player.current_session_id_, dog_id_ := dog.id_ }

/-- Method `PlayerRepr::Restore`. -/
def PlayerRepr.Restore (r : PlayerRepr) (dog : Option DogHandle) : Player :=
  { playerId := r.id_, userName := r.name_, authToken := r.token_
    current_session_id_ := r.session_id_, player_dog_ := dog }

/-- The class `GameSessionRepr` (the playtime sheet it also stores is always empty). -/
structure GameSessionRepr where
  id_ : ℕ
  dogs_ : List DogRepr
  loots_ : List LootRepr
  map_id_ : String
  deriving DecidableEq, Repr

/-- Constructor `GameSessionRepr(const GameSessionSharedPtr session)`. -/
def GameSessionRepr.ofSession (session : GameSession) : GameSessionRepr :=
  { id_ := session.id_
    dogs_ := session.dogs_.map DogRepr.ofDog
    loots_ := session.loot_.map LootRepr.ofLoot
    map_id_ := session.map_.id_ }

/-- What `Game::SaveGameState` writes to the archive, in this order. -/
structure Snapshot where
  dog_id_to_session_id_ : List (ℕ × ℕ)
  sessions : List GameSessionRepr
  players : List PlayerRepr
  deriving DecidableEq, Repr

/-- The `try` block of `Game::SaveGameState` up to the closing of the stream: the
content of the archive. -/
def Game.snapshot (g : Game) : Option Snapshot :=
  (g.players_.mapM PlayerRepr.ofPlayer).map fun players =>
    { dog_id_to_session_id_ := g.dog_id_to_session_id_
      sessions := g.game_sessions_.map GameSessionRepr.ofSession
      players := players }

/-- Method `GameSession::GetDog`: the first dog of the roster with the id. -/
def GameSession.GetDog (s : GameSession) (dog_id : ℕ) : Option Dog :=
  s.dogs_.find? (fun d => decide (d.id_ = dog_id))

/-- Method `GameSession::UpdateGameSessionCounter`: it compares the id with the
session's own member `session_counter` and writes that member. -/
def GameSession.UpdateGameSessionCounter (s : GameSession) : GameSession :=
  if s.id_ > s.session_counter then { s with session_counter := s.id_ } else s

/-- The loop over `dogs_` in `GameSessionRepr::Restore`: each dog is restored, copied
into a new shared object and added to the roster, and `SetDogToSessionId` records
its session. -/
def restoreDogs (uninitPoint : MapPoint) (uninit : ℕ → Loot) :
    List DogRepr → GameSession → Game → Option (GameSession × Game)
  | [], session, g => some (session, g)
  | dog_repr :: rest, session, g =>
    match dog_repr.Restore g.dog_counter g.next_addr uninitPoint uninit with
    | none => none
    | some (dog, dog_counter, next_addr) =>
      restoreDogs uninitPoint uninit rest
        { session with dogs_ := session.dogs_ ++ [{ dog with addr_ := next_addr }] }
        { g with
          dog_counter := dog_counter
          next_addr := next_addr + 1
          dog_id_to_session_id_ := umapAssign g.dog_id_to_session_id_ dog_repr.id_ session.id_ }

/-- The loop over `loots_` in `GameSessionRepr::Restore`. -/
def restoreLoots : List LootRepr → GameSession → ℕ → GameSession × ℕ
  | [], session, next_addr => (session, next_addr)
  | loot_repr :: rest, session, next_addr =>
    restoreLoots rest { session with loot_ := session.loot_ ++ [loot_repr.Restore next_addr] }
      (next_addr + 1)

/-- Method `GameSessionRepr::Restore`; `none` when it throws. -/
def GameSessionRepr.Restore (r : GameSessionRepr) (g : Game) (uninitPoint : MapPoint)
    (uninit : ℕ → Loot) : Option (GameSession × Game) :=
  match g.FindMap r.map_id_ with
  | none => none
  | some map =>
    let session := GameSession.UpdateGameSessionCounter { map_ := map, id_ := r.id_ }
    match restoreDogs uninitPoint uninit r.dogs_ session g with
    | none => none
    | some (session, g) =>
      let res := restoreLoots r.loots_ session g.next_addr
      some (res.1, { g with next_addr := res.2 })

/-- The loop over the sessions in `Game::LoadGameState`. -/
def restoreSessions (uninitPoint : MapPoint) (uninit : ℕ → Loot) :
    List GameSessionRepr → Game → Option Game
  | [], g => some g
  | sess_repr :: rest, g =>
    match sess_repr.Restore g uninitPoint uninit with
    | none => none
    | some (sess, g) =>
      restoreSessions uninitPoint uninit rest
        { g with
          game_sessions_ := g.game_sessions_ ++ [sess]
          sessions_ := Game.assignSessionIndex g.sessions_ sess.map_.id_ g.game_sessions_.length }

/-- The call `map_->SetPlayerIdCounter(counter)` on the registered map with the id. -/
def Game.setPlayerIdCounter (maps : List Map) (id : String) (counter : ℕ) : List Map :=
  match maps with
  | [] => []
  | m :: rest =>
    if m.id_ = id then { m with player_id_counter_ := counter } :: rest
    else m :: Game.setPlayerIdCounter rest id counter

/-- The loop over the players in `Game::LoadGameState`; `none` when it throws: the dog
id is missing from `dog_id_to_session_id_`, or `game_sessions_.at` is out of range.
A restored session shares its map with `maps_`, so `UpdateSessionPlayersIdCounter`
writes the registered map. -/
def restorePlayers : List PlayerRepr → Game → Option Game
  | [], g => some g
  | player_repr :: rest, g =>
    match umapFind g.dog_id_to_session_id_ player_repr.dog_id_ with
    | none => none
    | some sid =>
      match g.game_sessions_[sid]? with
      | none => none
      | some session =>
        let player := player_repr.Restore
          ((session.GetDog player_repr.dog_id_).map fun d => { addr := d.addr_, id_ := d.id_ })
        restorePlayers rest
          { g with
            players_ := Game.emplacePlayer g.players_ player
            maps_ := Game.setPlayerIdCounter g.maps_ session.map_.id_ session.dogs_.length
            game_sessions_ := g.game_sessions_.set sid
              { session with
                map_ := { session.map_ with player_id_counter_ := session.dogs_.length } } }

/-- The `try` block of `Game::LoadGameState` on the content of the archive. -/
def Game.LoadGameState (g : Game) (snap : Snapshot) (uninitPoint : MapPoint)
    (uninit : ℕ → Loot) : Option Game :=
  match restoreSessions uninitPoint uninit snap.sessions
      { g with dog_id_to_session_id_ := snap.dog_id_to_session_id_ } with
  | none => none
  | some g => restorePlayers snap.players g

/-! ## The tick at the level of the game -/

/-- Method `GameSession::RemoveDog`: erases the first dog of the roster with the id. -/
def GameSession.RemoveDog (s : GameSession) (dog_id : ℕ) : GameSession :=
  { s with dogs_ := s.dogs_.eraseP (fun d => decide (d.id_ = dog_id)) }

/-- Modelled from the spec: `Game::RemovePlayerAndSaveStats` is called in `model.h` but
defined nowhere in the sources.  The spec: the dog is removed "from the session
roster (player registry entry and token remain valid)"; the leaderboard record it
also writes is outside the game state. -/
def RemovePlayerAndSaveStats (dog : Dog) (session : GameSession) : GameSession :=
  session.RemoveDog dog.id_

/-- The loop over the dogs of a session in `Game::MovePlayersAndUpdateLoot`.  The loop
runs over a copy of the roster, so every dog is visited once; the removals are
applied in the order of the visits. -/
def tickSessionDogs (default_afk_time : ℚ) (tick_time : ℕ) (session : GameSession) :
    GameSession :=
  let results := session.dogs_.map (tickDog default_afk_time tick_time session.map_.roads_)
  ((results.filter (fun r => r.2)).map (fun r => r.1)).foldl
    (fun s dog => RemovePlayerAndSaveStats dog s)
    { session with dogs_ := results.map (fun r => r.1) }

/-- Method `Map::GetLootValueByTypeID`: `loot_id_to_value_.at(id)`.  The method is
`noexcept`, so for an `id` that is not a key the exception of `at` ends the process;
the value `0` returned here for such an `id` stands for no run of the program.  The
concrete ticks that spawn loot are run on `lootMap`, which has the type asked for. -/
def Map.GetLootValueByTypeID (map : Map) (id : ℕ) : ℕ :=
  (umapFind map.loot_id_to_value_ id).getD 0

/-- Constructor `Loot(int loot_type, int value, MapPoint position)` for the counter
value `loot_counter`, the object being at address `addr`. -/
def Loot.create (loot_counter addr : ℕ) (loot_type value : ℤ) (position : MapPoint) :
    LootSharedPtr :=
  { addr := addr
    obj := { loot_type_ := loot_type, position_ := position, id_ := loot_counter
             value_ := value } }

/-- The `while` loop of `Game::UpdateLoot`.  `spawns` lists, for each item the
generator asks for, the type and the position that are drawn; the result carries
the new `loot_counter` and allocator position. -/
def UpdateLoot : List (ℤ × MapPoint) → GameSession → ℕ → ℕ → GameSession × ℕ × ℕ
  | [], session, loot_counter, next_addr => (session, loot_counter, next_addr)
  | (loot_type, loot_pos) :: rest, session, loot_counter, next_addr =>
    let loot_value : ℤ := (session.map_.GetLootValueByTypeID loot_type.toNat : ℤ)
    UpdateLoot rest
      { session with
        loot_ := session.loot_
          ++ [Loot.create loot_counter next_addr loot_type loot_value loot_pos] }
      (loot_counter + 1) (next_addr + 1)

/-- The loop over the sessions in `Game::MovePlayersAndUpdateLoot`, from the session
at position `idx` on.  `spawns idx` is what the loot generator and the random
draws yield for that session. -/
def tickSessions (default_afk_time : ℚ) (tick_time : ℕ) (spawns : ℕ → List (ℤ × MapPoint)) :
    List GameSession → ℕ → ℕ → ℕ → List GameSession × ℕ × ℕ
  | [], _, loot_counter, next_addr => ([], loot_counter, next_addr)
  | session :: rest, idx, loot_counter, next_addr =>
    let r := UpdateLoot (spawns idx)
      (UpdateGatheredLoot (tickSessionDogs default_afk_time tick_time session))
      loot_counter next_addr
    let rs := tickSessions default_afk_time tick_time spawns rest (idx + 1) r.2.1 r.2.2
    (r.1 :: rs.1, rs.2)

/-- Method `Game::MovePlayersAndUpdateLoot`. -/
def Game.MovePlayersAndUpdateLoot (g : Game) (tick_time : ℕ)
    (spawns : ℕ → List (ℤ × MapPoint)) : Game :=
  let r := tickSessions g.default_afk_time tick_time spawns g.game_sessions_ 0
    g.loot_counter g.next_addr
  { g with game_sessions_ := r.1, loot_counter := r.2.1, next_addr := r.2.2 }

/-- The effect of `current_player_dog->SetDirection(direction)` in `HandleAction`: the
dog the handle points to is the roster entry at that address, if it is in a roster. -/
def Game.setDogDirection (g : Game) (dog : DogHandle) (direction : String) : Game :=
  { g with
    game_sessions_ := g.game_sessions_.map fun s =>
      { s with dogs_ := s.dogs_.map fun d =>
          if d.addr_ = dog.addr then d.SetDirection direction else d } }

/-- A game as `json_loader::LoadGame` returns it: maps only, every counter at zero. -/
def Game.IsFresh (g : Game) : Prop :=
  g.players_ = [] ∧ g.game_sessions_ = [] ∧ g.sessions_ = [] ∧ g.dog_id_to_session_id_ = []
  ∧ g.session_counter_ = 0 ∧ g.dog_counter = 0 ∧ g.loot_counter = 0 ∧ g.next_addr = 0
  ∧ ∀ m ∈ g.maps_, m.player_id_counter_ = 0

/-- The states a game reaches from `g0` by joins, direction changes and ticks. -/
inductive Game.Reachable (g0 : Game) : Game → Prop where
  | start : Game.Reachable g0 g0
  | join (g g' : Game) (username map_id : String) (draws : JoinDraws) (resp : JoinResponse) :
      Game.Reachable g0 g → HandleJoinGame g username map_id draws = some (resp, g') →
      Game.Reachable g0 g'
  | action (g : Game) (token direction : String) (player : Player) (dog : DogHandle) :
      Game.Reachable g0 g → g.FindPlayerByToken token = some player →
      player.player_dog_ = some dog → Game.Reachable g0 (g.setDogDirection dog direction)
  | tick (g : Game) (tick_time : ℕ) (spawns : ℕ → List (ℤ × MapPoint)) :
      Game.Reachable g0 g → Game.Reachable g0 (g.MovePlayersAndUpdateLoot tick_time spawns)

/-! ## Concrete games for saving, loading and joining -/

/-- An office at `(5,1)`: at distance `0.7` from the line `y = 0.3`. -/
def farOffice : Office :=
  { id_ := "o1", position_ := { x := 5, y := 1 }, offset_ := (0, 0) }

/-- The draws of a join: every token draw is `digit`, nothing else matters. -/
def drawsOf (digit : Fin 16) : JoinDraws :=
  { token := fun _ => digit, uninit := { x := 0, y := 0 } }

/-- The content of uninitialised `Loot` memory in the examples: id `999` at `(0,0)`. -/
def staleLoot (_ : ℕ) : Loot :=
  { loot_type_ := 0, position_ := { x := 0, y := 0 }, id_ := 999, value_ := 0 }

/-- A freshly loaded game with the maps `cornerMap` (`"map1"`) and `plainMap` (`"map2"`). -/
def twoMapsGame : Game := { maps_ := [cornerMap, plainMap] }

/-- The record of a dog with the given id, standing at `(0,10)` on `cornerMap`. -/
def dogReprOf (id : ℕ) (name : String) : DogRepr :=
  DogRepr.ofDog
    ((((Dog.create id name { x := 0, y := 0 }).SetPos { x := 0, y := 10 }).SetMovementSpeed
      1).SetBagCapacity 3)

/-- A snapshot with one session on `"map1"` holding the dogs `0` and `2` (dog `1` has
left the roster), and no players. -/
def gapSnapshot : Snapshot :=
  { dog_id_to_session_id_ := []
    sessions := [{ id_ := 0, dogs_ := [dogReprOf 0 "Ann", dogReprOf 2 "Cid"], loots_ := []
                   map_id_ := "map1" }]
    players := [] }

/-- The game after `n` joins out of the list, from `g`; `none` once a join is undefined. -/
def joinAll : List (String × String × Fin 16) → Game → Option Game
  | [], g => some g
  | (username, map_id, digit) :: rest, g =>
    match HandleJoinGame g username map_id (drawsOf digit) with
    | none => none
    | some r => joinAll rest r.2

/-- The game `twoMapsGame` after Ann joined `"map1"`, Bob `"map2"` and Cid `"map1"`. -/
def threeJoins : Option Game :=
  joinAll [("Ann", "map1", 1), ("Bob", "map2", 2), ("Cid", "map1", 3)] twoMapsGame

/-- Saving a game and loading the archive into `twoMapsGame`. -/
def saveAndLoad (g : Game) : Option Game :=
  match g.snapshot with
  | none => none
  | some snap => twoMapsGame.LoadGameState snap { x := 0, y := 0 } staleLoot

/-- The ids of the dogs of a game, session by session. -/
def Game.dogIds (g : Game) : List (List ℕ) :=
  g.game_sessions_.map fun s => s.dogs_.map Dog.id_

/-- The names of the dogs of a game, session by session. -/
def Game.dogNames (g : Game) : List (List String) :=
  g.game_sessions_.map fun s => s.dogs_.map Dog.name_

/-- The ids of the loot of a game, session by session. -/
def Game.lootIds (g : Game) : List (List ℕ) :=
  g.game_sessions_.map fun s => s.loot_.map fun l => l.obj.id_

/-- Every entry of the session-by-map index points into `game_sessions_`. -/
def Game.SessionsIndexed (g : Game) : Prop :=
  ∀ kv ∈ g.sessions_, kv.2 < g.game_sessions_.length

/-- The draws of a join are in the ranges of their distributions: with the
randomized spawn on, the road index is below the number of roads of every map. -/
def Game.DrawsInRange (g : Game) (draws : JoinDraws) : Prop :=
  g.dog_random_spawning_mode_ = true → ∀ m ∈ g.maps_, draws.road < m.roads_.length

/-- A game whose only map has the empty string as its id. -/
def namelessMapGame : Game := { maps_ := [{ cornerMap with id_ := "" }] }

/-- The answer is a success. -/
def JoinResponse.isOk : JoinResponse → Bool
  | JoinResponse.ok _ _ => true
  | JoinResponse.error _ _ => false

/-- A sequence of join requests (user name, map id, draws) handled one after the
other: the map id and the answer of each, and the final game; `none` once a join is
undefined. -/
def joinRun : List (String × String × JoinDraws) → Game →
    Option (List (String × JoinResponse) × Game)
  | [], g => some ([], g)
  | (username, map_id, draws) :: rest, g =>
    match HandleJoinGame g username map_id draws with
    | none => none
    | some (resp, g1) =>
      (joinRun rest g1).map fun r => ((map_id, resp) :: r.1, r.2)

/-- The number of successful joins to the map in a log of answers. -/
def successesOn (map_id : String) (log : List (String × JoinResponse)) : ℕ :=
  log.countP (fun e => decide (e.1 = map_id) && e.2.isOk)

/-- The id of a session and the ids of the dogs of its roster, in order. -/
def GameSession.core (s : GameSession) : ℕ × List ℕ := (s.id_, s.dogs_.map Dog.id_)

/-- The pairs (dog id, session id) over all rosters, in the order of restoring. -/
def sessionPairs (sessions : List GameSession) : List (ℕ × ℕ) :=
  sessions.flatMap fun s => s.dogs_.map fun d => (d.id_, s.id_)

/-- The id and the roster of every session of a game, in order. -/
def Game.rosters (g : Game) : List (ℕ × List Dog) :=
  g.game_sessions_.map fun s => (s.id_, s.dogs_)

/-- The player `Game::LoadGameState` builds from a record when the dog index sends the
record's dog to the session at position `session_id_`: the dog pointer is the first
dog of that roster with the saved dog id. -/
def restoredPlayerOf (rosters : List (ℕ × List Dog)) (r : PlayerRepr) : Player :=
  r.Restore
    ((rosters[r.session_id_]?.bind fun c => c.2.find? fun d => decide (d.id_ = r.dog_id_)).map
      fun d => { addr := d.addr_, id_ := d.id_ })

/-- What holds of every game state reached from the fresh game `g0`: the dog index is
empty, the session at position `i` has id `i`, every session is on a registered
map, dog ids are below the counter and differ from one session to the other, the
tokens are pairwise distinct, a dog with a player's dog id can only be in the
session the player records, and no roster holds two dogs with one id. -/
structure Game.Inv (g0 g : Game) : Prop where
  index_empty : g.dog_id_to_session_id_ = []
  session_ids : ∀ (i : ℕ) (s : GameSession), g.game_sessions_[i]? = some s → s.id_ = i
  session_count : g.session_counter_ = g.game_sessions_.length
  map_ids : g.maps_.map Map.id_ = g0.maps_.map Map.id_
  session_maps : ∀ s ∈ g.game_sessions_, s.map_.id_ ∈ g0.maps_.map Map.id_
  dog_ids_lt : ∀ s ∈ g.game_sessions_, ∀ d ∈ s.dogs_, d.id_ < g.dog_counter
  dog_ids_apart : ∀ (i j : ℕ) (s t : GameSession) (d e : Dog),
    g.game_sessions_[i]? = some s → g.game_sessions_[j]? = some t →
    d ∈ s.dogs_ → e ∈ t.dogs_ → d.id_ = e.id_ → i = j
  tokens : (g.players_.map Player.authToken).Nodup
  players : ∀ p ∈ g.players_, ∃ h, p.player_dog_ = some h ∧ h.id_ < g.dog_counter
    ∧ ∀ (i : ℕ) (s : GameSession) (d : Dog),
        g.game_sessions_[i]? = some s → d ∈ s.dogs_ → d.id_ = h.id_ →
        i = p.current_session_id_
  roster_ids : ∀ s ∈ g.game_sessions_, (s.dogs_.map Dog.id_).Nodup

/-- The session `s'` is the session `s` with some dogs changed or gone: same id, same
map id, and the dog ids of `s'` are those of `s` with some left out. -/
def GameSession.Shrinks (s s' : GameSession) : Prop :=
  s'.id_ = s.id_ ∧ s'.map_.id_ = s.map_.id_
  ∧ (s'.dogs_.map Dog.id_).Sublist (s.dogs_.map Dog.id_)

/-- The game `g'` is the game `g` up to its loot, its allocator and the dogs of its
sessions, which shrink position by position. -/
def Game.Shrinks (g g' : Game) : Prop :=
  g'.dog_id_to_session_id_ = g.dog_id_to_session_id_
  ∧ g'.session_counter_ = g.session_counter_ ∧ g'.maps_ = g.maps_
  ∧ g'.players_ = g.players_ ∧ g'.dog_counter = g.dog_counter
  ∧ g'.game_sessions_.length = g.game_sessions_.length
  ∧ ∀ (i : ℕ) (s' : GameSession), g'.game_sessions_[i]? = some s' →
      ∃ s, g.game_sessions_[i]? = some s ∧ s.Shrinks s'

/-- Every registered player's dog is in the roster of a session: no dog has left its
roster while its player stayed in the registry. -/
def Game.DogsInRosters (g : Game) : Prop :=
  ∀ p ∈ g.players_, ∃ s ∈ g.game_sessions_, ∃ d ∈ s.dogs_,
    some d.id_ = p.player_dog_.map DogHandle.id_

instance (g : Game) : Decidable g.DogsInRosters := by
  unfold Game.DogsInRosters
  infer_instance

/-- The game `twoMapsGame` after Ann joined `"map1"`. -/
def annJoined : Game :=
  ((HandleJoinGame twoMapsGame "Ann" "map1" (drawsOf 1)).map Prod.snd).getD twoMapsGame

/-- The game `annJoined` after one tick of `60000` ms without new loot: Ann's dog has
stood still for the whole retirement time of `60` s. -/
def retiredGame : Game := annJoined.MovePlayersAndUpdateLoot 60000 (fun _ => [])

/-! ## Rounding of coordinates -/

/-- A number is an integer multiple of `1/100`. -/
def IsCentesimal (q : ℚ) : Prop := ∃ k : ℤ, q = (k : ℚ) / 100

/-- A dog at `(0,0)` on `eastRoad`, of speed `1`, told to go east. -/
def slowDog : Dog :=
  ((((Dog.create 0 "Rex" { x := 0, y := 0 }).SetPos { x := 0, y := 0 }).SetMovementSpeed
    1).SetBagCapacity 3).SetDirection "R"

/-! ## model.h: `Game::Update` and the auto-save accumulator -/

/-- The conversion of an integer to `int64_t`: the value modulo `2^64` in the range
`-2^63 .. 2^63 - 1`. -/
def toInt64 (n : ℤ) : ℤ := (n + 2 ^ 63) % 2 ^ 64 - 2 ^ 63

/-- Method `Game::Update(std::uint64_t time_delta)`, the overload `HandleTick` calls.
The flag tells whether `SaveGameState` is called.  `passed_time` and `save_period`
are `int64_t`, `time_delta` is `uint64_t`: the sum `passed_time += time_delta` is
formed modulo `2^64` and converted back to `int64_t`.  `SaveGameState` is taken to
return: when it throws (`FS::create_directories` failing with an exception) the
exception leaves `Update` before `passed_time = 0` is reached. -/
def Game.Update (g : Game) (time_delta : ℕ) (spawns : ℕ → List (ℤ × MapPoint)) :
    Game × Bool :=
  let g := g.MovePlayersAndUpdateLoot time_delta spawns
  let g := { g with passed_time := toInt64 (g.passed_time + (time_delta : ℤ)) }
  if g.passed_time ≥ g.save_period ∧ g.manual_time_control_ = true
      ∧ g.state_file_path_ ≠ "" then
    ({ g with passed_time := 0 }, true)
  else (g, false)

/-- A game in manual mode with the state file `"state"`, the save period `10` ms and
`1` ms on the accumulator. -/
def autosaveGame : Game :=
  { maps_ := [cornerMap], manual_time_control_ := true, state_file_path_ := "state"
    save_period := 10, passed_time := 1 }

/-! ## request_handler.h: `HandleAction` -/

/-- The answer of `RequestHandler::HandleAction`: status `200`, or an error with its
status and the `code` field of its body. -/
inductive ActionResponse where
  | ok
  | error (status : ℕ) (code : String)
  deriving DecidableEq, Repr

/-- Method `RequestHandler::HandleAction` for a `POST` with content type
`application/json`, the header `Authorization: Bearer <token>` and a body that is an
object with the string `move`.  `none` stands for the dereferencing of a null dog
pointer. -/
def HandleAction (g : Game) (token direction : String) : Option (ActionResponse × Game) :=
  if token.utf8ByteSize ≠ 32 then some (ActionResponse.error 401 "invalidToken", g)
  else
    match g.FindPlayerByToken token with
    | none => some (ActionResponse.error 401 "unknownToken", g)
    | some player =>
      match player.player_dog_ with
      | none => none
      | some current_player_dog =>
        some (ActionResponse.ok, g.setDogDirection current_player_dog direction)

/-- The velocities of the dogs of a game, session by session. -/
def Game.dogSpeeds (g : Game) : List (List MapSpeed) :=
  g.game_sessions_.map fun s => s.dogs_.map Dog.speed_

/-- The facing directions of the dogs of a game, session by session. -/
def Game.dogDirs (g : Game) : List (List DIRECTION) :=
  g.game_sessions_.map fun s => s.dogs_.map Dog.dir_

/-- The token of the join with the draws `drawsOf 1`: thirty-two times `1`. -/
def annToken : String := GenerateAuthToken (drawsOf 1).token

/-- The game `annJoined` after Ann asked her dog to go east (`"R"`). -/
def annEast : Game :=
  ((HandleAction annJoined annToken "R").map Prod.snd).getD annJoined

/-! ## Concrete sessions for the gathering pass -/

/-- A session of `plainMap` with two dogs that both went from `(0,0)` to `(10,0)` in
the tick, both with an empty bag of capacity `3`, and `coin` at `(5,0)` on their way. -/
def twoCollectors : GameSession :=
  { dogs_ := [runner, { runner with id_ := 1, name_ := "Tom_1", addr_ := 1 }]
    loot_ := [coin], map_ := plainMap }

/-- The bags of the dogs of a session, as lists of loot addresses. -/
def GameSession.bags (s : GameSession) : List (List ℕ) :=
  s.dogs_.map fun d => d.lootbag_.map LootSharedPtr.addr

/-! ## A dog that stopped -/

/-- The map `cornerMap` with one loot type, of value `10`. -/
def lootMap : Map := { cornerMap with loot_types_count_ := 1, loot_id_to_value_ := [(0, 10)] }

/-- A freshly loaded game with the map `lootMap`; Ann joins (her dog stands at
`(0,10)` with speed `1`), asks to go east, and a tick of `2000` ms passes in which the
dog goes to `(2,10)` and, after the gathering, one loot item is spawned at `(1,10)`;
then Ann sends the stop command. -/
def stoppedGame : Game :=
  let g0 : Game := { maps_ := [lootMap] }
  let g1 := ((HandleJoinGame g0 "Ann" "map1" (drawsOf 1)).map Prod.snd).getD g0
  let g2 := ((HandleAction g1 annToken "R").map Prod.snd).getD g1
  let g3 := g2.MovePlayersAndUpdateLoot 2000 (fun _ => [(0, { x := 1, y := 10 })])
  ((HandleAction g3 annToken "").map Prod.snd).getD g3

/-- A freshly loaded game with the maps `lootMap` (`"map1"`, with the loot type `0` of
value `10`) and `plainMap` (`"map2"`). -/
def lootMapsGame : Game := { maps_ := [lootMap, plainMap] }

/-- The game `lootMapsGame` after one join to `"map1"` and a tick of `1000` ms during
which one loot item of type `0` is spawned at `(3,10)`. -/
def spawnedGame : Option Game :=
  (joinAll [("Ann", "map1", 1)] lootMapsGame).map fun g =>
    g.MovePlayersAndUpdateLoot 1000 (fun _ => [(0, { x := 3, y := 10 })])

/-- Saving a game and loading the archive into the fresh `lootMapsGame`. -/
def saveAndReload (g : Game) : Option Game :=
  match g.snapshot with
  | none => none
  | some snap => lootMapsGame.LoadGameState snap { x := 0, y := 0 } staleLoot

/-- The ids and values of the loot of a game, session by session. -/
def Game.lootIdsAndValues (g : Game) : List (List (ℕ × ℤ)) :=
  g.game_sessions_.map fun s => s.loot_.map fun l => (l.obj.id_, l.obj.value_)

/-- The bags of the dogs of a game, session by session, as lists of loot ids. -/
def Game.bagIds (g : Game) : List (List (List ℕ)) :=
  g.game_sessions_.map fun s => s.dogs_.map fun d => d.lootbag_.map fun l => l.obj.id_

/-- The positions of the dogs of a game, session by session. -/
def Game.dogPositions (g : Game) : List (List MapPoint) :=
  g.game_sessions_.map fun s => s.dogs_.map Dog.pos_

/-- The segments `GameItemGathererProvider::GetGatherer` hands out for the dogs of a
game, session by session: previous position and position. -/
def Game.gathererSegments (g : Game) : List (List (Point2D × Point2D)) :=
  g.game_sessions_.map fun s =>
    (List.range s.dogs_.length).map fun i =>
      ((dogGatherer s.dogs_ i).start_pos, (dogGatherer s.dogs_ i).end_pos)

/-! ## Sessions and the session-by-map index -/

/-- The map ids of the sessions of a game, in the order of `game_sessions_`. -/
def Game.sessionMapIds (g : Game) : List String := g.game_sessions_.map fun s => s.map_.id_

/-- The session list and the session-by-map index agree: the index has one entry per
key, every entry points to a session of the list on the map of its key, every
session of the list is the entry of its map, and the session at position `i` has
the id `i`. -/
structure Game.IndexInv (g : Game) : Prop where
  keys : (g.sessions_.map Prod.fst).Nodup
  index_sound : ∀ kv ∈ g.sessions_,
    ∃ s, g.game_sessions_[kv.2]? = some s ∧ s.map_.id_ = kv.1
  index_complete : ∀ (i : ℕ) (s : GameSession), g.game_sessions_[i]? = some s →
    (s.map_.id_, i) ∈ g.sessions_
  session_ids : ∀ (i : ℕ) (s : GameSession), g.game_sessions_[i]? = some s → s.id_ = i
  session_count : g.session_counter_ = g.game_sessions_.length

/-- Three join requests: Ann to `"map1"`, Bob to `"map2"`, Cid to `"map1"`. -/
def sampleJoins : List (String × String × JoinDraws) :=
  [("Ann", "map1", drawsOf 1), ("Bob", "map2", drawsOf 2), ("Cid", "map1", drawsOf 3)]

/-- The answers to `sampleJoins` on `twoMapsGame`. -/
def sampleLog : List (String × JoinResponse) :=
  ((joinRun sampleJoins twoMapsGame).map Prod.fst).getD []

/-- The game `twoMapsGame` after `sampleJoins`. -/
def sampleGame : Game := ((joinRun sampleJoins twoMapsGame).map Prod.snd).getD twoMapsGame

/-! ## request_handler.h: static files

A path is kept as the list of its components below the root directory `/`.  The
file system has no symbolic links and every directory a path names on its way
exists, so that `fs::weakly_canonical` and the resolution of a path by the operating
system both amount to the lexical removal of `.` and `..`.  A `char` is a byte; the
characters of a string stand for its bytes. -/

/-- The value of a hexadecimal digit. -/
def hexDigitValue (c : Char) : Option ℕ :=
  if '0' ≤ c ∧ c ≤ '9' then some (c.toNat - '0'.toNat)
  else if 'a' ≤ c ∧ c ≤ 'f' then some (c.toNat - 'a'.toNat + 10)
  else if 'A' ≤ c ∧ c ≤ 'F' then some (c.toNat - 'A'.toNat + 10)
  else none

/-- The statement `std::istringstream(two) >> std::hex >> hex_value` followed by
`static_cast<char>(hex_value)`, for the two characters `a`, `b`: the digits read up to
the first character that is none, after white space (space, `\t`, `\n`, `\v`, `\f`,
`\r`) or a sign; `0` when no digit is read. -/
def hexPairChar (a b : Char) : Char :=
  match hexDigitValue a, hexDigitValue b with
  | some x, some y => Char.ofNat (16 * x + y)
  | some x, none => Char.ofNat x
  | none, some y =>
    if a = '+' ∨ a.isWhitespace ∨ a.toNat = 11 ∨ a.toNat = 12 then Char.ofNat y
    else if a = '-' then Char.ofNat ((256 - y) % 256)
    else Char.ofNat 0
  | none, none => Char.ofNat 0

/-- The loop of `RequestHandler::DecodeURL`: a `%` with two characters after it is
replaced by the character they spell. -/
def decodeChars : List Char → List Char
  | '%' :: a :: b :: rest => hexPairChar a b :: decodeChars rest
  | c :: rest => c :: decodeChars rest
  | [] => []

/-- Method `RequestHandler::DecodeURL`. -/
def DecodeURL (url : String) : String := String.mk (decodeChars url.data)

/-- The components of a path written with `/`: the pieces between the slashes. -/
def splitSlash : List Char → List Char → List String
  | [], piece => [String.mk piece.reverse]
  | c :: rest, piece =>
    if c = '/' then String.mk piece.reverse :: splitSlash rest []
    else splitSlash rest (c :: piece)

/-- The lexical normal form: empty pieces and `.` are dropped, `..` removes the
component before it (at the root there is none to remove).  `above` holds the
components read so far, the last one first. -/
def normalizeComponents : List String → List String → List String
  | [], above => above.reverse
  | c :: rest, above =>
    if c = "" ∨ c = "." then normalizeComponents rest above
    else if c = ".." then normalizeComponents rest above.tail
    else normalizeComponents rest (c :: above)

/-- The call `fs::weakly_canonical(path)`, the process running in the directory `cwd`:
a path that does not start with `/` is taken below `cwd`. -/
def weakly_canonical (cwd : List String) (path : String) : List String :=
  match path.data with
  | '/' :: _ => normalizeComponents (splitSlash path.data []) []
  | _ => normalizeComponents (splitSlash path.data []) cwd.reverse

/-- The loop of `RequestHandler::IsSubPath`: every component of `base` is met, in
order, at the start of `path`. -/
def isSubPathLoop : List String → List String → Bool
  | [], _ => true
  | _ :: _, [] => false
  | b :: base, p :: path => if p ≠ b then false else isSubPathLoop base path

/-- Method `RequestHandler::IsSubPath`. -/
def IsSubPath (cwd : List String) (path base : String) : Bool :=
  isSubPathLoop (weakly_canonical cwd base) (weakly_canonical cwd path)

/-- The regular files of the file system, by their components, and those of them
that cannot be opened for reading. -/
structure StaticFiles where
  regular : List (List String)
  unreadable : List (List String) := []

/-- The answer of `RequestHandler::HandleStaticFileRequest`: status `200` with the
file that was opened, or an error status. -/
inductive StaticResponse where
  | file (opened : List String)
  | error (status : ℕ)
  deriving DecidableEq, Repr

/-- Method `RequestHandler::HandleStaticFileRequest` for the request target `target`,
the handler having the root directory `root_dir_`. -/
def HandleStaticFileRequest (cwd : List String) (files : StaticFiles) (root_dir_ : String)
    (target : String) : StaticResponse :=
  let path := DecodeURL target
  let path := if path = "/" then "/index.html" else path
  let path := root_dir_ ++ path
  let full_path := path
  if ¬ IsSubPath cwd full_path path = true then StaticResponse.error 400
  else if weakly_canonical cwd full_path ∉ files.regular then StaticResponse.error 404
  else if weakly_canonical cwd full_path ∈ files.unreadable then StaticResponse.error 500
  else StaticResponse.file (weakly_canonical cwd full_path)

/-- A file system with the static file `/srv/www/index.html` and, outside the static
root, the file `/srv/secret.txt`. -/
def sampleFiles : StaticFiles :=
  { regular := [["srv", "www", "index.html"], ["srv", "secret.txt"]] }

/-! ## model.cpp: `Game::SaveGameState` on a file system

The disk is explicit state: the content of the regular files and the existing
directories.  A file is named by the components of its path below the root, as
`weakly_canonical` yields them for the working directory of the process, so that
`a/b`, `a//b` and `./a/b` are one file; there are no links.  What can go wrong is an
input: `create_directories` may throw or return `false`, the temporary file may fail
to open, the serialization may throw after some characters, the stream may go bad
without any exception, `rename` may throw; `FS::remove` of the temporary file
succeeds. -/

/-- What a file holds: the archive of a snapshot written to its end, the first
`written` characters of such an archive, or other bytes. -/
inductive FileContent where
  | archive (snap : Snapshot)
  | cut (snap : Snapshot) (written : ℕ)
  | bytes (content : String)
  deriving DecidableEq

/-- The disk: the regular files with their content and the directories, by the
components of their paths, and the working directory of the process. -/
structure Disk where
  files : List String → Option FileContent
  dirs : List String → Bool
  cwd : List String := []

namespace Disk

/-- The file or directory a path names. -/
def key (disk : Disk) (path : String) : List String := weakly_canonical disk.cwd path

/-- The content of the regular file at `path`, if there is one. -/
def read (disk : Disk) (path : String) : Option FileContent := disk.files (disk.key path)

/-- The call `FS::exists(path)`. -/
def «exists» (disk : Disk) (path : String) : Bool :=
  disk.dirs (disk.key path) || (disk.read path).isSome

/-- The file at `path` holds `content` from now on. -/
def put (disk : Disk) (path : String) (content : FileContent) : Disk :=
  { disk with files := fun q => if q = disk.key path then some content else disk.files q }

/-- The call `FS::remove(path)` on a regular file. -/
def remove (disk : Disk) (path : String) : Disk :=
  { disk with files := fun q => if q = disk.key path then none else disk.files q }

/-- The call `FS::rename(source, target)` of a regular file when it succeeds: the
target holds what the source held and the source is gone; nothing happens when both
paths name one file. -/
def rename (disk : Disk) (source target : String) : Disk :=
  if disk.key source = disk.key target then disk
  else
    { disk with
      files := fun q =>
        if q = disk.key target then disk.read source
        else if q = disk.key source then none else disk.files q }

/-- The call `FS::create_directories(path)` when it succeeds: the directory and the
directories above it exist. -/
def create_directories (disk : Disk) (path : String) : Disk :=
  { disk with dirs := fun q => decide (q <+: disk.key path) || disk.dirs q }

end Disk

/-- The call `FS::path(p).parent_path()`: the path without its last component and
the slashes before it (the root `/` for a path directly below it, the empty path
when there is no `/`). -/
def parent_path (p : String) : String :=
  match p.data.reverse.dropWhile (fun c => c ≠ '/') with
  | [] => ""
  | before =>
    if before.dropWhile (fun c => c = '/') = [] then "/"
    else String.mk (before.dropWhile (fun c => c = '/')).reverse

/-- The expression `dir / name` on paths, for a relative `name`. -/
def joinPath (dir name : String) : String :=
  if dir = "" then name
  else if dir.data.getLast? = some '/' then dir ++ name
  else dir ++ "/" ++ name

/-- The path of the temporary file of `Game::SaveGameState`. -/
def tempPath (state_file_path_ : String) : String :=
  joinPath (parent_path state_file_path_) "temp_game_save_data"

/-- What `FS::create_directories` does when `SaveGameState` calls it. -/
inductive MkdirOutcome where
  | created
  | refused
  | threw
  deriving DecidableEq, Repr

/-- What goes wrong during one `Game::SaveGameState`.  `write_fails_after`: an
insertion into the archive throws when so many characters are written.
`lost_after`: the stream goes bad without an exception (an insertion or the flush of
`ofs.close()` fails, on a full disk for one), so that only so many characters of the
archive reach the file; the method does not test `ofs` after it opened it.
`observed`: how many characters of the archive are in the temporary file when the
disk is looked at in the middle of the writing. -/
structure SaveFaults where
  mkdir : MkdirOutcome := MkdirOutcome.created
  open_fails : Bool := false
  write_fails_after : Option ℕ := none
  lost_after : Option ℕ := none
  rename_fails : Bool := false
  observed : ℕ := 0
  deriving DecidableEq, Repr

/-- What the temporary file holds after `ofs.close()` when no insertion threw. -/
def closedContent (snap : Snapshot) (faults : SaveFaults) : FileContent :=
  match faults.lost_after with
  | some written => FileContent.cut snap written
  | none => FileContent.archive snap

/-- The `try` block of `Game::SaveGameState` with its `catch`, the temporary file
being open and empty on `disk`: the states of the disk after each step, the last one
last.  `none` stands for the dereferencing of a null dog pointer by `PlayerRepr`. -/
def saveToTemp (g : Game) (disk : Disk) (faults : SaveFaults) (temp_path : String) :
    Option (List Disk) :=
  match g.snapshot with
  | none => none
  | some snap =>
    match faults.write_fails_after with
    | some written =>
      let cut_short := disk.put temp_path (FileContent.cut snap written)
      some [cut_short, cut_short.remove temp_path]
    | none =>
      let half := disk.put temp_path (FileContent.cut snap faults.observed)
      let closed := disk.put temp_path (closedContent snap faults)
      if faults.rename_fails then some [half, closed, closed.remove temp_path]
      else some [half, closed, closed.rename temp_path g.state_file_path_]

/-- Method `Game::SaveGameState`: the states the disk goes through, in order, and
whether an exception leaves the method. -/
def Game.SaveGameState (g : Game) (disk : Disk) (faults : SaveFaults) :
    Option (List Disk × Bool) :=
  let state_file_dir := parent_path g.state_file_path_
  let mkdir_needed : Bool := decide (state_file_dir ≠ "") && !disk.exists state_file_dir
  if mkdir_needed ∧ faults.mkdir = MkdirOutcome.threw then some ([], true)
  else if mkdir_needed ∧ faults.mkdir = MkdirOutcome.refused then some ([], false)
  else
    let made := if mkdir_needed then [disk.create_directories state_file_dir] else []
    let disk := if mkdir_needed then disk.create_directories state_file_dir else disk
    let temp_path := joinPath state_file_dir "temp_game_save_data"
    if faults.open_fails then some (made, false)
    else
      let opened := disk.put temp_path (FileContent.bytes "")
      (saveToTemp g opened faults temp_path).map fun later => (made ++ opened :: later, false)

/-- The disk after a run: the last state of the trace, or the disk as it was. -/
def finalDisk (disk : Disk) (trace : List Disk) : Disk := trace.getLast?.getD disk

/-- The save that starts on `disk` gets as far as the open temporary file: the
directory is there or gets created, and the file opens. -/
def SaveFaults.Opens (faults : SaveFaults) (g : Game) (disk : Disk) : Prop :=
  (faults.mkdir = MkdirOutcome.created ∨ parent_path g.state_file_path_ = ""
    ∨ disk.exists (parent_path g.state_file_path_) = true)
  ∧ faults.open_fails = false

/-- The save that starts on `disk` gets as far as the renaming, which succeeds: the
temporary file opens, no insertion throws, `rename` does not throw. -/
def SaveFaults.Renames (faults : SaveFaults) (g : Game) (disk : Disk) : Prop :=
  faults.Opens g disk ∧ faults.write_fails_after = none ∧ faults.rename_fails = false

instance (faults : SaveFaults) (g : Game) (disk : Disk) : Decidable (faults.Opens g disk) := by
  unfold SaveFaults.Opens
  infer_instance

instance (faults : SaveFaults) (g : Game) (disk : Disk) :
    Decidable (faults.Renames g disk) := by
  unfold SaveFaults.Renames
  infer_instance

/-- The renaming of the temporary file fails; nothing else does. -/
def renameFault : SaveFaults := { rename_fails := true }

/-- The disk is full: the temporary file is created, but nothing of the archive
reaches it, and no call throws. -/
def diskFull : SaveFaults := { lost_after := some 0 }

/-- The game `annJoined` with the state file `saves/state`. -/
def savingGame : Game := { annJoined with state_file_path_ := "saves/state" }

/-- The game `annJoined` with a state file that has the name of the temporary file. -/
def clashingGame : Game := { annJoined with state_file_path_ := "temp_game_save_data" }

/-- A disk with the directory `/saves` and an older snapshot in `/saves/state`; the
process runs in `/`. -/
def oldDisk : Disk :=
  { files := fun q => if q = ["saves", "state"] then some (FileContent.bytes "old") else none
    dirs := fun q => decide (q = ["saves"] ∨ q = []) }

/-- A disk with an older snapshot in `/temp_game_save_data`; the process runs in `/`. -/
def clashingDisk : Disk :=
  { files := fun q =>
      if q = ["temp_game_save_data"] then some (FileContent.bytes "old") else none
    dirs := fun q => decide (q = []) }

/-- The snapshot of `annJoined`, which is that of `savingGame` and of `clashingGame`. -/
def annSnapshot : Snapshot :=
  annJoined.snapshot.getD { dog_id_to_session_id_ := [], sessions := [], players := [] }

/-- The content of the state file in each state the disk goes through. -/
def stateFileHistory (g : Game) (run : Option (List Disk × Bool)) :
    Option (List (Option FileContent)) :=
  run.map fun r => r.1.map fun d => d.read g.state_file_path_

/-! ## main.cpp and request_handler.h: which executor runs what

`boost::asio` guarantees of a strand that no two of its handlers run at the same
time; handlers of two strands, or posted to the `io_context` itself, run whenever
one of the threads of `ioc.run()` is free. -/

/-- An executor: the `io_context` itself, or a strand made by `net::make_strand(ioc)`,
the strands being numbered in the order of the calls. -/
inductive Executor where
  | io_context
  | strand (n : ℕ)
  deriving DecidableEq, Repr

/-- The command-line options of `main` that decide what is scheduled: whether
`--tick-period`, `--state-file` and `--save-state-period` are given. -/
structure Args where
  tick_period : Bool
  state_file : Bool
  save_state_period : Bool
  deriving DecidableEq, Repr

/-- The API requests and the static-file request, as `HandleRequest` tells them apart. -/
inductive RequestKind where
  | join
  | players
  | state
  | action
  | tick
  | maps
  | record
  | staticFile
  deriving DecidableEq, Repr

/-- The handlers of the program that touch the game: the auto-tick
(`ticker_game_update`), the periodic save (`state_save_ticker`), the save of the
signal handler, and the handling of a request. -/
inductive GameTask where
  | autoTick
  | periodicSave
  | shutdownSave
  | request (kind : RequestKind)
  deriving DecidableEq, Repr

/-- The strand `ticker_strand` of `main`: the first `net::make_strand(ioc)`. -/
def ticker_strand : Executor := Executor.strand 0

/-- The member `strand_` of the `RequestHandler`, made by the constructor's own
`net::make_strand(ioc)` after `ticker_strand`. -/
def strand_ : Executor := Executor.strand 1

/-- The executor `main` and `RequestHandler::operator()` hand a task to, `none` when
the options do not schedule the task.  Modelled from the spec: `ticker.h` is not among
the sources; a `Ticker` runs its handler on the strand it is constructed with. -/
def executorOf (args : Args) : GameTask → Option Executor
  | GameTask.autoTick => if args.tick_period then some ticker_strand else none
  | GameTask.periodicSave =>
    if args.state_file ∧ args.save_state_period ∧ args.tick_period then some ticker_strand
    else none
  | GameTask.shutdownSave => if args.state_file then some Executor.io_context else none
  | GameTask.request _ => some strand_

/-- A handler starts or returns. -/
inductive Event where
  | start (task : GameTask)
  | finish (task : GameTask)
  deriving DecidableEq, Repr

/-- One event on an `io_context` run by `threads` threads, `running` being the
handlers that have started and not returned: a handler starts when a thread is free
and, if it is on a strand, no running handler is on that strand. -/
def ioStep (args : Args) (threads : ℕ) (running : List GameTask) :
    Event → Option (List GameTask)
  | Event.start task =>
    match executorOf args task with
    | none => none
    | some executor =>
      if running.length < threads
          ∧ (executor = Executor.io_context
            ∨ ∀ other ∈ running, executorOf args other ≠ some executor) then
        some (task :: running)
      else none
  | Event.finish task => if task ∈ running then some (running.erase task) else none

/-- A sequence of events from the handlers `running`; `none` when an event cannot
happen. -/
def ioRun (args : Args) (threads : ℕ) : List Event → List GameTask → Option (List GameTask)
  | [], running => some running
  | event :: rest, running =>
    match ioStep args threads running event with
    | none => none
    | some running => ioRun args threads rest running

/-- The running handlers that were handed to the executor. -/
def onExecutor (args : Args) (executor : Executor) (running : List GameTask) : List GameTask :=
  running.filter fun task => decide (executorOf args task = some executor)

/-- The options `--tick-period` and `--state-file` with `--save-state-period`. -/
def wallClockArgs : Args := { tick_period := true, state_file := true, save_state_period := true }

/-! ## IEEE-754 doubles

The definitions above take the arithmetic of `double` to be exact.  Where one
rounding decides the outcome (the collection test at the boundary of the radius,
the corridor test of `Dog::Move`, the rounding in `Dog::SetPos`) the functions are
given again in the namespace `IEEE`, every operation rounded to the nearest double,
ties to even, one operation at a time (binary64 without fused multiply-add or
extended precision).  A finite double is the rational it denotes; exponents go down
to the subnormal range, and the top of the range, where a result overflows to an
infinity, is left out: magnitudes stay below `2^1024`. -/

namespace IEEE

/-- The halving loop of `log2`, at most `fuel` rounds. -/
def log2Loop : ℕ → ℕ → ℕ
  | 0, _ => 0
  | fuel + 1, n => if 2 ≤ n then log2Loop fuel (n / 2) + 1 else 0

/-- The position of the leading bit of `n`: the largest `k` with `2^k ≤ n`, for `0 < n`. -/
def log2 (n : ℕ) : ℕ := log2Loop n n

/-- The binary exponent of the positive rational `n / d`: the largest `e` with
`2^e ≤ n / d`. -/
def floorLog2 (n d : ℕ) : ℤ :=
  let a := log2 n
  let b := log2 d
  if d * 2 ^ (a - b) ≤ n * 2 ^ (b - a) then (a : ℤ) - b else (a : ℤ) - b - 1

/-- The quotient `n / d` rounded to the nearest natural number, ties to the even one. -/
def roundHalfEven (n d : ℕ) : ℕ :=
  let q := n / d
  let r := n % d
  if 2 * r < d then q else if d < 2 * r then q + 1 else if q % 2 = 0 then q else q + 1

/-- The double nearest to the positive rational `n / d`: a multiple of `2^(e-52)` for
the binary exponent `e` of `n / d`, and of `2^(-1074)` in the subnormal range. -/
def flPos (n d : ℕ) : ℚ :=
  let p : ℤ := 52 - max (floorLog2 n d) (-1022)
  if 0 ≤ p then mkRat (roundHalfEven (n * 2 ^ p.toNat) d) (2 ^ p.toNat)
  else ((roundHalfEven n (d * 2 ^ (-p).toNat) * 2 ^ (-p).toNat : ℕ) : ℚ)

/-- Rounding of a real result to the nearest double, ties to even. -/
def fl (q : ℚ) : ℚ :=
  if q = 0 then 0
  else if 0 < q then flPos q.num.natAbs q.den else -flPos q.num.natAbs q.den

/-- The rational is the value of a double. -/
def IsDouble (q : ℚ) : Prop := fl q = q

instance (q : ℚ) : Decidable (IsDouble q) := by
  unfold IsDouble
  infer_instance

/-- The C++ expression `a + b` on doubles. -/
def add (a b : ℚ) : ℚ := fl (a + b)

/-- The C++ expression `a - b` on doubles. -/
def sub (a b : ℚ) : ℚ := fl (a - b)

/-- The C++ expression `a * b` on doubles. -/
def mul (a b : ℚ) : ℚ := fl (a * b)

/-- The C++ expression `a / b` on doubles (`x/0` is an infinity, `0/0` is NaN). -/
def div (a b : ℚ) : FVal :=
  if b = 0 then
    (if a = 0 then FVal.nan else if 0 < a then FVal.posInf else FVal.negInf)
  else FVal.num (fl (a / b))

/-- The C++ expression `a - b` for a finite `a` and the result `b` of a division. -/
def rsub (a : ℚ) : FVal → FVal
  | FVal.num q => FVal.num (fl (a - q))
  | FVal.posInf => FVal.negInf
  | FVal.negInf => FVal.posInf
  | FVal.nan => FVal.nan

/-- Constant `ROAD_RADIUS = 0.4`: the double the literal denotes. -/
def ROAD_RADIUS : ℚ := fl (2 / 5)

/-- The default of `Dog::width_`, `0.6`: the double the literal denotes. -/
def DOG_WIDTH : ℚ := fl (3 / 5)

/-- Modelled from the spec: `CollectionResult::IsCollected` is declared in
`collision_detector.h`, which is not among the sources.  The spec: "Collects iff
squared distance ≤ (gatherer_radius+item_radius)² and proj_ratio ∈ [0,1]"; the
square of the radius is a product of doubles. -/
def IsCollected (r : CollectionResult) (collect_radius : ℚ) : Bool :=
  FVal.le (FVal.num 0) r.proj_ratio && FVal.le r.proj_ratio (FVal.num 1)
    && FVal.le r.sq_distance (FVal.num (mul collect_radius collect_radius))

/-- Function `TryCollectPoint` of `collision_detector.cpp`, operation by operation. -/
def TryCollectPoint (a b c : Point2D) : CollectionResult :=
  let u_x := sub c.x a.x
  let u_y := sub c.y a.y
  let v_x := sub b.x a.x
  let v_y := sub b.y a.y
  let u_dot_v := add (mul u_x v_x) (mul u_y v_y)
  let u_len2 := add (mul u_x u_x) (mul u_y u_y)
  let v_len2 := add (mul v_x v_x) (mul v_y v_y)
  let proj_ratio := div u_dot_v v_len2
  let sq_distance := rsub u_len2 (div (mul u_dot_v u_dot_v) v_len2)
  { sq_distance := sq_distance, proj_ratio := proj_ratio }

/-- The body of the inner loop of `FindGatherEvents`: the event pushed for one
gatherer and one item, if any. -/
def gatherEventAt (provider : ItemGathererProvider) (gatherer_idx item_idx : ℕ) :
    Option GatheringEvent :=
  let gatherer := provider.GetGatherer gatherer_idx
  let gatherer_radius := fl (gatherer.width / 2)
  let item := provider.GetItem item_idx
  let item_radius := fl (item.width / 2)
  let collect_radius := add gatherer_radius item_radius
  let result := TryCollectPoint gatherer.start_pos gatherer.end_pos item.position
  if IsCollected result collect_radius then
    some { item_id := item_idx, gatherer_id := gatherer_idx,
           sq_distance := result.sq_distance, time := result.proj_ratio }
  else none

/-- The two nested loops of `FindGatherEvents`: events in push order. -/
def collectEvents (provider : ItemGathererProvider) : List GatheringEvent :=
  (List.range provider.GatherersCount).flatMap fun gatherer_idx =>
    (List.range provider.ItemsCount).filterMap fun item_idx =>
      gatherEventAt provider gatherer_idx item_idx

/-- Function `FindGatherEvents` of `collision_detector.cpp`. -/
def FindGatherEvents (provider : ItemGathererProvider) : List GatheringEvent :=
  sortEvents (collectEvents provider)

/-- Method `Dog::SetPos`: `std::round(point.x * 100.0) / 100.0`, the product and the
quotient rounded to doubles. -/
def SetPos (d : Dog) (point : MapPoint) : Dog :=
  { d with pos_ := { x := fl ((roundHalfAway (mul point.x 100) : ℚ) / 100),
                     y := fl ((roundHalfAway (mul point.y 100) : ℚ) / 100) } }

/-- The test `Dog::Move` makes before it uses a road: the position lies in the
corridor of the road, the bounds computed and compared in doubles. -/
def InCorridor (road : Road) (pos_ : MapPoint) : Prop :=
  if road.IsHorizontal then
    |sub pos_.y (road.GetStart.y : ℚ)| ≤ ROAD_RADIUS
      ∧ pos_.x ≥ sub ((min road.GetStart.x road.GetEnd.x : ℤ) : ℚ) ROAD_RADIUS
      ∧ pos_.x ≤ add ((max road.GetStart.x road.GetEnd.x : ℤ) : ℚ) ROAD_RADIUS
  else if road.IsVertical then
    |sub pos_.x (road.GetStart.x : ℚ)| ≤ ROAD_RADIUS
      ∧ pos_.y ≥ sub ((min road.GetStart.y road.GetEnd.y : ℤ) : ℚ) ROAD_RADIUS
      ∧ pos_.y ≤ add ((max road.GetStart.y road.GetEnd.y : ℤ) : ℚ) ROAD_RADIUS
  else False

instance (road : Road) (pos_ : MapPoint) : Decidable (InCorridor road pos_) := by
  unfold InCorridor
  infer_instance

/-- One iteration of the loop of `Dog::Move` for a horizontal road.  The flag
tells whether the iteration ended with `break`. -/
def moveOnHorizontal (time : ℚ) (road : Road) (s : MoveState) : MoveState × Bool :=
  let road_start_x : ℚ := ((min road.GetStart.x road.GetEnd.x : ℤ) : ℚ)
  let road_end_x : ℚ := ((max road.GetStart.x road.GetEnd.x : ℤ) : ℚ)
  let road_y : ℚ := (road.GetStart.y : ℚ)
  if |sub s.pos_.y road_y| ≤ ROAD_RADIUS ∧ s.pos_.x ≥ sub road_start_x ROAD_RADIUS
      ∧ s.pos_.x ≤ add road_end_x ROAD_RADIUS then
    if s.speed_.dx > 0 then
      let distance := min (add (sub s.pos_.x s.already_traveled) (mul s.speed_.dx time))
        (add road_end_x ROAD_RADIUS)
      let s1 := { s with pos_ := { s.pos_ with x := distance } }
      if distance ≥ add road_end_x ROAD_RADIUS then
        ({ s1 with at_bound := true, speed_ := { s1.speed_ with dx := 0 } }, true)
      else ({ s1 with at_bound := false }, true)
    else if s.speed_.dx < 0 then
      let distance := max (add (sub s.pos_.x s.already_traveled) (mul s.speed_.dx time))
        (sub road_start_x ROAD_RADIUS)
      let s1 := { s with pos_ := { s.pos_ with x := distance } }
      if distance ≤ sub road_start_x ROAD_RADIUS then
        ({ s1 with at_bound := true, speed_ := { s1.speed_ with dx := 0 } }, true)
      else ({ s1 with at_bound := false }, true)
    else if s.speed_.dy ≠ 0 then
      let distance := add s.pos_.y (mul s.speed_.dy time)
      let start_pos := s.pos_.y
      let s1 : MoveState :=
        if |distance| ≤ add road_y ROAD_RADIUS then
          { s with pos_ := { s.pos_ with y := distance }, at_bound := false }
        else
          { s with pos_ := { s.pos_ with
                               y := if s.speed_.dy < 0 then sub road_y ROAD_RADIUS
                                    else add road_y ROAD_RADIUS },
                   at_bound := true }
      ({ s1 with already_traveled := sub s1.pos_.y start_pos }, false)
    else (s, false)
  else (s, false)

/-- One iteration of the loop of `Dog::Move` for a vertical road. -/
def moveOnVertical (time : ℚ) (road : Road) (s : MoveState) : MoveState × Bool :=
  let road_start_y : ℚ := ((min road.GetStart.y road.GetEnd.y : ℤ) : ℚ)
  let road_end_y : ℚ := ((max road.GetStart.y road.GetEnd.y : ℤ) : ℚ)
  let road_x : ℚ := (road.GetStart.x : ℚ)
  if |sub s.pos_.x road_x| ≤ ROAD_RADIUS ∧ s.pos_.y ≥ sub road_start_y ROAD_RADIUS
      ∧ s.pos_.y ≤ add road_end_y ROAD_RADIUS then
    if s.speed_.dy > 0 then
      let distance := min (add (sub s.pos_.y s.already_traveled) (mul s.speed_.dy time))
        (add road_end_y ROAD_RADIUS)
      let s1 := { s with pos_ := { s.pos_ with y := distance } }
      if distance ≥ add road_end_y ROAD_RADIUS then
        ({ s1 with at_bound := true, speed_ := { s1.speed_ with dy := 0 } }, true)
      else ({ s1 with at_bound := false }, true)
    else if s.speed_.dy < 0 then
      let distance := max (add (sub s.pos_.y s.already_traveled) (mul s.speed_.dy time))
        (sub road_start_y ROAD_RADIUS)
      let s1 := { s with pos_ := { s.pos_ with y := distance } }
      if distance ≤ sub road_start_y ROAD_RADIUS then
        ({ s1 with at_bound := true, speed_ := { s1.speed_ with dy := 0 } }, true)
      else ({ s1 with at_bound := false }, true)
    else if s.speed_.dx ≠ 0 then
      let distance := add s.pos_.x (mul s.speed_.dx time)
      let start_pos := s.pos_.x
      let s1 : MoveState :=
        if |distance| ≤ add road_x ROAD_RADIUS then
          { s with pos_ := { s.pos_ with x := distance }, at_bound := false }
        else
          { s with pos_ := { s.pos_ with
                               x := if s.speed_.dx < 0 then sub road_x ROAD_RADIUS
                                    else add road_x ROAD_RADIUS },
                   at_bound := true }
      ({ s1 with already_traveled := sub s1.pos_.x start_pos }, false)
    else (s, false)
  else (s, false)

/-- The body of the loop `for (const auto& road : roads)` of `Dog::Move`. -/
def moveStep (time : ℚ) (road : Road) (s : MoveState) : MoveState × Bool :=
  if road.IsHorizontal then moveOnHorizontal time road s
  else if road.IsVertical then moveOnVertical time road s
  else (s, false)

/-- The loop of `Dog::Move`: roads in order, until a `break`. -/
def moveLoop (time : ℚ) : List Road → MoveState → MoveState
  | [], s => s
  | road :: rest, s =>
    let r := moveStep time road s
    if r.2 then r.1 else moveLoop time rest r.1

/-- The variables of `Dog::Move` when the loop starts. -/
def moveStart (d : Dog) : MoveState :=
  { pos_ := d.pos_, speed_ := d.speed_, already_traveled := 0, at_bound := false }

/-- The dog `Dog::Move` leaves when the loop ended in the state `s`:
`previous_pos_ = pos_` from before the loop and `speed_ = {0,0}` under `at_bound`. -/
def moveFinish (d : Dog) (s : MoveState) : Dog :=
  { d with previous_pos_ := d.pos_
           pos_ := s.pos_
           speed_ := if s.at_bound then { dx := 0, dy := 0 } else s.speed_ }

/-- Method `Dog::Move`. -/
def Move (d : Dog) (time : ℚ) (roads : List Road) : Dog :=
  moveFinish d (moveLoop time roads (moveStart d))

end IEEE

/-! ## The collision criterion on the doubles the code computes -/

/-- The spec's criterion for a gatherer and an item, on the values the code
computes: `TryCollectPoint` yields a finite projection ratio `t` and a finite squared
distance `d2` with `0 ≤ t ≤ 1` and `d2 ≤ r * r`, where `r = g.width/2 + i.width/2`
and the product are doubles. -/
def IEEE.specCollects (g : Gatherer) (it : Item) : Prop :=
  ∃ t d2 : ℚ,
    (IEEE.TryCollectPoint g.start_pos g.end_pos it.position).proj_ratio = FVal.num t
    ∧ (IEEE.TryCollectPoint g.start_pos g.end_pos it.position).sq_distance = FVal.num d2
    ∧ 0 ≤ t ∧ t ≤ 1
    ∧ d2 ≤ IEEE.mul (IEEE.add (IEEE.fl (g.width / 2)) (IEEE.fl (it.width / 2)))
        (IEEE.add (IEEE.fl (g.width / 2)) (IEEE.fl (it.width / 2)))

/-- A provider with one gatherer of width `0.6` that moved from `(0,0.3)` to `(2,0.3)`
and one item of width `0` at `(1,0)`: at distance `0.3`, the combined radius, from
the middle of the segment.  All numbers are doubles. -/
def boundaryProvider : ItemGathererProvider :=
  { ItemsCount := 1
    GetItem := fun _ => { position := { x := 1, y := 0 }, width := 0 }
    GatherersCount := 1
    GetGatherer := fun _ =>
      { start_pos := { x := 0, y := IEEE.fl (3 / 10) }
        end_pos := { x := 2, y := IEEE.fl (3 / 10) }, width := IEEE.DOG_WIDTH } }

/-- A dog on `eastRoad`, sweeping `(0,0.3)–(10,0.3)` in the tick, with the width `0.6`;
all numbers are doubles. -/
def IEEE.passerBy : Dog :=
  { runner with pos_ := { x := 10, y := IEEE.fl (3 / 10) }
                previous_pos_ := { x := 0, y := IEEE.fl (3 / 10) }
                width_ := IEEE.DOG_WIDTH }

/-- No operation of `TryCollectPoint a b c` rounds: every intermediate result of the
computation, carried out exactly, is a double. -/
def IEEE.RoundsNowhere (a b c : Point2D) : Prop :=
  let u_x := c.x - a.x
  let u_y := c.y - a.y
  let v_x := b.x - a.x
  let v_y := b.y - a.y
  let u_dot_v := u_x * v_x + u_y * v_y
  let u_len2 := u_x * u_x + u_y * u_y
  let v_len2 := v_x * v_x + v_y * v_y
  IEEE.IsDouble u_x ∧ IEEE.IsDouble u_y ∧ IEEE.IsDouble v_x ∧ IEEE.IsDouble v_y
  ∧ IEEE.IsDouble (u_x * v_x) ∧ IEEE.IsDouble (u_y * v_y) ∧ IEEE.IsDouble u_dot_v
  ∧ IEEE.IsDouble (u_x * u_x) ∧ IEEE.IsDouble (u_y * u_y) ∧ IEEE.IsDouble u_len2
  ∧ IEEE.IsDouble (v_x * v_x) ∧ IEEE.IsDouble (v_y * v_y) ∧ IEEE.IsDouble v_len2
  ∧ IEEE.IsDouble (u_dot_v / v_len2) ∧ IEEE.IsDouble (u_dot_v * u_dot_v)
  ∧ IEEE.IsDouble (u_dot_v * u_dot_v / v_len2)
  ∧ IEEE.IsDouble (u_len2 - u_dot_v * u_dot_v / v_len2)

instance (a b c : Point2D) : Decidable (IEEE.RoundsNowhere a b c) := by
  unfold IEEE.RoundsNowhere
  infer_instance

/-! ## Theorems: the collision engine -/

theorem FVal.div_of_ne_zero (a b : ℚ) (hb : b ≠ 0) : FVal.div a b = FVal.num (a / b) := by
  simp [FVal.div, hb]

theorem sq_add_sq_ne_zero_of_ne {a b : Point2D} (hab : a ≠ b) :
    (b.x - a.x) * (b.x - a.x) + (b.y - a.y) * (b.y - a.y) ≠ 0 := by
  intro h
  have hx : b.x - a.x = 0 := by nlinarith [mul_self_nonneg (b.x - a.x), mul_self_nonneg (b.y - a.y)]
  have hy : b.y - a.y = 0 := by nlinarith [mul_self_nonneg (b.x - a.x), mul_self_nonneg (b.y - a.y)]
  apply hab
  cases a
  cases b
  simp only [Point2D.mk.injEq]
  constructor
  · simp only at hx
    linarith
  · simp only at hy
    linarith

theorem TryCollectPoint_of_ne (a b c : Point2D) (hab : a ≠ b) :
    TryCollectPoint a b c =
      { sq_distance := FVal.num
          (((c.x - a.x) * (c.x - a.x) + (c.y - a.y) * (c.y - a.y))
            - (((c.x - a.x) * (b.x - a.x) + (c.y - a.y) * (b.y - a.y))
                * ((c.x - a.x) * (b.x - a.x) + (c.y - a.y) * (b.y - a.y)))
              / ((b.x - a.x) * (b.x - a.x) + (b.y - a.y) * (b.y - a.y)))
        proj_ratio := FVal.num
          (((c.x - a.x) * (b.x - a.x) + (c.y - a.y) * (b.y - a.y))
            / ((b.x - a.x) * (b.x - a.x) + (b.y - a.y) * (b.y - a.y))) } := by
  have hv := sq_add_sq_ne_zero_of_ne hab
  simp only [TryCollectPoint, FVal.div_of_ne_zero _ _ hv, FVal.rsub]

theorem TryCollectPoint_same (p c : Point2D) :
    TryCollectPoint p p c = { sq_distance := FVal.nan, proj_ratio := FVal.nan } := by
  simp [TryCollectPoint, FVal.div, FVal.rsub]

/-! ### Events and their order -/

theorem eventLess_num {a b : GatheringEvent} {ta tb : ℚ}
    (ha : a.time = FVal.num ta) (hb : b.time = FVal.num tb) :
    eventLess a b = true ↔
      (ta < tb ∨ (ta = tb ∧ (a.gatherer_id < b.gatherer_id
        ∨ (a.gatherer_id = b.gatherer_id ∧ a.item_id < b.item_id)))) := by
  unfold eventLess
  rw [ha, hb]
  by_cases ht : ta = tb
  · subst ht
    by_cases hg : a.gatherer_id = b.gatherer_id
    · simp [FVal.ne, FVal.lt, hg]
    · simp [FVal.ne, FVal.lt, hg]
  · simp [FVal.ne, FVal.lt, ht]

theorem eventLess_trans {a b c : GatheringEvent} {ta tb tc : ℚ}
    (ha : a.time = FVal.num ta) (hb : b.time = FVal.num tb) (hc : c.time = FVal.num tc)
    (hab : eventLess a b = true) (hbc : eventLess b c = true) : eventLess a c = true := by
  rw [eventLess_num ha hb] at hab
  rw [eventLess_num hb hc] at hbc
  rw [eventLess_num ha hc]
  rcases hab with h1 | ⟨h1, h2⟩
  · rcases hbc with h3 | ⟨h3, -⟩
    · exact Or.inl (lt_trans h1 h3)
    · exact Or.inl (h3 ▸ h1)
  · rcases hbc with h3 | ⟨h3, h4⟩
    · exact Or.inl (h1 ▸ h3)
    · refine Or.inr ⟨h1.trans h3, ?_⟩
      omega

theorem eventLess_asymm {a b : GatheringEvent} {ta tb : ℚ}
    (ha : a.time = FVal.num ta) (hb : b.time = FVal.num tb)
    (hab : eventLess a b = true) : eventLess b a = false := by
  rw [eventLess_num ha hb] at hab
  rw [Bool.eq_false_iff]
  intro hba
  rw [eventLess_num hb ha] at hba
  rcases hab with h1 | ⟨h1, h2⟩
  · rcases hba with h3 | ⟨h3, -⟩
    · exact absurd (lt_trans h1 h3) (lt_irrefl _)
    · rw [h3] at h1
      exact absurd h1 (lt_irrefl _)
  · rcases hba with h3 | ⟨-, h4⟩
    · rw [h1] at h3
      exact absurd h3 (lt_irrefl _)
    · omega

/-- Inserting an event with a finite time keeps a list of such events ordered. -/
theorem orderedInsert_ordered (a : GatheringEvent) (ta : ℚ) (ha : a.time = FVal.num ta) :
    ∀ l : List GatheringEvent, (∀ e ∈ l, ∃ t, e.time = FVal.num t) →
      l.Pairwise (fun x y => eventLess y x = false) →
      (l.orderedInsert (fun x y => eventLess x y = true) a).Pairwise
        (fun x y => eventLess y x = false)
  | [], _, _ => by simp
  | b :: l, hfin, hsorted => by
    obtain ⟨tb, hb⟩ := hfin b (List.mem_cons_self _ _)
    rw [List.pairwise_cons] at hsorted
    by_cases hab : eventLess a b = true
    · rw [List.orderedInsert, if_pos hab]
      refine List.Pairwise.cons ?_ (List.Pairwise.cons hsorted.1 hsorted.2)
      intro c hc
      rcases List.mem_cons.1 hc with rfl | hc
      · exact eventLess_asymm ha hb hab
      · obtain ⟨tc, hct⟩ := hfin c (List.mem_cons_of_mem _ hc)
        rw [Bool.eq_false_iff]
        intro hca
        have := eventLess_trans hct ha hb hca hab
        rw [hsorted.1 c hc] at this
        exact Bool.false_ne_true this
    · rw [List.orderedInsert, if_neg hab]
      refine List.Pairwise.cons ?_
        (orderedInsert_ordered a ta ha l (fun e he => hfin e (List.mem_cons_of_mem _ he))
          hsorted.2)
      intro c hc
      rcases (List.mem_orderedInsert _).1 hc with rfl | hc
      · simpa using hab
      · exact hsorted.1 c hc

theorem sortEvents_ordered :
    ∀ l : List GatheringEvent, (∀ e ∈ l, ∃ t, e.time = FVal.num t) →
      (sortEvents l).Pairwise (fun x y => eventLess y x = false)
  | [], _ => by simp [sortEvents]
  | a :: l, hfin => by
    obtain ⟨ta, ha⟩ := hfin a (List.mem_cons_self _ _)
    have ih := sortEvents_ordered l (fun e he => hfin e (List.mem_cons_of_mem _ he))
    unfold sortEvents at ih ⊢
    rw [List.insertionSort]
    refine orderedInsert_ordered a ta ha _ ?_ ih
    intro e he
    rw [List.mem_insertionSort] at he
    exact hfin e (List.mem_cons_of_mem _ he)

theorem sortEvents_perm (l : List GatheringEvent) : (sortEvents l).Perm l :=
  List.perm_insertionSort _ l

theorem TryCollectPoint_spec (a b c : Point2D) (hab : a ≠ b) :
    TryCollectPoint a b c =
      { sq_distance := FVal.num (specSqDistance a b c)
        proj_ratio := FVal.num (specProjRatio a b c) } := by
  rw [TryCollectPoint_of_ne a b c hab]
  simp only [specSqDistance, specProjRatio, sq]

theorem gatherEventAt_eq_some (provider : ItemGathererProvider) (g i : ℕ)
    (e : GatheringEvent) :
    gatherEventAt provider g i = some e ↔
      specCollects (provider.GetGatherer g) (provider.GetItem i)
      ∧ e = { item_id := i, gatherer_id := g
              sq_distance := FVal.num (specSqDistance (provider.GetGatherer g).start_pos
                (provider.GetGatherer g).end_pos (provider.GetItem i).position)
              time := FVal.num (specProjRatio (provider.GetGatherer g).start_pos
                (provider.GetGatherer g).end_pos (provider.GetItem i).position) } := by
  unfold gatherEventAt specCollects
  by_cases hse : (provider.GetGatherer g).start_pos = (provider.GetGatherer g).end_pos
  · simp [hse, TryCollectPoint_same, CollectionResult.IsCollected, FVal.le]
  · simp only [TryCollectPoint_spec _ _ _ hse, CollectionResult.IsCollected, FVal.le,
      Bool.and_eq_true, decide_eq_true_eq, ← sq]
    constructor
    · intro h
      split_ifs at h with hc
      · refine ⟨⟨hse, hc.2, hc.1.1, hc.1.2⟩, ?_⟩
        simpa using h.symm
    · rintro ⟨⟨-, h1, h2, h3⟩, rfl⟩
      rw [if_pos ⟨⟨h2, h3⟩, h1⟩]

theorem mem_collectEvents (provider : ItemGathererProvider) (e : GatheringEvent) :
    e ∈ collectEvents provider ↔
      e.gatherer_id < provider.GatherersCount ∧ e.item_id < provider.ItemsCount
      ∧ gatherEventAt provider e.gatherer_id e.item_id = some e := by
  unfold collectEvents
  simp only [List.mem_flatMap, List.mem_filterMap, List.mem_range]
  constructor
  · rintro ⟨g, hg, i, hi, h⟩
    have h' := (gatherEventAt_eq_some provider g i e).1 h
    obtain ⟨-, rfl⟩ := h'
    exact ⟨hg, hi, h⟩
  · rintro ⟨hg, hi, h⟩
    exact ⟨_, hg, _, hi, h⟩

theorem collectEvents_keys_nodup (provider : ItemGathererProvider) :
    ((collectEvents provider).map (fun e => (e.gatherer_id, e.item_id))).Nodup := by
  unfold collectEvents
  rw [List.map_flatMap, List.nodup_flatMap]
  constructor
  · intro g _
    rw [List.map_filterMap]
    refine List.Nodup.filterMap ?_ (List.nodup_range _)
    intro i i' k hk hk'
    simp only [Option.mem_def, Option.map_eq_some'] at hk hk'
    obtain ⟨e, he, rfl⟩ := hk
    obtain ⟨e', he', hk'⟩ := hk'
    obtain ⟨-, rfl⟩ := (gatherEventAt_eq_some provider g i e).1 he
    obtain ⟨-, rfl⟩ := (gatherEventAt_eq_some provider g i' e').1 he'
    simp only [Prod.mk.injEq] at hk'
    exact hk'.2.symm
  · refine List.Pairwise.imp_of_mem ?_ (List.nodup_range provider.GatherersCount)
    intro g g' _ _ hne
    simp only [Function.onFun, List.Disjoint, List.mem_map, List.mem_filterMap]
    rintro k ⟨e, ⟨i, -, he⟩, rfl⟩ ⟨e', ⟨i', -, he'⟩, hk⟩
    obtain ⟨-, rfl⟩ := (gatherEventAt_eq_some provider g i e).1 he
    obtain ⟨-, rfl⟩ := (gatherEventAt_eq_some provider g' i' e').1 he'
    simp only [Prod.mk.injEq] at hk
    exact hne hk.1.symm

theorem mem_FindGatherEvents_collects (provider : ItemGathererProvider) :
    ∀ e ∈ FindGatherEvents provider,
      specCollects (provider.GetGatherer e.gatherer_id) (provider.GetItem e.item_id) := by
  intro e he
  obtain ⟨-, -, h⟩ := (mem_collectEvents provider e).1 ((sortEvents_perm _).mem_iff.1 he)
  exact ((gatherEventAt_eq_some provider _ _ e).1 h).1

theorem collectEvents_time_finite (provider : ItemGathererProvider) :
    ∀ e ∈ collectEvents provider, ∃ t, e.time = FVal.num t := by
  intro e he
  obtain ⟨-, -, h⟩ := (mem_collectEvents provider e).1 he
  obtain ⟨-, h2⟩ := (gatherEventAt_eq_some provider _ _ e).1 h
  exact ⟨_, congrArg GatheringEvent.time h2⟩

/-- C4: the list returned by `FindGatherEvents` is ordered by time ascending, ties by
gatherer index ascending, then by item index ascending: of any two events of the
output, the earlier one in the list comes strictly first in that order.  For the
gatherer of `twoItemsProvider`, which meets item 1 at ratio `0.2` and item 0 at
ratio `0.8`, the output is item 1, then item 0. -/
theorem C4_event_order (provider : ItemGathererProvider) :
    (FindGatherEvents provider).Pairwise EventBefore
    ∧ FindGatherEvents twoItemsProvider =
        [ { item_id := 1, gatherer_id := 0, sq_distance := FVal.num 0,
            time := FVal.num (1 / 5) },
          { item_id := 0, gatherer_id := 0, sq_distance := FVal.num 0,
            time := FVal.num (4 / 5) } ] := by
  refine ⟨?_, by decide!⟩
  have hperm : (FindGatherEvents provider).Perm (collectEvents provider) :=
    sortEvents_perm _
  have hord := sortEvents_ordered (collectEvents provider) (collectEvents_time_finite provider)
  have hkeys : (FindGatherEvents provider).Pairwise
      (fun a b => (a.gatherer_id, a.item_id) ≠ (b.gatherer_id, b.item_id)) := by
    have := ((hperm.map (fun e => (e.gatherer_id, e.item_id))).nodup_iff).2
      (collectEvents_keys_nodup provider)
    exact List.pairwise_map.1 this
  refine List.Pairwise.imp_of_mem ?_ (List.Pairwise.and hord hkeys)
  intro a b ha hb hab
  obtain ⟨ta, hta⟩ := collectEvents_time_finite provider a (hperm.mem_iff.1 ha)
  obtain ⟨tb, htb⟩ := collectEvents_time_finite provider b (hperm.mem_iff.1 hb)
  obtain ⟨hle, hne⟩ := hab
  have hnot : ¬ (tb < ta ∨ (tb = ta ∧ (b.gatherer_id < a.gatherer_id
      ∨ (b.gatherer_id = a.gatherer_id ∧ b.item_id < a.item_id)))) := by
    rw [← eventLess_num htb hta, hle]
    exact Bool.false_ne_true
  refine ⟨ta, tb, hta, htb, ?_⟩
  rcases lt_trichotomy ta tb with h | h | h
  · exact Or.inl h
  · refine Or.inr ⟨h, ?_⟩
    have h2 : ¬ (b.gatherer_id < a.gatherer_id
        ∨ (b.gatherer_id = a.gatherer_id ∧ b.item_id < a.item_id)) :=
      fun hc => hnot (Or.inr ⟨h.symm, hc⟩)
    have h3 : ¬ (a.gatherer_id = b.gatherer_id ∧ a.item_id = b.item_id) := by
      rintro ⟨h4, h5⟩
      exact hne (by rw [h4, h5])
    omega
  · exact absurd (Or.inl h) hnot

/-- C1 (the code breaks the invariant): a player joins `cornerMap`, whose only road
runs along `y = 10`; the dog is spawned on the road at `(0,10)`; the player asks
for `"U"` and a tick of `3000` ms follows.  `Dog::Move` tests `|distance|` instead
of `|distance − road_y|` against `road_y + 0.4`, accepts `y = 7`, and the dog ends at
`(0,7)`, outside the corridor of every road of its map. -/
theorem C1_corridor_invariant_broken :
    (spawnDog 0 "Rex" { x := 0, y := 0 } cornerMap).map
        (fun d => decide (∃ r ∈ cornerMap.roads_, r.InCorridor d.pos_)) = some true
    ∧ (spawnDog 0 "Rex" { x := 0, y := 0 } cornerMap).map
        (fun d => (tickDog 60 3000 cornerMap.roads_ (d.SetDirection "U")).1.pos_)
        = some { x := 0, y := 7 }
    ∧ ¬ ∃ r ∈ cornerMap.roads_, r.InCorridor { x := 0, y := 7 } := by
  decide!

theorem AddLoot_of_full (d : Dog) (loot : LootSharedPtr)
    (h : d.lootbag_capacity_ ≤ d.lootbag_.length) : d.AddLoot loot = (d, false) := by
  unfold Dog.AddLoot
  rw [if_neg (not_lt.2 h)]

theorem AddLoot_bag (d : Dog) (loot : LootSharedPtr) :
    ∃ bag, (d.AddLoot loot).1 = { d with lootbag_ := bag }
      ∧ (d.lootbag_.length ≤ d.lootbag_capacity_ → bag.length ≤ d.lootbag_capacity_) := by
  unfold Dog.AddLoot
  by_cases h : d.lootbag_capacity_ > d.lootbag_.length
  · rw [if_pos h]
    refine ⟨d.lootbag_ ++ [loot], rfl, fun _ => ?_⟩
    rw [List.length_append, List.length_singleton]
    omega
  · rw [if_neg h]
    exact ⟨d.lootbag_, rfl, fun h' => h'⟩

theorem gatherStep_length (loots : List LootSharedPtr) (s : GameSession) (e : GatheringEvent) :
    (gatherStep loots s e).dogs_.length = s.dogs_.length := by
  unfold gatherStep
  split
  · dsimp only
    split
    · simp [GameSession.RemoveLoot]
    · rfl
  · rfl

theorem gatherStep_dog (loots : List LootSharedPtr) (s : GameSession) (e : GatheringEvent)
    (g : ℕ) (d : Dog) (h : s.dogs_[g]? = some d) :
    ∃ bag, (gatherStep loots s e).dogs_[g]? = some { d with lootbag_ := bag }
      ∧ (d.lootbag_.length ≤ d.lootbag_capacity_ → bag.length ≤ d.lootbag_capacity_) := by
  have hself : ∃ bag, s.dogs_[g]? = some { d with lootbag_ := bag }
      ∧ (d.lootbag_.length ≤ d.lootbag_capacity_ → bag.length ≤ d.lootbag_capacity_) :=
    ⟨d.lootbag_, h, fun h' => h'⟩
  unfold gatherStep
  split
  · rename_i dog loot hdog _
    dsimp only
    split
    · simp only [GameSession.RemoveLoot]
      by_cases hg : e.gatherer_id = g
      · rw [hg] at hdog
        rw [h] at hdog
        obtain rfl : d = dog := Option.some.inj hdog
        obtain ⟨bag, hbag, hlen⟩ := AddLoot_bag d loot
        refine ⟨bag, ?_, hlen⟩
        rw [hg, List.getElem?_set, if_pos rfl, hbag]
        have hlt : g < s.dogs_.length := by
          rcases Nat.lt_or_ge g s.dogs_.length with hlt | hge
          · exact hlt
          · rw [List.getElem?_eq_none hge] at h
            exact absurd h (by simp)
        rw [if_pos hlt]
      · rw [List.getElem?_set_ne hg]
        exact hself
    · exact hself
  · exact hself

theorem gatherFold_length (loots : List LootSharedPtr) :
    ∀ (events : List GatheringEvent) (s : GameSession),
      (events.foldl (gatherStep loots) s).dogs_.length = s.dogs_.length
  | [], _ => rfl
  | e :: events, s => by
    rw [List.foldl_cons, gatherFold_length loots events, gatherStep_length]

theorem gatherFold_dog (loots : List LootSharedPtr) :
    ∀ (events : List GatheringEvent) (s : GameSession) (g : ℕ) (d : Dog),
      s.dogs_[g]? = some d →
      ∃ bag, (events.foldl (gatherStep loots) s).dogs_[g]? = some { d with lootbag_ := bag }
        ∧ (d.lootbag_.length ≤ d.lootbag_capacity_ → bag.length ≤ d.lootbag_capacity_)
  | [], _, _, d, h => ⟨d.lootbag_, h, fun h' => h'⟩
  | e :: events, s, g, d, h => by
    obtain ⟨bag1, h1, hlen1⟩ := gatherStep_dog loots s e g d h
    obtain ⟨bag2, h2, hlen2⟩ := gatherFold_dog loots events _ g _ h1
    rw [List.foldl_cons]
    exact ⟨bag2, h2, fun h' => hlen2 (hlen1 h')⟩

theorem passFold_loot :
    ∀ (events : List GatheringEvent) (s : GameSession),
      (events.foldl passStep s).loot_ = s.loot_ ∧ (events.foldl passStep s).map_ = s.map_
        ∧ (events.foldl passStep s).dogs_.length = s.dogs_.length
  | [], _ => ⟨rfl, rfl, rfl⟩
  | e :: events, s => by
    rw [List.foldl_cons]
    obtain ⟨h1, h2, h3⟩ := passFold_loot events (passStep s e)
    refine ⟨h1, h2, ?_⟩
    rw [h3]
    simp [passStep]

theorem passFold_dog :
    ∀ (events : List GatheringEvent) (s : GameSession) (g : ℕ) (d : Dog),
      s.dogs_[g]? = some d →
      ((∃ e ∈ events, e.gatherer_id = g) →
        (events.foldl passStep s).dogs_[g]? = some d.ClearBag)
      ∧ ((¬ ∃ e ∈ events, e.gatherer_id = g) →
        (events.foldl passStep s).dogs_[g]? = some d)
  | [], _, _, d, h => ⟨fun ⟨_, he, _⟩ => absurd he (List.not_mem_nil _), fun _ => h⟩
  | e :: events, s, g, d, h => by
    rw [List.foldl_cons]
    by_cases hg : e.gatherer_id = g
    · have h1 : (passStep s e).dogs_[g]? = some d.ClearBag := by
        simp only [passStep]
        rw [hg, List.getElem?_modify_eq, h]
        rfl
      obtain ⟨ha, hb⟩ := passFold_dog events (passStep s e) g d.ClearBag h1
      refine ⟨fun _ => ?_, fun hn => absurd ⟨e, List.mem_cons_self _ _, hg⟩ hn⟩
      by_cases hex : ∃ e' ∈ events, e'.gatherer_id = g
      · exact ha hex
      · exact hb hex
    · have h1 : (passStep s e).dogs_[g]? = some d := by
        simp only [passStep]
        rw [List.getElem?_modify_ne _ _ hg, h]
      obtain ⟨ha, hb⟩ := passFold_dog events (passStep s e) g d h1
      constructor
      · rintro ⟨e', he', hg'⟩
        rcases List.mem_cons.1 he' with rfl | he'
        · exact absurd hg' hg
        · exact ha ⟨e', he', hg'⟩
      · intro hn
        exact hb (fun ⟨e', he', hg'⟩ => hn ⟨e', List.mem_cons_of_mem _ he', hg'⟩)

theorem gatherPass_dog (session : GameSession) (g : ℕ) (d : Dog)
    (h : session.dogs_[g]? = some d) :
    ∃ bag, (gatherPass session).dogs_[g]? = some { d with lootbag_ := bag }
      ∧ (d.lootbag_.length ≤ d.lootbag_capacity_ → bag.length ≤ d.lootbag_capacity_) :=
  gatherFold_dog session.loot_ _ session g d h

theorem UpdateGatheredLoot_length (session : GameSession) :
    (UpdateGatheredLoot session).dogs_.length = session.dogs_.length := by
  unfold UpdateGatheredLoot gatherPass
  rw [(passFold_loot _ _).2.2, gatherFold_length]

theorem UpdateGatheredLoot_dog (session : GameSession) (g : ℕ) (d : Dog)
    (h : session.dogs_[g]? = some d) :
    ∃ bag, (UpdateGatheredLoot session).dogs_[g]? = some { d with lootbag_ := bag }
      ∧ (d.lootbag_.length ≤ d.lootbag_capacity_ → bag.length ≤ d.lootbag_capacity_) := by
  obtain ⟨bag, hmid, hlen⟩ := gatherPass_dog session g d h
  obtain ⟨ha, hb⟩ := passFold_dog (passEvents session) (gatherPass session) g _ hmid
  unfold UpdateGatheredLoot
  by_cases hex : ∃ e ∈ passEvents session, e.gatherer_id = g
  · exact ⟨[], ha hex, fun _ => Nat.zero_le _⟩
  · exact ⟨bag, hb hex, hlen⟩

theorem UpdateGatheredLoot_dog_of_mem (session : GameSession) (d' : Dog)
    (h : d' ∈ (UpdateGatheredLoot session).dogs_) :
    ∃ d ∈ session.dogs_, ∃ bag, d' = { d with lootbag_ := bag }
      ∧ (d.lootbag_.length ≤ d.lootbag_capacity_ → bag.length ≤ d.lootbag_capacity_) := by
  obtain ⟨g, hg, hget⟩ := List.mem_iff_getElem.1 h
  have hlt : g < session.dogs_.length := by
    rw [← UpdateGatheredLoot_length]
    exact hg
  obtain ⟨bag, hbag, hlen⟩ := UpdateGatheredLoot_dog session g session.dogs_[g]
    (List.getElem?_eq_getElem hlt)
  refine ⟨session.dogs_[g], List.getElem_mem _, bag, ?_, hlen⟩
  rw [List.getElem?_eq_getElem hg, hget] at hbag
  exact Option.some.inj hbag

theorem applyBagOps_bag (ops : List BagOp) :
    ∀ d : Dog, d.lootbag_.length ≤ d.lootbag_capacity_ →
      (ops.foldl applyBagOp d).lootbag_.length ≤ (ops.foldl applyBagOp d).lootbag_capacity_ := by
  induction ops with
  | nil => exact fun _ h => h
  | cons op ops ih =>
    intro d h
    rw [List.foldl_cons]
    apply ih
    cases op with
    | pickup loot =>
      obtain ⟨bag, hbag, hlen⟩ := AddLoot_bag d loot
      simp only [applyBagOp, hbag]
      exact hlen h
    | deliver => exact Nat.zero_le _

/-- C2: the bag never outgrows the capacity.  If every dog of a session holds at most
`lootbag_capacity_` items, so does every dog after `Game::UpdateGatheredLoot`, and
so does a dog after any sequence of `AddLoot` and `ClearBag` calls; `AddLoot` on a
full bag returns `false` and leaves the dog, hence the bag, unchanged.  (A dog is
created with an empty bag.) -/
theorem C2_bag_capacity (session : GameSession)
    (hinv : ∀ d ∈ session.dogs_, d.lootbag_.length ≤ d.lootbag_capacity_) :
    (∀ d ∈ (UpdateGatheredLoot session).dogs_, d.lootbag_.length ≤ d.lootbag_capacity_)
    ∧ (∀ d ∈ session.dogs_, ∀ ops : List BagOp,
        (ops.foldl applyBagOp d).lootbag_.length ≤ (ops.foldl applyBagOp d).lootbag_capacity_)
    ∧ (∀ (d : Dog) (loot : LootSharedPtr), d.lootbag_capacity_ ≤ d.lootbag_.length →
        d.AddLoot loot = (d, false))
    ∧ (∀ (name : String) (n : ℕ) (p : MapPoint), (Dog.create n name p).lootbag_ = []) := by
  refine ⟨?_, ?_, AddLoot_of_full, fun _ _ _ => rfl⟩
  · intro d' hd'
    obtain ⟨d, hd, bag, rfl, hlen⟩ := UpdateGatheredLoot_dog_of_mem session d' hd'
    exact hlen (hinv d hd)
  · intro d hd ops
    exact applyBagOps_bag ops d (hinv d hd)

/-- The witness of C2: in `fullBagSession` the dog's bag is full (one item, capacity
one) and `coin` lies on its path; after the gathering pass the bag is as it was and
`coin` is still in the roster. -/
theorem C2_bag_capacity_witness :
    (∀ d ∈ fullBagSession.dogs_, d.lootbag_.length ≤ d.lootbag_capacity_)
    ∧ (∀ d ∈ (UpdateGatheredLoot fullBagSession).dogs_,
        d.lootbag_.length ≤ d.lootbag_capacity_)
    ∧ (UpdateGatheredLoot fullBagSession).dogs_.map Dog.lootbag_ = [[carried]]
    ∧ (UpdateGatheredLoot fullBagSession).loot_ = [coin] :=
  ⟨by decide!, (C2_bag_capacity fullBagSession (by decide!)).1, by decide!, by decide!⟩

theorem UpdateGatheredLoot_scores (session : GameSession) :
    (UpdateGatheredLoot session).dogs_.map Dog.score_ = session.dogs_.map Dog.score_ := by
  apply List.ext_getElem?
  intro g
  rw [List.getElem?_map, List.getElem?_map]
  cases h : session.dogs_[g]? with
  | none =>
    have hge : session.dogs_.length ≤ g := by
      rcases Nat.lt_or_ge g session.dogs_.length with hlt | hge
      · rw [List.getElem?_eq_getElem hlt] at h
        exact absurd h (by simp)
      · exact hge
    rw [List.getElem?_eq_none (by rw [UpdateGatheredLoot_length]; exact hge)]
  | some d =>
    obtain ⟨bag, hbag, -⟩ := UpdateGatheredLoot_dog session g d h
    rw [hbag]
    rfl

/-- C9 (the code does not credit the score): in `pickupSession` the dog, bag empty
and capacity `3`, sweeps over `coin`, worth `10`.  After `Game::UpdateGatheredLoot`
the coin is out of the roster and in the dog's bag, but the score is still `0`: in
`Dog::AddLoot` the statement `score_ += loot->GetValue()` follows `return true`.
No gathering pass changes any score. -/
theorem C9_pickup_does_not_score :
    pickupSession.loot_ = [coin] ∧ coin.obj.value_ = 10
    ∧ pickupSession.dogs_.map Dog.lootbag_ = [[]]
    ∧ pickupSession.dogs_.map Dog.lootbag_capacity_ = [3]
    ∧ pickupSession.dogs_.map Dog.score_ = [0]
    ∧ (FindGatherEvents (GameItemGathererProvider pickupSession.dogs_ pickupSession.loot_)).map
        (fun e => (e.gatherer_id, e.item_id)) = [(0, 0)]
    ∧ (UpdateGatheredLoot pickupSession).loot_ = []
    ∧ (UpdateGatheredLoot pickupSession).dogs_.map Dog.lootbag_ = [[coin]]
    ∧ (UpdateGatheredLoot pickupSession).dogs_.map Dog.score_ = [0]
    ∧ (∀ session : GameSession,
        (UpdateGatheredLoot session).dogs_.map Dog.score_ = session.dogs_.map Dog.score_) := by
  refine ⟨by decide!, by decide!, by decide!, by decide!, by decide!, by decide!, by decide!,
    by decide!, by decide!, UpdateGatheredLoot_scores⟩

/-- C10: the office pass of `Game::UpdateGatheredLoot`.  With `gatherPass` the state
after the loot loop: the office loop leaves the loot roster, the map and the number
of dogs as they are; a dog with at least one office event ends with an empty bag
(whatever it picked up in the loot loop) and is otherwise the same dog (score,
position, velocity and every other field); a dog without an office event is left
exactly as the loot loop left it. -/
theorem C10_office_delivery (session : GameSession) (g : ℕ) (d : Dog)
    (hd : (gatherPass session).dogs_[g]? = some d) :
    (UpdateGatheredLoot session).loot_ = (gatherPass session).loot_
    ∧ (UpdateGatheredLoot session).dogs_.length = (gatherPass session).dogs_.length
    ∧ ((∃ e ∈ passEvents session, e.gatherer_id = g) →
        ∃ d', (UpdateGatheredLoot session).dogs_[g]? = some d'
          ∧ d'.lootbag_ = [] ∧ d'.score_ = d.score_ ∧ d'.pos_ = d.pos_
          ∧ d'.speed_ = d.speed_ ∧ d' = { d with lootbag_ := [] })
    ∧ ((¬ ∃ e ∈ passEvents session, e.gatherer_id = g) →
        (UpdateGatheredLoot session).dogs_[g]? = some d) := by
  obtain ⟨ha, hb⟩ := passFold_dog (passEvents session) (gatherPass session) g d hd
  obtain ⟨hl, -, hlen⟩ := passFold_loot (passEvents session) (gatherPass session)
  refine ⟨hl, hlen, fun hex => ⟨d.ClearBag, ha hex, rfl, rfl, rfl, rfl, rfl⟩, hb⟩

/-- The witness of C10: in `deliverySession` the dog carries one item and meets both
`coin` and the office in the tick; it ends with an empty bag, score, position and
velocity as they were, and the coin it picked up is not back in the roster. -/
theorem C10_office_delivery_witness :
    (gatherPass deliverySession).dogs_[0]?
        = some { runner with lootbag_ := [carried, coin] }
    ∧ (∃ e ∈ passEvents deliverySession, e.gatherer_id = 0)
    ∧ (UpdateGatheredLoot deliverySession).dogs_[0]? = some runner
    ∧ (UpdateGatheredLoot deliverySession).loot_ = [] := by
  have hmid : (gatherPass deliverySession).dogs_[0]?
      = some { runner with lootbag_ := [carried, coin] } := by decide!
  have hex : ∃ e ∈ passEvents deliverySession, e.gatherer_id = 0 := by decide!
  obtain ⟨hl, -, hdel, -⟩ := C10_office_delivery deliverySession 0 _ hmid
  obtain ⟨d', hd', -, -, -, -, heq⟩ := hdel hex
  refine ⟨hmid, hex, ?_, ?_⟩
  · rw [hd', heq]
    decide!
  · rw [hl]
    decide!

/-! ## Theorems: restoring a saved game -/

/-- C12 (the code lets a new dog take a restored id): `gapSnapshot`, with the dogs `0`
and `2`, is loaded into the fresh `twoMapsGame`.  `Dog::UpdateDogCounter` leaves the
counter at `2` (it assigns `id_`, not `id_ + 1`, and only when `id_` exceeds the
counter), and the dog of the next join to `"map1"` gets the id `2` again. -/
theorem C12_new_dog_takes_restored_id :
    (twoMapsGame.LoadGameState gapSnapshot { x := 0, y := 0 } staleLoot).map Game.dogIds
        = some [[0, 2]]
    ∧ (twoMapsGame.LoadGameState gapSnapshot { x := 0, y := 0 } staleLoot).map
        (fun g => g.dog_counter) = some 2
    ∧ ((twoMapsGame.LoadGameState gapSnapshot { x := 0, y := 0 } staleLoot).bind
        (joinAll [("Eve", "map1", 5)])).map Game.dogIds = some [[0, 2, 2]] := by
  decide!

/-- C14 (the code lets a new session take a restored id): the game with one session,
of id `0` on `"map1"`, is saved and loaded into the fresh `twoMapsGame`.
`UpdateGameSessionCounter` writes the session's own member, `Game::session_counter_`
stays `0`, and the session created by Bob's join to `"map2"` gets the id `0` too.
`FindGameSession` with Bob's session id returns the restored session of `"map1"`,
whose roster does not hold Bob's dog (id `1`). -/
theorem C14_new_session_takes_restored_id :
    ((joinAll [("Ann", "map1", 1)] twoMapsGame).bind saveAndLoad).map
        (fun g => (g.game_sessions_.map (fun s => s.id_), g.session_counter_)) = some ([0], 0)
    ∧ (((joinAll [("Ann", "map1", 1)] twoMapsGame).bind saveAndLoad).bind
        (joinAll [("Bob", "map2", 2)])).map
        (fun g => g.game_sessions_.map (fun s => (s.id_, s.map_.id_, s.dogs_.map Dog.id_)))
        = some [(0, "map1", [0]), (0, "map2", [1])]
    ∧ (((joinAll [("Ann", "map1", 1)] twoMapsGame).bind saveAndLoad).bind
        (joinAll [("Bob", "map2", 2)])).map
        (fun g => (g.FindPlayerByToken (GenerateAuthToken (fun _ => 2))).map
          (fun p => (p.userName, p.current_session_id_, p.player_dog_.map (fun h => h.id_))))
        = some (some ("Bob", 0, some 1))
    ∧ (((joinAll [("Ann", "map1", 1)] twoMapsGame).bind saveAndLoad).bind
        (joinAll [("Bob", "map2", 2)])).map
        (fun g => (g.FindGameSession 0).map (fun s => (s.map_.id_, s.dogs_.map Dog.id_)))
        = some (some ("map1", [0])) := by
  refine ⟨by decide!, by decide!, by decide!, by decide!⟩

theorem restoreBag_speed (uninit : ℕ → Loot) (types : List (ℕ × ℤ)) :
    ∀ (values : List (ℕ × ℤ)) (dog : Dog) (next_addr : ℕ) (res : Dog × ℕ),
      restoreBag uninit types values dog next_addr = some res → res.1.speed_ = dog.speed_
  | [], dog, next_addr, res, h => by
    simp only [restoreBag, Option.some.injEq] at h
    rw [← h]
  | (id, val) :: rest, dog, next_addr, res, h => by
    simp only [restoreBag] at h
    cases hfind : umapFind types id with
    | none => simp [hfind] at h
    | some type =>
      simp only [hfind] at h
      rw [restoreBag_speed uninit types rest _ _ res h]
      unfold Dog.AddLoot
      split_ifs <;> rfl

theorem SetDirection_speed_of_zero (dg : Dog) (direction : String)
    (h : dg.movement_speed_ = 0) : (dg.SetDirection direction).speed_ = { dx := 0, dy := 0 } := by
  unfold Dog.SetDirection
  split_ifs <;> simp [h]

theorem Restore_speed (r : DogRepr) (dog_counter next_addr : ℕ) (uninitPoint : MapPoint)
    (uninit : ℕ → Loot) (res : Dog × ℕ × ℕ)
    (h : r.Restore dog_counter next_addr uninitPoint uninit = some res) :
    res.1.speed_ = { dx := 0, dy := 0 } := by
  unfold DogRepr.Restore at h
  simp only [Option.map_eq_some'] at h
  obtain ⟨bag, hbag, rfl⟩ := h
  have hs := restoreBag_speed uninit _ _ _ _ bag hbag
  simp only [Dog.AddScore, hs]
  simp only [DogRepr.restoreFields, Dog.SetWidth, Dog.SetBagCapacity, Dog.SetMovementSpeed]
  exact SetDirection_speed_of_zero _ _ rfl

/-- C15 (the code drops the velocity): `runner` is a dog that joined, was sent east
and moved for one tick; it is at `(10,0)` with velocity `(10,0)`.  Its restored
record has the same id, position, previous position, facing direction and movement
speed, but velocity `(0,0)`: `DogRepr::Restore` calls `SetDirection` while the
movement speed of the new dog is still `0` and never reads the saved `speed_`.
Every restored dog stands still. -/
theorem C15_restored_dog_stands_still :
    runner.speed_ = { dx := 10, dy := 0 } ∧ runner.IsMoving = true
    ∧ ((DogRepr.ofDog runner).Restore 0 0 { x := 0, y := 0 } staleLoot).map
        (fun res => (res.1.id_, res.1.pos_, res.1.previous_pos_, res.1.dir_,
          res.1.movement_speed_))
        = some (runner.id_, runner.pos_, runner.previous_pos_, runner.dir_,
          runner.movement_speed_)
    ∧ ((DogRepr.ofDog runner).Restore 0 0 { x := 0, y := 0 } staleLoot).map
        (fun res => (res.1.speed_, res.1.IsMoving))
        = some ({ dx := 0, dy := 0 }, false)
    ∧ (∀ (r : DogRepr) (dog_counter next_addr : ℕ) (uninitPoint : MapPoint)
        (uninit : ℕ → Loot) (res : Dog × ℕ × ℕ),
        r.Restore dog_counter next_addr uninitPoint uninit = some res →
        res.1.speed_ = { dx := 0, dy := 0 }) := by
  refine ⟨by decide!, by decide!, by decide!, by decide!, Restore_speed⟩

/-- C16 (the code rebuilds the name from the counter and loses the loot ids): Ann
joins `"map1"`, Bob `"map2"`, Cid `"map1"`; the dogs are `Ann_0`, `Bob_1`, `Cid_2`.
After saving and loading, Cid's dog (id `2`) is named `Cid_1` and Bob's (id `1`)
`Bob_2`: the constructor run by `DogRepr::Restore` appends the current value of
`dog_counter`, and `SetId` does not touch the name.  A dog carrying the item of id
`1` is restored with an item whose id is whatever the memory held (`999` here):
`Loot(type, value)` does not set the id.  Score and bag capacity are kept. -/
theorem C16_restored_name_and_bag_differ :
    threeJoins.map (fun g => (g.dogIds, g.dogNames))
        = some ([[0, 2], [1]], [["Ann_0", "Cid_2"], ["Bob_1"]])
    ∧ (threeJoins.bind saveAndLoad).map (fun g => (g.dogIds, g.dogNames))
        = some ([[0, 2], [1]], [["Ann_0", "Cid_1"], ["Bob_2"]])
    ∧ carried.obj.id_ = 1
    ∧ ((DogRepr.ofDog { runner with lootbag_ := [carried], score_ := 10 }).Restore 0 0
          { x := 0, y := 0 } staleLoot).map
        (fun res => (res.1.lootbag_.map (fun l => (l.obj.id_, l.obj.loot_type_, l.obj.value_)),
          res.1.score_, res.1.lootbag_capacity_))
        = some ([(999, 0, 10)], 10, 3) := by
  decide!

/-! ## Theorems: joining -/

theorem find?_id_eq {maps : List Map} {id : String} {m : Map}
    (h : maps.find? (fun m => decide (m.id_ = id)) = some m) : m.id_ = id ∧ m ∈ maps := by
  have h1 := List.find?_some h
  exact ⟨by simpa using h1, List.mem_of_find?_eq_some h⟩

theorem find?_bumpPlayerIdCounter (id id' : String) :
    ∀ maps : List Map,
      (Game.bumpPlayerIdCounter maps id).find? (fun m => decide (m.id_ = id'))
        = (maps.find? (fun m => decide (m.id_ = id'))).map
            (fun m => if m.id_ = id then
              { m with player_id_counter_ := m.player_id_counter_ + 1 } else m)
  | [] => rfl
  | m :: rest => by
    unfold Game.bumpPlayerIdCounter
    by_cases hm : m.id_ = id
    · rw [if_pos hm]
      by_cases hm' : m.id_ = id'
      · subst hm
        subst hm'
        simp [List.find?_cons]
      · have hne : ¬ id = id' := fun h => hm' (hm.trans h)
        simp only [List.find?_cons, hm', decide_False]
        cases hf : rest.find? (fun m => decide (m.id_ = id')) with
        | none => rfl
        | some m2 =>
          have h2 := (find?_id_eq hf).1
          have h3 : ¬ m2.id_ = id := fun h => hne (h.symm.trans h2)
          simp [h3]
    · rw [if_neg hm]
      by_cases hm' : m.id_ = id'
      · subst hm'
        simp [List.find?_cons, hm]
      · simp only [List.find?_cons, hm', decide_False]
        exact find?_bumpPlayerIdCounter id id' rest

theorem mem_bumpPlayerIdCounter (id : String) :
    ∀ (maps : List Map) (m : Map), m ∈ Game.bumpPlayerIdCounter maps id →
      ∃ m0 ∈ maps, m.roads_ = m0.roads_ ∧ m.id_ = m0.id_
  | [], m, h => by simp [Game.bumpPlayerIdCounter] at h
  | m1 :: rest, m, h => by
    unfold Game.bumpPlayerIdCounter at h
    by_cases hm : m1.id_ = id
    · rw [if_pos hm] at h
      rcases List.mem_cons.1 h with rfl | h
      · exact ⟨m1, List.mem_cons_self _ _, rfl, rfl⟩
      · exact ⟨m, List.mem_cons_of_mem _ h, rfl, rfl⟩
    · rw [if_neg hm] at h
      rcases List.mem_cons.1 h with rfl | h
      · exact ⟨m, List.mem_cons_self _ _, rfl, rfl⟩
      · obtain ⟨m0, hm0, hr⟩ := mem_bumpPlayerIdCounter id rest m h
        exact ⟨m0, List.mem_cons_of_mem _ hm0, hr⟩

theorem findSessionIndex_lt (g : Game) (hidx : g.SessionsIndexed) (map_id : String) (idx : ℕ)
    (h : g.findSessionIndex map_id = some idx) : idx < g.game_sessions_.length := by
  unfold Game.findSessionIndex at h
  simp only [Option.map_eq_some'] at h
  obtain ⟨kv, hkv, rfl⟩ := h
  exact hidx kv (List.mem_of_find?_eq_some hkv)

/-- A join to a registered map succeeds once the spawn point exists. -/
theorem AddPlayer_isSome (g : Game) (player : Player) (map_id : String) (draws : JoinDraws)
    (map : Map) (hmap : g.FindMap map_id = some map) (hroads : map.roads_ ≠ [])
    (hdraw : g.dog_random_spawning_mode_ = true → draws.road < map.roads_.length)
    (hidx : g.SessionsIndexed) : ∃ g', g.AddPlayer player map_id draws = some g' := by
  have hspawn : ∃ p, (if g.dog_random_spawning_mode_ then GetRandomMapPointOnRoads map draws
      else GetBeginMapPointOnRoads map) = some p := by
    by_cases hmode : g.dog_random_spawning_mode_ = true
    · rw [if_pos hmode]
      unfold GetRandomMapPointOnRoads
      rw [List.getElem?_eq_getElem (hdraw hmode)]
      exact ⟨_, rfl⟩
    · rw [if_neg hmode]
      unfold GetBeginMapPointOnRoads
      cases hr : map.roads_ with
      | nil => exact absurd hr hroads
      | cons r rest => exact ⟨_, rfl⟩
  obtain ⟨p, hp⟩ := hspawn
  unfold Game.AddPlayer
  simp only [hmap, hp]
  cases hfind : Game.findSessionIndex
      { g with dog_counter := g.dog_counter + 1, next_addr := g.next_addr + 1 } map_id with
  | none => exact ⟨_, rfl⟩
  | some idx =>
    have hlt : idx < g.game_sessions_.length := findSessionIndex_lt g hidx map_id idx hfind
    simp only [List.getElem?_eq_getElem hlt]
    exact ⟨_, rfl⟩

theorem GenerateAuthToken_length (draws : Fin 32 → Fin 16) :
    (GenerateAuthToken draws).length = 32 := by
  simp [GenerateAuthToken, String.length]

theorem GenerateAuthToken_hex (draws : Fin 32 → Fin 16) :
    ∀ c ∈ (GenerateAuthToken draws).data, c ∈ hexDigits := by
  intro c hc
  simp only [GenerateAuthToken, List.mem_map] at hc
  obtain ⟨i, -, rfl⟩ := hc
  generalize draws i = k
  revert k
  decide

/-- C18, the claim as stated fails: the map of `namelessMapGame` is registered under
the id `""`; a join of `Rex` to `""` names a registered map with a non-empty user
name, and is rejected with `404 mapNotFound`. -/
theorem C18_registered_map_rejected :
    (namelessMapGame.FindMap "").isSome = true
    ∧ (HandleJoinGame namelessMapGame "Rex" "" (drawsOf 1)).map (fun r => r.1)
        = some (JoinResponse.error 404 "mapNotFound") := by
  decide!

/-- C18 as amended: in a game all of whose maps have a road, a join request succeeds
exactly when the user name is non-empty and the map id is non-empty and names a
registered map.  An empty user name is answered `400 invalidArgument`; otherwise an
empty or unregistered map id is answered `404 mapNotFound`; in both cases the game
is unchanged.  On success the answer carries the map's player-id counter and a
token of exactly 32 characters, each of `0-9a-f`. -/
theorem C18_join_outcome (g : Game) (username map_id : String) (draws : JoinDraws)
    (hroads : ∀ m ∈ g.maps_, m.roads_ ≠ []) (hidx : g.SessionsIndexed)
    (hdraw : g.DrawsInRange draws) :
    (username = "" →
      HandleJoinGame g username map_id draws
        = some (JoinResponse.error 400 "invalidArgument", g))
    ∧ (username ≠ "" → (map_id = "" ∨ g.FindMap map_id = none) →
      HandleJoinGame g username map_id draws = some (JoinResponse.error 404 "mapNotFound", g))
    ∧ (username ≠ "" → map_id ≠ "" → ∀ map, g.FindMap map_id = some map →
      ∃ g', HandleJoinGame g username map_id draws
        = some (JoinResponse.ok (GenerateAuthToken draws.token) (map.player_id_counter_ : ℤ), g'))
    ∧ (GenerateAuthToken draws.token).length = 32
    ∧ (∀ c ∈ (GenerateAuthToken draws.token).data, c ∈ hexDigits) := by
  refine ⟨?_, ?_, ?_, GenerateAuthToken_length _, GenerateAuthToken_hex _⟩
  · intro hu
    unfold HandleJoinGame
    rw [if_pos hu]
  · intro hu hm
    unfold HandleJoinGame
    rw [if_neg hu]
    cases hf : g.FindMap map_id with
    | none => rfl
    | some map =>
      rcases hm with hm | hm
      · simp only [if_pos hm]
      · rw [hf] at hm
        exact absurd hm (by simp)
  · intro hu hm map hf
    have hid := find?_id_eq hf
    have hf' : Game.FindMap { g with maps_ := Game.bumpPlayerIdCounter g.maps_ map_id } map.id_
        = some { map with player_id_counter_ := map.player_id_counter_ + 1 } := by
      unfold Game.FindMap at hf ⊢
      simp only [find?_bumpPlayerIdCounter, hid.1, hf, Option.map_some', if_true]
    obtain ⟨g', hg'⟩ := AddPlayer_isSome
      { g with maps_ := Game.bumpPlayerIdCounter g.maps_ map_id }
      { playerId := (map.player_id_counter_ : ℤ), userName := username
        authToken := GenerateAuthToken draws.token }
      map.id_ draws _ hf' (hroads map hid.2)
      (fun hmode => hdraw hmode map hid.2) hidx
    refine ⟨g', ?_⟩
    unfold HandleJoinGame
    rw [if_neg hu]
    simp only [hf, if_neg hm, hg', Option.map_some']

/-- The witness of C18: a join of `Rex` to `"map1"` of `twoMapsGame` succeeds with
player id `0`; a join with an empty name is answered `400`. -/
theorem C18_join_outcome_witness :
    (∀ m ∈ twoMapsGame.maps_, m.roads_ ≠ []) ∧ twoMapsGame.SessionsIndexed
    ∧ twoMapsGame.DrawsInRange (drawsOf 1)
    ∧ (∃ g', HandleJoinGame twoMapsGame "Rex" "map1" (drawsOf 1)
        = some (JoinResponse.ok (GenerateAuthToken (drawsOf 1).token) 0, g'))
    ∧ HandleJoinGame twoMapsGame "" "map1" (drawsOf 1)
        = some (JoinResponse.error 400 "invalidArgument", twoMapsGame) := by
  have h1 : ∀ m ∈ twoMapsGame.maps_, m.roads_ ≠ [] := by decide!
  have h2 : twoMapsGame.SessionsIndexed := by
    intro kv hkv
    simp [twoMapsGame] at hkv
  have h3 : twoMapsGame.DrawsInRange (drawsOf 1) := by
    intro hmode
    simp [twoMapsGame] at hmode
  have h := C18_join_outcome twoMapsGame "Rex" "map1" (drawsOf 1) h1 h2 h3
  have h' := C18_join_outcome twoMapsGame "" "map1" (drawsOf 1) h1 h2 h3
  exact ⟨h1, h2, h3, h.2.2.1 (by decide) (by decide) cornerMap rfl, h'.1 rfl⟩

theorem roundHalfAway_intCast (n : ℤ) : roundHalfAway ((n : ℚ) * 100) = n * 100 := by
  have hcast : ((n : ℚ) * 100) = ((n * 100 : ℤ) : ℚ) := by push_cast; ring
  have hhalf : ⌊(1 / 2 : ℚ)⌋ = 0 := by
    rw [Int.floor_eq_iff]
    norm_num
  unfold roundHalfAway
  split_ifs with h
  · rw [hcast, Int.floor_int_add, hhalf, add_zero]
  · have hneg : -((n : ℚ) * 100) = ((-(n * 100) : ℤ) : ℚ) := by push_cast; ring
    rw [hneg, Int.floor_int_add, hhalf, add_zero, neg_neg]

theorem SetPos_intCast (d : Dog) (a b : ℤ) :
    (d.SetPos { x := (a : ℚ), y := (b : ℚ) }).pos_ = { x := (a : ℚ), y := (b : ℚ) } := by
  have h100 : (100 : ℚ) ≠ 0 := by norm_num
  simp only [Dog.SetPos, roundHalfAway_intCast]
  congr 1
  · push_cast
    field_simp
  · push_cast
    field_simp

theorem find?_emplacePlayer (players : List Player) (player : Player)
    (h : players.find? (fun p => decide (p.authToken = player.authToken)) = none) :
    (Game.emplacePlayer players player).find? (fun p => decide (p.authToken = player.authToken))
      = some player := by
  have hany : players.any (fun p => decide (p.authToken = player.authToken)) = false := by
    rw [List.any_eq_false]
    intro p hp
    have := List.find?_eq_none.1 h p hp
    simpa using this
  unfold Game.emplacePlayer
  rw [hany]
  simp only [Bool.false_eq_true, if_false, List.find?_append, h, Option.none_or]
  simp

theorem find?_assignSessionIndex (sessions : List (String × ℕ)) (map_id : String) (idx : ℕ)
    (h : sessions.find? (fun kv => decide (kv.1 = map_id)) = none) :
    (Game.assignSessionIndex sessions map_id idx).find? (fun kv => decide (kv.1 = map_id))
      = some (map_id, idx) := by
  have hany : sessions.any (fun kv => decide (kv.1 = map_id)) = false := by
    rw [List.any_eq_false]
    intro kv hkv
    have := List.find?_eq_none.1 h kv hkv
    simpa using this
  unfold Game.assignSessionIndex
  rw [hany]
  simp only [Bool.false_eq_true, if_false, List.find?_append, h, Option.none_or]
  simp

theorem AddPlayer_new_session (g : Game) (player : Player) (map_id : String)
    (draws : JoinDraws) (map : Map) (p : MapPoint) (hmap : g.FindMap map_id = some map)
    (hspawn : (if g.dog_random_spawning_mode_ then GetRandomMapPointOnRoads map draws
      else GetBeginMapPointOnRoads map) = some p)
    (hfind : g.findSessionIndex map_id = none) :
    g.AddPlayer player map_id draws = some
      { g with
        dog_counter := g.dog_counter + 1
        next_addr := g.next_addr + 1
        session_counter_ := g.session_counter_ + 1
        game_sessions_ := g.game_sessions_ ++
          [{ dogs_ := [g.newDog player map draws.uninit p], loot_ := [], map_ := map
             id_ := g.session_counter_ }]
        sessions_ := Game.assignSessionIndex g.sessions_ map_id g.game_sessions_.length
        players_ := Game.emplacePlayer g.players_
          { player with
            player_dog_ := some { addr := g.next_addr, id_ := g.dog_counter }
            current_session_id_ := g.session_counter_ } } := by
  have hfind2 : Game.findSessionIndex
      { g with dog_counter := g.dog_counter + 1, next_addr := g.next_addr + 1 } map_id
      = none := hfind
  unfold Game.AddPlayer
  simp only [hmap, hspawn, hfind2]
  rfl

theorem AddPlayer_old_session (g : Game) (player : Player) (map_id : String)
    (draws : JoinDraws) (map : Map) (p : MapPoint) (idx : ℕ) (session : GameSession)
    (hmap : g.FindMap map_id = some map)
    (hspawn : (if g.dog_random_spawning_mode_ then GetRandomMapPointOnRoads map draws
      else GetBeginMapPointOnRoads map) = some p)
    (hfind : g.findSessionIndex map_id = some idx)
    (hsession : g.game_sessions_[idx]? = some session) :
    g.AddPlayer player map_id draws = some
      { g with
        dog_counter := g.dog_counter + 1
        next_addr := g.next_addr + 1
        game_sessions_ := g.game_sessions_.set idx
          { session with dogs_ := session.dogs_ ++ [g.newDog player map draws.uninit p] }
        players_ := Game.emplacePlayer g.players_
          { player with
            player_dog_ := some { addr := g.next_addr, id_ := g.dog_counter }
            current_session_id_ := session.id_ } } := by
  have hfind2 : Game.findSessionIndex
      { g with dog_counter := g.dog_counter + 1, next_addr := g.next_addr + 1 } map_id
      = some idx := hfind
  unfold Game.AddPlayer
  simp only [hmap, hspawn, hfind2, hsession]
  rfl

/-- The call `players_.emplace(token, player)` for a token that is already a key
leaves the registry as it is. -/
theorem emplacePlayer_of_find? (players : List Player) (player earlier : Player)
    (h : players.find? (fun p => decide (p.authToken = player.authToken)) = some earlier) :
    Game.emplacePlayer players player = players := by
  have hany : players.any (fun p => decide (p.authToken = player.authToken)) = true := by
    rw [List.any_eq_true]
    have hp := List.find?_some h
    exact ⟨earlier, List.mem_of_find?_eq_some h, hp⟩
  unfold Game.emplacePlayer
  rw [if_pos hany]

/-- C19: with the randomized spawn off, `Game::AddPlayer` for a registered map with at
least one road: the new dog stands at the start of the map's first road, has the
map's default speed and bag capacity, velocity `(0,0)`, an empty bag and score `0`;
it is appended to the roster of the map's session (a new session holding just this
dog when the map had none).  When the player's token is not in the registry yet, the
registry returns, under that token, the player with this dog and this session's id;
when the token is already a key, `players_.emplace` inserts nothing: the registry
is unchanged and the token still resolves to the earlier player. -/
theorem C19_join_spawn (g : Game) (player : Player) (map_id : String) (draws : JoinDraws)
    (map : Map) (road : Road) (rest : List Road)
    (hmode : g.dog_random_spawning_mode_ = false) (hmap : g.FindMap map_id = some map)
    (hroads : map.roads_ = road :: rest) (hidx : g.SessionsIndexed) :
    ∃ (g' : Game) (dog : Dog) (idx : ℕ) (session : GameSession),
      g.AddPlayer player map_id draws = some g'
      ∧ dog.pos_ = { x := (road.start_.x : ℚ), y := (road.start_.y : ℚ) }
      ∧ dog.movement_speed_ = map.map_default_dogs_speed
      ∧ dog.lootbag_capacity_ = map.map_default_bag_capacity
      ∧ dog.speed_ = { dx := 0, dy := 0 } ∧ dog.lootbag_ = [] ∧ dog.score_ = 0
      ∧ g'.findSessionIndex map_id = some idx ∧ g'.game_sessions_[idx]? = some session
      ∧ (g.findSessionIndex map_id = none →
          session.dogs_ = [dog] ∧ session.map_ = map ∧ session.id_ = g.session_counter_)
      ∧ (∀ i s, g.findSessionIndex map_id = some i → g.game_sessions_[i]? = some s →
          idx = i ∧ session = { s with dogs_ := s.dogs_ ++ [dog] })
      ∧ (g.FindPlayerByToken player.authToken = none →
          g'.FindPlayerByToken player.authToken
            = some { player with current_session_id_ := session.id_
                                 player_dog_ := some { addr := dog.addr_, id_ := dog.id_ } })
      ∧ (∀ earlier, g.FindPlayerByToken player.authToken = some earlier →
          g'.players_ = g.players_
          ∧ g'.FindPlayerByToken player.authToken = some earlier) := by
  have hspawn : (if g.dog_random_spawning_mode_ then GetRandomMapPointOnRoads map draws
      else GetBeginMapPointOnRoads map)
      = some { x := (road.start_.x : ℚ), y := (road.start_.y : ℚ) } := by
    rw [hmode]
    simp only [Bool.false_eq_true, if_false, GetBeginMapPointOnRoads, hroads, Road.GetStart]
  have hpos : (g.newDog player map draws.uninit
      { x := (road.start_.x : ℚ), y := (road.start_.y : ℚ) }).pos_
      = { x := (road.start_.x : ℚ), y := (road.start_.y : ℚ) } :=
    SetPos_intCast (Dog.create g.dog_counter player.userName draws.uninit)
      road.start_.x road.start_.y
  cases hfind : g.findSessionIndex map_id with
  | none =>
    have hfind' : g.sessions_.find? (fun kv => decide (kv.1 = map_id)) = none := by
      unfold Game.findSessionIndex at hfind
      simpa using hfind
    refine ⟨_, g.newDog player map draws.uninit
        { x := (road.start_.x : ℚ), y := (road.start_.y : ℚ) }, g.game_sessions_.length,
      { dogs_ := [g.newDog player map draws.uninit
          { x := (road.start_.x : ℚ), y := (road.start_.y : ℚ) }], loot_ := [], map_ := map
        id_ := g.session_counter_ },
      AddPlayer_new_session g player map_id draws map _ hmap hspawn hfind, hpos,
      rfl, rfl, rfl, rfl, rfl, ?_, ?_, fun _ => ⟨rfl, rfl, rfl⟩, ?_, ?_, ?_⟩
    · simp only [Game.findSessionIndex, find?_assignSessionIndex _ _ _ hfind', Option.map_some']
    · simp
    · intro i s hi
      exact absurd hi (by simp)
    · intro htoken
      unfold Game.FindPlayerByToken at htoken
      simp only [Game.FindPlayerByToken]
      exact find?_emplacePlayer g.players_
        { player with
          player_dog_ := some { addr := g.next_addr, id_ := g.dog_counter }
          current_session_id_ := g.session_counter_ } htoken
    · intro earlier htoken
      unfold Game.FindPlayerByToken at htoken
      have hkeep := emplacePlayer_of_find? g.players_
        { player with
          player_dog_ := some { addr := g.next_addr, id_ := g.dog_counter }
          current_session_id_ := g.session_counter_ } earlier htoken
      refine ⟨hkeep, ?_⟩
      simp only [Game.FindPlayerByToken]
      rw [hkeep]
      exact htoken
  | some i =>
    have hlt : i < g.game_sessions_.length := findSessionIndex_lt g hidx map_id i hfind
    refine ⟨_, g.newDog player map draws.uninit
        { x := (road.start_.x : ℚ), y := (road.start_.y : ℚ) }, i,
      { g.game_sessions_[i] with dogs_ := g.game_sessions_[i].dogs_ ++
          [g.newDog player map draws.uninit
            { x := (road.start_.x : ℚ), y := (road.start_.y : ℚ) }] },
      AddPlayer_old_session g player map_id draws map _ i _ hmap hspawn hfind
        (List.getElem?_eq_getElem hlt), hpos,
      rfl, rfl, rfl, rfl, rfl, ?_, ?_, fun h => absurd h (by simp), ?_, ?_, ?_⟩
    · exact hfind
    · simp [List.getElem?_set, hlt]
    · intro i' s hi hs
      obtain rfl : i = i' := Option.some.inj hi
      rw [List.getElem?_eq_getElem hlt] at hs
      obtain rfl := Option.some.inj hs
      exact ⟨rfl, rfl⟩
    · intro htoken
      unfold Game.FindPlayerByToken at htoken
      simp only [Game.FindPlayerByToken]
      exact find?_emplacePlayer g.players_
        { player with
          player_dog_ := some { addr := g.next_addr, id_ := g.dog_counter }
          current_session_id_ := g.game_sessions_[i].id_ } htoken
    · intro earlier htoken
      unfold Game.FindPlayerByToken at htoken
      have hkeep := emplacePlayer_of_find? g.players_
        { player with
          player_dog_ := some { addr := g.next_addr, id_ := g.dog_counter }
          current_session_id_ := g.game_sessions_[i].id_ } earlier htoken
      refine ⟨hkeep, ?_⟩
      simp only [Game.FindPlayerByToken]
      rw [hkeep]
      exact htoken

/-- The witness of C19: Rex joins `"map1"` of `twoMapsGame`, whose road starts at
`(0,10)`. -/
theorem C19_join_spawn_witness :
    twoMapsGame.FindMap "map1" = some cornerMap
    ∧ ∃ (g' : Game) (dog : Dog),
        twoMapsGame.AddPlayer { playerId := 0, userName := "Rex", authToken := "t" } "map1"
          (drawsOf 1) = some g'
        ∧ dog.pos_ = { x := 0, y := 10 } ∧ g'.game_sessions_.map (fun s => s.dogs_) = [[dog]] := by
  refine ⟨rfl, ?_⟩
  obtain ⟨g', dog, idx, session, hadd, hpos, -, -, -, -, -, -, -, -, -, -, -⟩ :=
    C19_join_spawn twoMapsGame { playerId := 0, userName := "Rex", authToken := "t" } "map1"
      (drawsOf 1) cornerMap (Road.horizontal { x := 0, y := 10 } 10) [] rfl rfl rfl
      (by intro kv hkv; simp [twoMapsGame] at hkv)
  have hpos' : dog.pos_ = { x := 0, y := 10 } := by
    rw [hpos]
    decide!
  have hg' : (twoMapsGame.AddPlayer { playerId := 0, userName := "Rex", authToken := "t" }
      "map1" (drawsOf 1)).map (fun g => g.game_sessions_.length) = some 1 := by decide!
  refine ⟨g', ⟨(twoMapsGame.newDog { playerId := 0, userName := "Rex", authToken := "t" }
    cornerMap { x := 0, y := 0 } { x := 0, y := 10 }), hadd, by decide!, ?_⟩⟩
  have hall : (twoMapsGame.AddPlayer { playerId := 0, userName := "Rex", authToken := "t" }
      "map1" (drawsOf 1)).map (fun g => g.game_sessions_.map (fun s => s.dogs_))
      = some [[twoMapsGame.newDog { playerId := 0, userName := "Rex", authToken := "t" }
          cornerMap { x := 0, y := 0 } { x := 0, y := 10 }]] := by decide!
  rw [hadd] at hall
  exact Option.some.inj hall

/-- C19, the registration fails when `GenerateAuthToken` returns a token that is
already in the registry (it seeds a new generator with one draw of
`std::random_device` and looks nothing up): Ann and Bob join `"map1"` of
`twoMapsGame` and both calls of `GenerateAuthToken` draw the same digits.  Both joins
answer with status `200`, Bob's with the player id `1` and Ann's token; both dogs
(ids `0` and `1`) stand in the roster, but the registry holds Ann alone and the token
resolves to Ann with the dog `0`: no player owns the dog `1`. -/
theorem C19_token_collision :
    (HandleJoinGame twoMapsGame "Ann" "map1" (drawsOf 1)).map Prod.fst
        = some (JoinResponse.ok (GenerateAuthToken (fun _ => 1)) 0)
    ∧ ((HandleJoinGame twoMapsGame "Ann" "map1" (drawsOf 1)).bind
        (fun r => HandleJoinGame r.2 "Bob" "map1" (drawsOf 1))).map Prod.fst
        = some (JoinResponse.ok (GenerateAuthToken (fun _ => 1)) 1)
    ∧ (joinAll [("Ann", "map1", 1), ("Bob", "map1", 1)] twoMapsGame).map Game.dogIds
        = some [[0, 1]]
    ∧ (joinAll [("Ann", "map1", 1), ("Bob", "map1", 1)] twoMapsGame).map
        (fun g => g.players_.map (fun p => (p.userName, p.player_dog_.map DogHandle.id_)))
        = some [("Ann", some 0)]
    ∧ (joinAll [("Ann", "map1", 1), ("Bob", "map1", 1)] twoMapsGame).map
        (fun g => (g.FindPlayerByToken (GenerateAuthToken (fun _ => 1))).map
          (fun p => (p.userName, p.player_dog_.map DogHandle.id_)))
        = some (some ("Ann", some 0)) := by
  decide!

theorem AddPlayer_maps (g g' : Game) (player : Player) (map_id : String) (draws : JoinDraws)
    (h : g.AddPlayer player map_id draws = some g') : g'.maps_ = g.maps_ := by
  unfold Game.AddPlayer at h
  split at h
  · exact absurd h (by simp)
  · dsimp only at h
    split at h
    · exact absurd h (by simp)
    · split at h
      · rw [← Option.some.inj h]
      · split at h
        · exact absurd h (by simp)
        · rw [← Option.some.inj h]

/-- The two outcomes of a handled join: an error that leaves the game alone, or a
success that returns the map's counter and increments it. -/
theorem HandleJoinGame_cases (g g1 : Game) (username map_id : String) (draws : JoinDraws)
    (resp : JoinResponse) (h : HandleJoinGame g username map_id draws = some (resp, g1)) :
    (resp.isOk = false ∧ g1 = g)
    ∨ (∃ map, g.FindMap map_id = some map
        ∧ resp = JoinResponse.ok (GenerateAuthToken draws.token) (map.player_id_counter_ : ℤ)
        ∧ g1.maps_ = Game.bumpPlayerIdCounter g.maps_ map_id) := by
  unfold HandleJoinGame at h
  by_cases hu : username = ""
  · rw [if_pos hu] at h
    left
    obtain ⟨rfl, rfl⟩ := Prod.mk.inj (Option.some.inj h)
    exact ⟨rfl, rfl⟩
  · rw [if_neg hu] at h
    cases hf : g.FindMap map_id with
    | none =>
      simp only [hf] at h
      left
      obtain ⟨rfl, rfl⟩ := Prod.mk.inj (Option.some.inj h)
      exact ⟨rfl, rfl⟩
    | some map =>
      simp only [hf] at h
      by_cases hm : map_id = ""
      · rw [if_pos hm] at h
        left
        obtain ⟨rfl, rfl⟩ := Prod.mk.inj (Option.some.inj h)
        exact ⟨rfl, rfl⟩
      · rw [if_neg hm] at h
        right
        simp only [Option.map_eq_some'] at h
        obtain ⟨g2, hadd, heq⟩ := h
        obtain ⟨rfl, rfl⟩ := Prod.mk.inj heq
        exact ⟨map, rfl, rfl, AddPlayer_maps _ _ _ _ _ hadd⟩

theorem FindMap_after_join (g g1 : Game) (username map_id map_id' : String)
    (draws : JoinDraws) (resp : JoinResponse)
    (h : HandleJoinGame g username map_id draws = some (resp, g1)) (map1 : Map)
    (h1 : g1.FindMap map_id' = some map1) :
    ∃ map, g.FindMap map_id' = some map
      ∧ map1.player_id_counter_ = map.player_id_counter_
          + (if (decide (map_id = map_id') && resp.isOk) = true then 1 else 0) := by
  rcases HandleJoinGame_cases g g1 username map_id draws resp h with ⟨hno, rfl⟩
    | ⟨map, hmap, rfl, hmaps⟩
  · exact ⟨map1, h1, by simp [hno]⟩
  · unfold Game.FindMap at h1 hmap ⊢
    rw [hmaps, find?_bumpPlayerIdCounter] at h1
    simp only [Option.map_eq_some'] at h1
    obtain ⟨m0, hm0, rfl⟩ := h1
    refine ⟨m0, hm0, ?_⟩
    have hid := (find?_id_eq hm0).1
    by_cases hsame : map_id = map_id'
    · have : m0.id_ = map_id := hid.trans hsame.symm
      simp [this, hsame, JoinResponse.isOk]
    · have : ¬ m0.id_ = map_id := fun h => hsame (h.symm.trans hid)
      simp [this, hsame]

theorem joinRun_ids :
    ∀ (reqs : List (String × String × JoinDraws)) (g g' : Game)
      (log : List (String × JoinResponse)),
      joinRun reqs g = some (log, g') →
      ∀ (i : ℕ) (map_id token : String) (pid : ℤ),
        log[i]? = some (map_id, JoinResponse.ok token pid) →
        ∃ map, g.FindMap map_id = some map
          ∧ pid = ((map.player_id_counter_ + successesOn map_id (log.take i) : ℕ) : ℤ)
  | [], g, g', log, h, i, map_id, token, pid, hi => by
    simp only [joinRun, Option.some.injEq, Prod.mk.injEq] at h
    rw [← h.1] at hi
    simp at hi
  | (username, m, draws) :: rest, g, g', log, h, i, map_id, token, pid, hi => by
    simp only [joinRun] at h
    cases hj : HandleJoinGame g username m draws with
    | none => simp [hj] at h
    | some r =>
      obtain ⟨resp, g1⟩ := r
      simp only [hj, Option.map_eq_some'] at h
      obtain ⟨⟨log1, g2⟩, hrest, heq⟩ := h
      obtain ⟨rfl, rfl⟩ := Prod.mk.inj heq
      cases i with
      | zero =>
        simp only [List.getElem?_cons_zero, Option.some.injEq, Prod.mk.injEq] at hi
        obtain ⟨rfl, rfl⟩ := hi
        rcases HandleJoinGame_cases g g1 username m draws _ hj with ⟨hno, -⟩
          | ⟨map, hmap, hresp, -⟩
        · simp [JoinResponse.isOk] at hno
        · refine ⟨map, hmap, ?_⟩
          simp only [JoinResponse.ok.injEq] at hresp
          simp [successesOn, hresp.2]
      | succ k =>
        simp only [List.getElem?_cons_succ] at hi
        obtain ⟨map1, hmap1, hpid⟩ := joinRun_ids rest g1 g2 log1 hrest k map_id token pid hi
        obtain ⟨map, hmap, hcount⟩ := FindMap_after_join g g1 username m map_id draws resp hj
          map1 hmap1
        refine ⟨map, hmap, ?_⟩
        rw [hpid, hcount]
        simp only [successesOn, List.take_succ_cons, List.countP_cons]
        push_cast
        ring

theorem successesOn_take_lt (map_id : String) (log : List (String × JoinResponse))
    (i j : ℕ) (hij : i < j) (ti : String) (pi : ℤ)
    (hi : log[i]? = some (map_id, JoinResponse.ok ti pi)) :
    successesOn map_id (log.take i) < successesOn map_id (log.take j) := by
  have h1 : successesOn map_id (log.take (i + 1)) = successesOn map_id (log.take i) + 1 := by
    simp [successesOn, List.take_succ, hi, JoinResponse.isOk]
  have h2 : successesOn map_id (log.take (i + 1)) ≤ successesOn map_id (log.take j) :=
    List.Sublist.countP_le _ (List.take_sublist_take_left log hij)
  omega

/-- C20: starting from a game whose maps all have their player-id counter at `0`, in
any sequence of join requests the `k`-th successful join to a map returns the player
id `k − 1`: the id returned by a successful join equals the number of earlier
successful joins to the same map (joins to other maps and rejected joins do not
count), so two successful joins to one map return strictly increasing ids. -/
theorem C20_player_ids (reqs : List (String × String × JoinDraws)) (g g' : Game)
    (log : List (String × JoinResponse)) (hfresh : ∀ m ∈ g.maps_, m.player_id_counter_ = 0)
    (hrun : joinRun reqs g = some (log, g')) :
    (∀ (i : ℕ) (map_id token : String) (pid : ℤ),
      log[i]? = some (map_id, JoinResponse.ok token pid) →
      pid = (successesOn map_id (log.take i) : ℤ))
    ∧ (∀ (i j : ℕ) (map_id ti tj : String) (pi pj : ℤ), i < j →
      log[i]? = some (map_id, JoinResponse.ok ti pi) →
      log[j]? = some (map_id, JoinResponse.ok tj pj) → pi < pj) := by
  have hid : ∀ (i : ℕ) (map_id token : String) (pid : ℤ),
      log[i]? = some (map_id, JoinResponse.ok token pid) →
      pid = (successesOn map_id (log.take i) : ℤ) := by
    intro i map_id token pid hi
    obtain ⟨map, hmap, hpid⟩ := joinRun_ids reqs g g' log hrun i map_id token pid hi
    rw [hpid, hfresh map (find?_id_eq hmap).2, Nat.zero_add]
  refine ⟨hid, ?_⟩
  intro i j map_id ti tj pi pj hij hi hj
  rw [hid i map_id ti pi hi, hid j map_id tj pj hj]
  exact_mod_cast successesOn_take_lt map_id log i j hij ti pi hi

/-- The witness of C20: on `twoMapsGame`, Ann joins `"map1"`, a nameless player is
rejected, Bob joins `"map2"`, Dan asks for an unknown map, Cid joins `"map1"`: the
ids returned are `0`, `0` and `1`. -/
theorem C20_player_ids_witness :
    (∀ m ∈ twoMapsGame.maps_, m.player_id_counter_ = 0)
    ∧ (joinRun [("Ann", "map1", drawsOf 1), ("", "map1", drawsOf 2), ("Bob", "map2", drawsOf 3),
          ("Dan", "nowhere", drawsOf 4), ("Cid", "map1", drawsOf 5)] twoMapsGame).map
        (fun r => r.1.map (fun e => e.2))
        = some [JoinResponse.ok (GenerateAuthToken (fun _ => 1)) 0,
                JoinResponse.error 400 "invalidArgument",
                JoinResponse.ok (GenerateAuthToken (fun _ => 3)) 0,
                JoinResponse.error 404 "mapNotFound",
                JoinResponse.ok (GenerateAuthToken (fun _ => 5)) 1]
    ∧ ∀ (log : List (String × JoinResponse)) (g' : Game),
        joinRun [("Ann", "map1", drawsOf 1), ("", "map1", drawsOf 2),
          ("Bob", "map2", drawsOf 3), ("Dan", "nowhere", drawsOf 4),
          ("Cid", "map1", drawsOf 5)] twoMapsGame = some (log, g') →
        ∀ (i : ℕ) (map_id token : String) (pid : ℤ),
          log[i]? = some (map_id, JoinResponse.ok token pid) →
          pid = (successesOn map_id (log.take i) : ℤ) := by
  have hfresh : ∀ m ∈ twoMapsGame.maps_, m.player_id_counter_ = 0 := by decide!
  refine ⟨hfresh, by decide!, ?_⟩
  intro log g' hrun
  exact (C20_player_ids _ twoMapsGame g' log hfresh hrun).1

/-! ## Theorems: saving and loading the players -/

theorem umapFind_umapAssign {β : Type} (key key' : ℕ) (value : β) :
    ∀ m : List (ℕ × β),
      umapFind (umapAssign m key value) key'
        = if key' = key then some value else umapFind m key'
  | [] => by
    by_cases h : key' = key
    · simp [umapAssign, umapFind, h]
    · have h' : ¬ key = key' := fun e => h e.symm
      simp [umapAssign, umapFind, h, h']
  | kv :: m => by
    unfold umapAssign
    by_cases hk : kv.1 = key
    · rw [if_pos hk]
      by_cases h : key' = key
      · simp [umapFind, h]
      · have h' : ¬ key = key' := fun e => h e.symm
        have h'' : ¬ kv.1 = key' := fun e => h (e.symm.trans hk)
        simp [umapFind, h, h', h'']
    · rw [if_neg hk]
      by_cases hk' : kv.1 = key'
      · have h : ¬ key' = key := fun e => hk (hk'.trans e)
        simp [umapFind, hk', h]
      · have ih := umapFind_umapAssign key key' value m
        simp only [umapFind, List.find?_cons, hk', decide_False] at ih ⊢
        exact ih

theorem umapAssign_keys {β γ : Type} (key : ℕ) (v1 : β) (v2 : γ) :
    ∀ (m1 : List (ℕ × β)) (m2 : List (ℕ × γ)), m1.map Prod.fst = m2.map Prod.fst →
      (umapAssign m1 key v1).map Prod.fst = (umapAssign m2 key v2).map Prod.fst
  | [], [], _ => rfl
  | [], _ :: _, h => by simp at h
  | _ :: _, [], h => by simp at h
  | a :: m1, b :: m2, h => by
    simp only [List.map_cons, List.cons.injEq] at h
    unfold umapAssign
    by_cases hk : a.1 = key
    · rw [if_pos hk, if_pos (h.1 ▸ hk)]
      simp [h.2]
    · rw [if_neg hk, if_neg (h.1 ▸ hk)]
      simp [h.1, umapAssign_keys key v1 v2 m1 m2 h.2]

theorem umapFind_isSome_of_mem {β : Type} (key : ℕ) :
    ∀ m : List (ℕ × β), key ∈ m.map Prod.fst → ∃ v, umapFind m key = some v
  | [], h => by simp at h
  | kv :: m, h => by
    by_cases hk : kv.1 = key
    · exact ⟨kv.2, by simp [umapFind, hk]⟩
    · have hm : key ∈ m.map Prod.fst := by
        rcases List.mem_cons.1 h with h | h
        · exact absurd h.symm hk
        · exact h
      obtain ⟨v, hv⟩ := umapFind_isSome_of_mem key m hm
      refine ⟨v, ?_⟩
      simp only [umapFind, List.find?_cons, hk, decide_False] at hv ⊢
      exact hv

/-- After a run of assignments the value of a key is the one every assignment to
that key gave it. -/
theorem umapFind_foldl {β : Type} (key : ℕ) (value : β) :
    ∀ (kvs : List (ℕ × β)) (m : List (ℕ × β)),
      (∀ kv ∈ kvs, kv.1 = key → kv.2 = value) →
      ((∃ kv ∈ kvs, kv.1 = key) ∨ umapFind m key = some value) →
      umapFind (kvs.foldl (fun m kv => umapAssign m kv.1 kv.2) m) key = some value
  | [], m, _, h => by
    rcases h with ⟨kv, hkv, -⟩ | h
    · exact absurd hkv (List.not_mem_nil _)
    · exact h
  | kv :: kvs, m, hall, h => by
    rw [List.foldl_cons]
    apply umapFind_foldl key value kvs _ (fun kv' hkv' => hall kv' (List.mem_cons_of_mem _ hkv'))
    by_cases hin : ∃ kv' ∈ kvs, kv'.1 = key
    · exact Or.inl hin
    · right
      rw [umapFind_umapAssign]
      by_cases hk : key = kv.1
      · rw [if_pos hk, hall kv (List.mem_cons_self _ _) hk.symm]
      · rw [if_neg hk]
        rcases h with ⟨kv', hkv', hkey⟩ | h
        · rcases List.mem_cons.1 hkv' with rfl | hkv'
          · exact absurd hkey.symm hk
          · exact absurd ⟨kv', hkv', hkey⟩ hin
        · exact h

theorem bag_keys (bag : List LootSharedPtr) :
    ∀ (m1 m2 : List (ℕ × ℤ)), m1.map Prod.fst = m2.map Prod.fst →
      (bag.foldl (fun m loot => umapAssign m loot.obj.id_ loot.obj.value_) m1).map Prod.fst
        = (bag.foldl (fun m loot => umapAssign m loot.obj.id_ loot.obj.loot_type_) m2).map
            Prod.fst := by
  induction bag with
  | nil => exact fun _ _ h => h
  | cons loot bag ih =>
    intro m1 m2 h
    rw [List.foldl_cons, List.foldl_cons]
    exact ih _ _ (umapAssign_keys _ _ _ m1 m2 h)

theorem restoreBag_isSome (uninit : ℕ → Loot) (types : List (ℕ × ℤ)) :
    ∀ (values : List (ℕ × ℤ)) (dog : Dog) (next_addr : ℕ),
      (∀ kv ∈ values, kv.1 ∈ types.map Prod.fst) →
      ∃ res, restoreBag uninit types values dog next_addr = some res ∧ res.1.id_ = dog.id_
  | [], dog, next_addr, _ => ⟨_, rfl, rfl⟩
  | (id, val) :: rest, dog, next_addr, h => by
    obtain ⟨type, htype⟩ := umapFind_isSome_of_mem id types (h (id, val) (List.mem_cons_self _ _))
    obtain ⟨res, hres, hid⟩ := restoreBag_isSome uninit types rest
      (dog.AddLoot (Loot.ofTypeValue uninit next_addr type val)).1 (next_addr + 1)
      (fun kv hkv => h kv (List.mem_cons_of_mem _ hkv))
    refine ⟨res, ?_, ?_⟩
    · simp only [restoreBag, htype]
      exact hres
    · rw [hid]
      unfold Dog.AddLoot
      split_ifs <;> rfl

theorem restoreFields_id (r : DogRepr) (dog_counter : ℕ) (uninitPoint : MapPoint) :
    (r.restoreFields dog_counter uninitPoint).id_ = r.id_ := by
  have hdir : ∀ (dg : Dog) (str : String), (dg.SetDirection str).id_ = dg.id_ := by
    intro dg str
    unfold Dog.SetDirection
    split_ifs <;> rfl
  simp only [DogRepr.restoreFields, Dog.SetWidth, Dog.SetBagCapacity, Dog.SetMovementSpeed, hdir,
    Dog.SetPreviousPos, Dog.SetPos, Dog.SetId]

/-- The record of a dog can always be restored, and the restored dog has the id of
the record. -/
theorem Restore_ofDog (d : Dog) (dog_counter next_addr : ℕ) (uninitPoint : MapPoint)
    (uninit : ℕ → Loot) :
    ∃ res, (DogRepr.ofDog d).Restore dog_counter next_addr uninitPoint uninit = some res
      ∧ res.1.id_ = d.id_ := by
  have hkeys : ∀ kv ∈ (DogRepr.ofDog d).loot_id_to_value,
      kv.1 ∈ (DogRepr.ofDog d).loot_id_to_type.map Prod.fst := by
    intro kv hkv
    have h := bag_keys d.lootbag_ [] [] rfl
    simp only [DogRepr.ofDog] at hkv ⊢
    rw [← h]
    exact List.mem_map_of_mem _ hkv
  unfold DogRepr.Restore
  obtain ⟨res, hres, hid⟩ := restoreBag_isSome uninit (DogRepr.ofDog d).loot_id_to_type
    (DogRepr.ofDog d).loot_id_to_value
    ((DogRepr.ofDog d).restoreFields dog_counter uninitPoint) next_addr hkeys
  refine ⟨(res.1.AddScore (DogRepr.ofDog d).score_,
    UpdateDogCounter ((DogRepr.ofDog d).restoreFields dog_counter uninitPoint) (dog_counter + 1),
    res.2), by simp only [hres, Option.map_some'], ?_⟩
  simp only [Dog.AddScore, hid, restoreFields_id]
  rfl

theorem restoreDogs_ofDog (uninitPoint : MapPoint) (uninit : ℕ → Loot) :
    ∀ (dogs : List Dog) (session : GameSession) (g : Game),
      ∃ session' g', restoreDogs uninitPoint uninit (dogs.map DogRepr.ofDog) session g
          = some (session', g')
        ∧ session'.dogs_.map Dog.id_ = session.dogs_.map Dog.id_ ++ dogs.map Dog.id_
        ∧ session'.id_ = session.id_
        ∧ g'.maps_ = g.maps_ ∧ g'.players_ = g.players_
        ∧ g'.game_sessions_ = g.game_sessions_ ∧ g'.sessions_ = g.sessions_
        ∧ g'.dog_id_to_session_id_
            = (dogs.map fun d => (d.id_, session.id_)).foldl
                (fun m kv => umapAssign m kv.1 kv.2) g.dog_id_to_session_id_
  | [], session, g => ⟨session, g, rfl, by simp, rfl, rfl, rfl, rfl, rfl, rfl⟩
  | d :: dogs, session, g => by
    obtain ⟨res, hres, hid⟩ :=
      Restore_ofDog d g.dog_counter g.next_addr uninitPoint uninit
    obtain ⟨dog, dog_counter, next_addr⟩ := res
    obtain ⟨session', g', hrest, hids, hsid, hmaps, hplayers, hsessions, hindex, hmap⟩ :=
      restoreDogs_ofDog uninitPoint uninit dogs
        { session with dogs_ := session.dogs_ ++ [{ dog with addr_ := next_addr }] }
        { g with
          dog_counter := dog_counter
          next_addr := next_addr + 1
          dog_id_to_session_id_ :=
            umapAssign g.dog_id_to_session_id_ (DogRepr.ofDog d).id_ session.id_ }
    refine ⟨session', g', ?_, ?_, hsid, hmaps, hplayers, hsessions, hindex, ?_⟩
    · simp only [List.map_cons, restoreDogs, hres]
      exact hrest
    · rw [hids]
      simp only [List.map_append, List.map_cons, List.map_nil, List.append_assoc,
        List.singleton_append]
      simp only at hid
      rw [hid]
    · rw [hmap]
      rfl

theorem restoreLoots_core :
    ∀ (loots : List LootRepr) (session : GameSession) (next_addr : ℕ),
      (restoreLoots loots session next_addr).1.dogs_ = session.dogs_
      ∧ (restoreLoots loots session next_addr).1.id_ = session.id_
  | [], _, _ => ⟨rfl, rfl⟩
  | l :: loots, session, next_addr => by
    rw [restoreLoots]
    exact restoreLoots_core loots _ _

theorem Restore_ofSession (uninitPoint : MapPoint) (uninit : ℕ → Loot) (s : GameSession)
    (g : Game) (map : Map) (hmap : g.FindMap s.map_.id_ = some map) :
    ∃ s' g', (GameSessionRepr.ofSession s).Restore g uninitPoint uninit = some (s', g')
      ∧ s'.core = s.core
      ∧ g'.maps_ = g.maps_ ∧ g'.players_ = g.players_
      ∧ g'.game_sessions_ = g.game_sessions_ ∧ g'.sessions_ = g.sessions_
      ∧ g'.dog_id_to_session_id_
          = (s.dogs_.map fun d => (d.id_, s.id_)).foldl
              (fun m kv => umapAssign m kv.1 kv.2) g.dog_id_to_session_id_ := by
  have hsid : (GameSession.UpdateGameSessionCounter { map_ := map, id_ := s.id_ }).id_ = s.id_
      ∧ (GameSession.UpdateGameSessionCounter { map_ := map, id_ := s.id_ }).dogs_ = [] := by
    unfold GameSession.UpdateGameSessionCounter
    split_ifs <;> exact ⟨rfl, rfl⟩
  obtain ⟨session', g', hrest, hids, hsid', hmaps, hplayers, hsessions, hindex, hmapidx⟩ :=
    restoreDogs_ofDog uninitPoint uninit s.dogs_
      (GameSession.UpdateGameSessionCounter { map_ := map, id_ := s.id_ }) g
  have hcore := restoreLoots_core ((GameSessionRepr.ofSession s).loots_) session' g'.next_addr
  refine ⟨(restoreLoots ((GameSessionRepr.ofSession s).loots_) session' g'.next_addr).1,
    { g' with next_addr := (restoreLoots ((GameSessionRepr.ofSession s).loots_) session'
        g'.next_addr).2 }, ?_, ?_, hmaps, hplayers, hsessions, hindex, ?_⟩
  · unfold GameSessionRepr.Restore
    have hmap' : g.FindMap (GameSessionRepr.ofSession s).map_id_ = some map := hmap
    simp only [hmap']
    have hrest' : restoreDogs uninitPoint uninit (GameSessionRepr.ofSession s).dogs_
        (GameSession.UpdateGameSessionCounter { map_ := map, id_ := s.id_ }) g
        = some (session', g') := hrest
    have hid' : (GameSessionRepr.ofSession s).id_ = s.id_ := rfl
    simp only [hid', hrest']
  · unfold GameSession.core
    rw [hcore.1, hcore.2, hids, hsid', hsid.1, hsid.2]
    rfl
  · rw [hmapidx, hsid.1]

theorem restoreSessions_ofSession (uninitPoint : MapPoint) (uninit : ℕ → Loot) :
    ∀ (sessions : List GameSession) (g : Game),
      (∀ s ∈ sessions, ∃ map, g.FindMap s.map_.id_ = some map) →
      ∃ g' restored,
        restoreSessions uninitPoint uninit (sessions.map GameSessionRepr.ofSession) g = some g'
        ∧ g'.game_sessions_ = g.game_sessions_ ++ restored
        ∧ restored.map GameSession.core = sessions.map GameSession.core
        ∧ g'.maps_ = g.maps_ ∧ g'.players_ = g.players_
        ∧ g'.dog_id_to_session_id_
            = (sessionPairs sessions).foldl (fun m kv => umapAssign m kv.1 kv.2)
                g.dog_id_to_session_id_
  | [], g, _ => ⟨g, [], rfl, by simp, rfl, rfl, rfl, rfl⟩
  | s :: sessions, g, hmaps => by
    obtain ⟨map, hmap⟩ := hmaps s (List.mem_cons_self _ _)
    obtain ⟨s', g1, hres, hcore, hm1, hp1, hs1, -, hidx1⟩ :=
      Restore_ofSession uninitPoint uninit s g map hmap
    have hmaps' : ∀ t ∈ sessions, ∃ map,
        Game.FindMap { g1 with
          game_sessions_ := g1.game_sessions_ ++ [s']
          sessions_ := Game.assignSessionIndex g1.sessions_ s'.map_.id_ g1.game_sessions_.length }
          t.map_.id_ = some map := by
      intro t ht
      obtain ⟨m, hm⟩ := hmaps t (List.mem_cons_of_mem _ ht)
      refine ⟨m, ?_⟩
      unfold Game.FindMap at hm ⊢
      simp only [hm1]
      exact hm
    obtain ⟨g', restored, hrest, hsess, hcores, hm2, hp2, hidx2⟩ :=
      restoreSessions_ofSession uninitPoint uninit sessions _ hmaps'
    refine ⟨g', s' :: restored, ?_, ?_, ?_, ?_, ?_, ?_⟩
    · simp only [List.map_cons, restoreSessions, hres]
      exact hrest
    · rw [hsess]
      simp only [hs1, List.append_assoc, List.singleton_append]
    · simp only [List.map_cons, hcore, hcores]
    · rw [hm2]
      exact hm1
    · rw [hp2]
      exact hp1
    · rw [hidx2]
      simp only [hidx1, sessionPairs, List.flatMap_cons, List.foldl_append]

theorem emplacePlayer_of_fresh (players : List Player) (player : Player)
    (h : ∀ p ∈ players, p.authToken ≠ player.authToken) :
    Game.emplacePlayer players player = players ++ [player] := by
  have hany : players.any (fun p => decide (p.authToken = player.authToken)) = false := by
    rw [List.any_eq_false]
    intro p hp
    simpa using h p hp
  unfold Game.emplacePlayer
  rw [hany]
  simp

theorem map_set_of_eq {α β : Type} (f : α → β) (l : List α) (i : ℕ) (x y : α)
    (hi : l[i]? = some y) (hf : f x = f y) : (l.set i x).map f = l.map f := by
  apply List.ext_getElem?
  intro k
  rw [List.getElem?_map, List.getElem?_map, List.getElem?_set]
  by_cases hk : i = k
  · subst hk
    rw [if_pos rfl, hi]
    have hlt : i < l.length := by
      rcases Nat.lt_or_ge i l.length with h | h
      · exact h
      · rw [List.getElem?_eq_none h] at hi
        exact absurd hi (by simp)
    rw [if_pos hlt]
    simp [hf]
  · rw [if_neg hk]

theorem restorePlayers_spec :
    ∀ (reprs : List PlayerRepr) (g : Game),
      (∀ r ∈ reprs, umapFind g.dog_id_to_session_id_ r.dog_id_ = some r.session_id_
        ∧ r.session_id_ < g.game_sessions_.length) →
      (reprs.map PlayerRepr.token_).Nodup →
      (∀ r ∈ reprs, ∀ p ∈ g.players_, p.authToken ≠ r.token_) →
      ∃ g', restorePlayers reprs g = some g'
        ∧ g'.players_ = g.players_ ++ reprs.map (restoredPlayerOf g.rosters)
        ∧ g'.rosters = g.rosters
  | [], g, _, _, _ => ⟨g, rfl, by simp, rfl⟩
  | r :: reprs, g, hwired, hnodup, hfresh => by
    obtain ⟨hfind, hlt⟩ := hwired r (List.mem_cons_self _ _)
    have hsession : g.game_sessions_[r.session_id_]? = some g.game_sessions_[r.session_id_] :=
      List.getElem?_eq_getElem hlt
    have hplayer : r.Restore ((g.game_sessions_[r.session_id_].GetDog r.dog_id_).map
        fun d => { addr := d.addr_, id_ := d.id_ }) = restoredPlayerOf g.rosters r := by
      unfold restoredPlayerOf Game.rosters GameSession.GetDog
      rw [List.getElem?_map, hsession]
      rfl
    have hrosters : Game.rosters
        { g with
          players_ := Game.emplacePlayer g.players_ (restoredPlayerOf g.rosters r)
          maps_ := Game.setPlayerIdCounter g.maps_ g.game_sessions_[r.session_id_].map_.id_
            g.game_sessions_[r.session_id_].dogs_.length
          game_sessions_ := g.game_sessions_.set r.session_id_
            { g.game_sessions_[r.session_id_] with
              map_ := { g.game_sessions_[r.session_id_].map_ with
                player_id_counter_ := g.game_sessions_[r.session_id_].dogs_.length } } }
        = g.rosters := by
      unfold Game.rosters
      exact map_set_of_eq _ _ _ _ _ hsession rfl
    rw [List.map_cons, List.nodup_cons] at hnodup
    have hempl : Game.emplacePlayer g.players_ (restoredPlayerOf g.rosters r)
        = g.players_ ++ [restoredPlayerOf g.rosters r] :=
      emplacePlayer_of_fresh _ _ (fun p hp => hfresh r (List.mem_cons_self _ _) p hp)
    obtain ⟨g', hrest, hplayers, hros⟩ := restorePlayers_spec reprs
      { g with
        players_ := Game.emplacePlayer g.players_ (restoredPlayerOf g.rosters r)
        maps_ := Game.setPlayerIdCounter g.maps_ g.game_sessions_[r.session_id_].map_.id_
          g.game_sessions_[r.session_id_].dogs_.length
        game_sessions_ := g.game_sessions_.set r.session_id_
          { g.game_sessions_[r.session_id_] with
            map_ := { g.game_sessions_[r.session_id_].map_ with
              player_id_counter_ := g.game_sessions_[r.session_id_].dogs_.length } } }
      (fun r' hr' => ⟨(hwired r' (List.mem_cons_of_mem _ hr')).1, by
        simp only [List.length_set]
        exact (hwired r' (List.mem_cons_of_mem _ hr')).2⟩)
      hnodup.2
      (by
        intro r' hr' p hp
        simp only [hempl] at hp
        rcases List.mem_append.1 hp with hp | hp
        · exact hfresh r' (List.mem_cons_of_mem _ hr') p hp
        · rw [List.mem_singleton] at hp
          subst hp
          intro heq
          apply hnodup.1
          rw [List.mem_map]
          exact ⟨r', hr', heq.symm⟩)
    refine ⟨g', ?_, ?_, ?_⟩
    · simp only [restorePlayers, hfind, hsession, hplayer]
      exact hrest
    · rw [hplayers, hrosters, hempl]
      simp
    · rw [hros, hrosters]

/-! ### What every reachable state satisfies -/

theorem Inv_of_fresh (g0 : Game) (h : g0.IsFresh) : Game.Inv g0 g0 := by
  obtain ⟨hp, hs, -, hi, hc, -, -, -, -⟩ := h
  refine ⟨hi, ?_, ?_, rfl, ?_, ?_, ?_, ?_, ?_, ?_⟩
  · intro i s hs'
    rw [hs] at hs'
    simp at hs'
  · rw [hc, hs]
    rfl
  · intro s hs'
    rw [hs] at hs'
    simp at hs'
  · intro s hs'
    rw [hs] at hs'
    simp at hs'
  · intro i j s t d e hs'
    rw [hs] at hs'
    simp at hs'
  · rw [hp]
    simp
  · intro p hp'
    rw [hp] at hp'
    simp at hp'
  · intro s hs'
    rw [hs] at hs'
    simp at hs'

theorem Shrinks_dog (s s' : GameSession) (h : s.Shrinks s') :
    ∀ d' ∈ s'.dogs_, ∃ d ∈ s.dogs_, d'.id_ = d.id_ := by
  intro d' hd'
  obtain ⟨d, hd, hid⟩ := List.mem_map.1 (h.2.2.subset (List.mem_map_of_mem Dog.id_ hd'))
  exact ⟨d, hd, hid.symm⟩

theorem Inv_of_Shrinks (g0 g g' : Game) (hinv : Game.Inv g0 g) (h : g.Shrinks g') :
    Game.Inv g0 g' := by
  obtain ⟨hidx, hsc, hmaps, hplayers, hdc, hlen, hsess0⟩ := h
  have hsess : ∀ (i : ℕ) (s' : GameSession), g'.game_sessions_[i]? = some s' →
      ∃ s, g.game_sessions_[i]? = some s ∧ s'.id_ = s.id_ ∧ s'.map_.id_ = s.map_.id_
        ∧ ∀ d' ∈ s'.dogs_, ∃ d ∈ s.dogs_, d'.id_ = d.id_ := by
    intro i s' hs'
    obtain ⟨s, hs, hsh⟩ := hsess0 i s' hs'
    exact ⟨s, hs, hsh.1, hsh.2.1, Shrinks_dog s s' hsh⟩
  refine ⟨?_, ?_, ?_, ?_, ?_, ?_, ?_, ?_, ?_, ?_⟩
  · rw [hidx]
    exact hinv.index_empty
  · intro i s' hs'
    obtain ⟨s, hs, hid, -, -⟩ := hsess i s' hs'
    rw [hid]
    exact hinv.session_ids i s hs
  · rw [hsc, hlen]
    exact hinv.session_count
  · rw [hmaps]
    exact hinv.map_ids
  · intro s' hs'
    obtain ⟨i, hi, hget⟩ := List.mem_iff_getElem.1 hs'
    obtain ⟨s, hs, -, hmid, -⟩ := hsess i s' (by rw [List.getElem?_eq_getElem hi, hget])
    rw [hmid]
    exact hinv.session_maps s (List.getElem?_mem hs)
  · intro s' hs' d' hd'
    obtain ⟨i, hi, hget⟩ := List.mem_iff_getElem.1 hs'
    obtain ⟨s, hs, -, -, hdogs⟩ := hsess i s' (by rw [List.getElem?_eq_getElem hi, hget])
    obtain ⟨d, hd, hid⟩ := hdogs d' hd'
    rw [hid, hdc]
    exact hinv.dog_ids_lt s (List.getElem?_mem hs) d hd
  · intro i j s' t' d' e' hs' ht' hd' he' hid
    obtain ⟨s, hs, -, -, hsd⟩ := hsess i s' hs'
    obtain ⟨t, ht, -, -, htd⟩ := hsess j t' ht'
    obtain ⟨d, hd, hdid⟩ := hsd d' hd'
    obtain ⟨e, he, heid⟩ := htd e' he'
    exact hinv.dog_ids_apart i j s t d e hs ht hd he (by rw [← hdid, ← heid, hid])
  · rw [hplayers]
    exact hinv.tokens
  · intro p hp
    rw [hplayers] at hp
    obtain ⟨h, hdog, hlt, hwhere⟩ := hinv.players p hp
    refine ⟨h, hdog, by rw [hdc]; exact hlt, ?_⟩
    intro i s' d' hs' hd' hid
    obtain ⟨s, hs, -, -, hsd⟩ := hsess i s' hs'
    obtain ⟨d, hd, hdid⟩ := hsd d' hd'
    exact hwhere i s d hs hd (by rw [← hdid, hid])
  · intro s' hs'
    obtain ⟨i, hi⟩ := List.mem_iff_getElem?.1 hs'
    obtain ⟨s, hs, hsh⟩ := hsess0 i s' hi
    exact hsh.2.2.nodup (hinv.roster_ids s (List.getElem?_mem hs))

theorem SetDirection_id (d : Dog) (direction : String) :
    (d.SetDirection direction).id_ = d.id_ := by
  unfold Dog.SetDirection
  split_ifs <;> rfl

theorem setDogDirection_Shrinks (g : Game) (dog : DogHandle) (direction : String) :
    g.Shrinks (g.setDogDirection dog direction) := by
  refine ⟨rfl, rfl, rfl, rfl, rfl, by simp [Game.setDogDirection], ?_⟩
  intro i s' hs'
  simp only [Game.setDogDirection, List.getElem?_map, Option.map_eq_some'] at hs'
  obtain ⟨s, hs, rfl⟩ := hs'
  refine ⟨s, hs, rfl, rfl, ?_⟩
  have hids : (s.dogs_.map fun d =>
      if d.addr_ = dog.addr then d.SetDirection direction else d).map Dog.id_
      = s.dogs_.map Dog.id_ := by
    rw [List.map_map]
    apply List.map_congr_left
    intro d _
    simp only [Function.comp_apply]
    split_ifs
    · exact SetDirection_id d direction
    · rfl
  rw [hids]

theorem gatherStep_id_map (loots : List LootSharedPtr) (s : GameSession)
    (e : GatheringEvent) :
    (gatherStep loots s e).id_ = s.id_ ∧ (gatherStep loots s e).map_ = s.map_ := by
  unfold gatherStep
  split
  · dsimp only
    split_ifs
    · exact ⟨rfl, rfl⟩
    · exact ⟨rfl, rfl⟩
  · exact ⟨rfl, rfl⟩

theorem gatherFold_id_map (loots : List LootSharedPtr) :
    ∀ (events : List GatheringEvent) (s : GameSession),
      (events.foldl (gatherStep loots) s).id_ = s.id_
      ∧ (events.foldl (gatherStep loots) s).map_ = s.map_
  | [], _ => ⟨rfl, rfl⟩
  | e :: events, s => by
    rw [List.foldl_cons]
    obtain ⟨h1, h2⟩ := gatherFold_id_map loots events (gatherStep loots s e)
    obtain ⟨h3, h4⟩ := gatherStep_id_map loots s e
    exact ⟨h1.trans h3, h2.trans h4⟩

theorem passFold_id :
    ∀ (events : List GatheringEvent) (s : GameSession), (events.foldl passStep s).id_ = s.id_
  | [], _ => rfl
  | e :: events, s => by
    rw [List.foldl_cons, passFold_id events (passStep s e)]
    rfl

theorem UpdateGatheredLoot_Shrinks (session : GameSession) :
    session.Shrinks (UpdateGatheredLoot session) := by
  refine ⟨?_, ?_, ?_⟩
  · unfold UpdateGatheredLoot gatherPass
    rw [passFold_id, (gatherFold_id_map _ _ _).1]
  · unfold UpdateGatheredLoot gatherPass
    rw [(passFold_loot _ _).2.1, (gatherFold_id_map _ _ _).2]
  · have hids : (UpdateGatheredLoot session).dogs_.map Dog.id_
        = session.dogs_.map Dog.id_ := by
      apply List.ext_getElem?
      intro i
      rw [List.getElem?_map, List.getElem?_map]
      cases hd : session.dogs_[i]? with
      | none =>
        have hlen : session.dogs_.length ≤ i := List.getElem?_eq_none_iff.1 hd
        rw [← UpdateGatheredLoot_length] at hlen
        rw [List.getElem?_eq_none_iff.2 hlen]
      | some d =>
        obtain ⟨bag, hbag, -⟩ := UpdateGatheredLoot_dog session i d hd
        rw [hbag]
        rfl
    rw [hids]

theorem tickDog_id (default_afk_time : ℚ) (tick_time : ℕ) (roads : List Road) (dog : Dog) :
    (tickDog default_afk_time tick_time roads dog).1.id_ = dog.id_ := by
  unfold tickDog
  dsimp only
  split_ifs <;> rfl

theorem removeFold_Shrinks :
    ∀ (gone : List Dog) (s : GameSession),
      s.Shrinks (gone.foldl (fun s dog => RemovePlayerAndSaveStats dog s) s)
  | [], _ => ⟨rfl, rfl, List.Sublist.refl _⟩
  | dog :: gone, s => by
    rw [List.foldl_cons]
    obtain ⟨h1, h2, h3⟩ := removeFold_Shrinks gone (RemovePlayerAndSaveStats dog s)
    exact ⟨h1, h2, h3.trans ((List.eraseP_sublist _).map Dog.id_)⟩

theorem tickSessionDogs_Shrinks (default_afk_time : ℚ) (tick_time : ℕ)
    (session : GameSession) :
    session.Shrinks (tickSessionDogs default_afk_time tick_time session) := by
  unfold tickSessionDogs
  dsimp only
  obtain ⟨h1, h2, h3⟩ := removeFold_Shrinks
    (((session.dogs_.map (tickDog default_afk_time tick_time session.map_.roads_)).filter
      (fun r => r.2)).map (fun r => r.1))
    { session with
      dogs_ := (session.dogs_.map
        (tickDog default_afk_time tick_time session.map_.roads_)).map (fun r => r.1) }
  refine ⟨h1, h2, ?_⟩
  have hids : ((session.dogs_.map
      (tickDog default_afk_time tick_time session.map_.roads_)).map (fun r => r.1)).map Dog.id_
      = session.dogs_.map Dog.id_ := by
    rw [List.map_map, List.map_map]
    apply List.map_congr_left
    intro d _
    exact tickDog_id _ _ _ _
  rw [← hids]
  exact h3

theorem UpdateLoot_Shrinks :
    ∀ (spawns : List (ℤ × MapPoint)) (s : GameSession) (loot_counter next_addr : ℕ),
      s.Shrinks (UpdateLoot spawns s loot_counter next_addr).1
  | [], _, _, _ => ⟨rfl, rfl, List.Sublist.refl _⟩
  | (loot_type, loot_pos) :: rest, s, loot_counter, next_addr => by
    unfold UpdateLoot
    exact UpdateLoot_Shrinks rest _ _ _

theorem Shrinks_trans (s t u : GameSession) (h1 : s.Shrinks t) (h2 : t.Shrinks u) :
    s.Shrinks u := by
  exact ⟨h2.1.trans h1.1, h2.2.1.trans h1.2.1, h2.2.2.trans h1.2.2⟩

theorem tickSessions_Shrinks (default_afk_time : ℚ) (tick_time : ℕ)
    (spawns : ℕ → List (ℤ × MapPoint)) :
    ∀ (sessions : List GameSession) (idx loot_counter next_addr : ℕ),
      (tickSessions default_afk_time tick_time spawns sessions idx loot_counter
          next_addr).1.length = sessions.length
      ∧ ∀ (i : ℕ) (s' : GameSession),
          (tickSessions default_afk_time tick_time spawns sessions idx loot_counter
            next_addr).1[i]? = some s' →
          ∃ s, sessions[i]? = some s ∧ s.Shrinks s'
  | [], _, _, _ => by
    refine ⟨rfl, ?_⟩
    intro i s' h
    simp [tickSessions] at h
  | session :: rest, idx, loot_counter, next_addr => by
    unfold tickSessions
    dsimp only
    obtain ⟨hlen, hsess⟩ := tickSessions_Shrinks default_afk_time tick_time spawns rest
      (idx + 1)
      (UpdateLoot (spawns idx)
        (UpdateGatheredLoot (tickSessionDogs default_afk_time tick_time session))
        loot_counter next_addr).2.1
      (UpdateLoot (spawns idx)
        (UpdateGatheredLoot (tickSessionDogs default_afk_time tick_time session))
        loot_counter next_addr).2.2
    refine ⟨by simp [hlen], ?_⟩
    intro i s' h
    cases i with
    | zero =>
      simp only [List.getElem?_cons_zero, Option.some.injEq] at h
      subst h
      exact ⟨session, List.getElem?_cons_zero,
        Shrinks_trans _ _ _
          (Shrinks_trans _ _ _ (tickSessionDogs_Shrinks _ _ _) (UpdateGatheredLoot_Shrinks _))
          (UpdateLoot_Shrinks _ _ _ _)⟩
    | succ i =>
      simp only [List.getElem?_cons_succ] at h
      obtain ⟨s, hs, hsh⟩ := hsess i s' h
      exact ⟨s, by simpa using hs, hsh⟩

theorem MovePlayersAndUpdateLoot_Shrinks (g : Game) (tick_time : ℕ)
    (spawns : ℕ → List (ℤ × MapPoint)) :
    g.Shrinks (g.MovePlayersAndUpdateLoot tick_time spawns) := by
  obtain ⟨hlen, hsess⟩ := tickSessions_Shrinks g.default_afk_time tick_time spawns
    g.game_sessions_ 0 g.loot_counter g.next_addr
  exact ⟨rfl, rfl, rfl, rfl, rfl, hlen, hsess⟩

theorem emplacePlayer_cases (players : List Player) (player : Player) :
    Game.emplacePlayer players player = players
    ∨ ((∀ p ∈ players, p.authToken ≠ player.authToken)
        ∧ Game.emplacePlayer players player = players ++ [player]) := by
  by_cases h : ∀ p ∈ players, p.authToken ≠ player.authToken
  · exact Or.inr ⟨h, emplacePlayer_of_fresh players player h⟩
  · left
    have hany : players.any (fun p => decide (p.authToken = player.authToken)) = true := by
      rw [List.any_eq_true]
      push_neg at h
      obtain ⟨p, hp, heq⟩ := h
      exact ⟨p, hp, by simpa using heq⟩
    unfold Game.emplacePlayer
    rw [hany]
    rfl

/-- A state that differs from one satisfying the invariant by one dog with the next dog
id, put in the session at position `target`, and by the emplacing of a player who
owns that dog and records that session. -/
theorem Inv_of_extend (g0 g g' : Game) (hinv : Game.Inv g0 g) (player : Player)
    (target addr : ℕ) (dog : Dog) (hdogid : dog.id_ = g.dog_counter)
    (hidx : g'.dog_id_to_session_id_ = [])
    (hmaps : g'.maps_.map Map.id_ = g0.maps_.map Map.id_)
    (hdc : g'.dog_counter = g.dog_counter + 1)
    (hsc : g'.session_counter_ = g'.game_sessions_.length)
    (hplayers : g'.players_ = Game.emplacePlayer g.players_ player)
    (hpdog : player.player_dog_ = some { addr := addr, id_ := g.dog_counter })
    (hpsess : player.current_session_id_ = target)
    (hsess : ∀ (i : ℕ) (s' : GameSession), g'.game_sessions_[i]? = some s' →
      s'.id_ = i ∧ s'.map_.id_ ∈ g0.maps_.map Map.id_
      ∧ (∀ d' ∈ s'.dogs_,
          (∃ s, g.game_sessions_[i]? = some s ∧ d' ∈ s.dogs_) ∨ (d' = dog ∧ i = target))
      ∧ (s'.dogs_.map Dog.id_).Nodup) :
    Game.Inv g0 g' := by
  have hold : ∀ (i : ℕ) (s : GameSession) (d : Dog), g.game_sessions_[i]? = some s →
      d ∈ s.dogs_ → d.id_ < g.dog_counter := fun i s d hs hd =>
    hinv.dog_ids_lt s (List.getElem?_mem hs) d hd
  refine ⟨hidx, fun i s' hs' => (hsess i s' hs').1, hsc, hmaps, ?_, ?_, ?_, ?_, ?_, ?_⟩
  · intro s' hs'
    obtain ⟨i, hi⟩ := List.mem_iff_getElem?.1 hs'
    exact (hsess i s' hi).2.1
  · intro s' hs' d' hd'
    obtain ⟨i, hi⟩ := List.mem_iff_getElem?.1 hs'
    rw [hdc]
    rcases (hsess i s' hi).2.2.1 d' hd' with ⟨s, hs, hd⟩ | ⟨rfl, -⟩
    · exact Nat.lt_succ_of_lt (hold i s d' hs hd)
    · rw [hdogid]
      exact Nat.lt_succ_self _
  · intro i j s' t' d' e' hs' ht' hd' he' hid
    rcases (hsess i s' hs').2.2.1 d' hd' with ⟨s, hs, hd⟩ | ⟨rfl, hi⟩
    · rcases (hsess j t' ht').2.2.1 e' he' with ⟨t, ht, he⟩ | ⟨rfl, hj⟩
      · exact hinv.dog_ids_apart i j s t d' e' hs ht hd he hid
      · have := hold i s d' hs hd
        omega
    · rcases (hsess j t' ht').2.2.1 e' he' with ⟨t, ht, he⟩ | ⟨-, hj⟩
      · have := hold j t e' ht he
        omega
      · rw [hi, hj]
  · rw [hplayers]
    rcases emplacePlayer_cases g.players_ player with h | ⟨hfresh, h⟩
    · rw [h]
      exact hinv.tokens
    · rw [h, List.map_append, List.nodup_append]
      refine ⟨hinv.tokens, by simp, ?_⟩
      intro tok h1 h2
      simp only [List.map_cons, List.map_nil, List.mem_singleton] at h2
      obtain ⟨p, hp, rfl⟩ := List.mem_map.1 h1
      exact hfresh p hp h2
  · intro p hp
    rw [hplayers] at hp
    have hp' : p ∈ g.players_ ∨ p = player := by
      rcases emplacePlayer_cases g.players_ player with h | ⟨-, h⟩
      · rw [h] at hp
        exact Or.inl hp
      · rw [h] at hp
        simpa using hp
    rcases hp' with hp' | rfl
    · obtain ⟨h, hdog, hlt, hwhere⟩ := hinv.players p hp'
      refine ⟨h, hdog, by omega, ?_⟩
      intro i s' d' hs' hd' hid
      rcases (hsess i s' hs').2.2.1 d' hd' with ⟨s, hs, hd⟩ | ⟨rfl, -⟩
      · exact hwhere i s d' hs hd hid
      · omega
    · refine ⟨_, hpdog, by simp only [hdc]; omega, ?_⟩
      intro i s' d' hs' hd' hid
      rcases (hsess i s' hs').2.2.1 d' hd' with ⟨s, hs, hd⟩ | ⟨-, hi⟩
      · have := hold i s d' hs hd
        simp only at hid
        omega
      · rw [hi, hpsess]
  · intro s' hs'
    obtain ⟨i, hi⟩ := List.mem_iff_getElem?.1 hs'
    exact (hsess i s' hi).2.2.2

theorem AddPlayer_cases (g g' : Game) (player : Player) (map_id : String) (draws : JoinDraws)
    (h : g.AddPlayer player map_id draws = some g') :
    ∃ map p, g.FindMap map_id = some map
      ∧ ((g' = { g with
            dog_counter := g.dog_counter + 1
            next_addr := g.next_addr + 1
            session_counter_ := g.session_counter_ + 1
            game_sessions_ := g.game_sessions_ ++
              [{ dogs_ := [g.newDog player map draws.uninit p], loot_ := [], map_ := map
                 id_ := g.session_counter_ }]
            sessions_ := Game.assignSessionIndex g.sessions_ map_id g.game_sessions_.length
            players_ := Game.emplacePlayer g.players_
              { player with
                player_dog_ := some { addr := g.next_addr, id_ := g.dog_counter }
                current_session_id_ := g.session_counter_ } })
        ∨ ∃ idx session, g.game_sessions_[idx]? = some session
            ∧ g' = { g with
                dog_counter := g.dog_counter + 1
                next_addr := g.next_addr + 1
                game_sessions_ := g.game_sessions_.set idx
                  { session with
                    dogs_ := session.dogs_ ++ [g.newDog player map draws.uninit p] }
                players_ := Game.emplacePlayer g.players_
                  { player with
                    player_dog_ := some { addr := g.next_addr, id_ := g.dog_counter }
                    current_session_id_ := session.id_ } }) := by
  cases hmap : g.FindMap map_id with
  | none =>
    unfold Game.AddPlayer at h
    simp only [hmap] at h
    exact absurd h (by simp)
  | some map =>
    cases hspawn : (if g.dog_random_spawning_mode_ then GetRandomMapPointOnRoads map draws
        else GetBeginMapPointOnRoads map) with
    | none =>
      unfold Game.AddPlayer at h
      simp only [hmap, hspawn] at h
      exact absurd h (by simp)
    | some p =>
      refine ⟨map, p, rfl, ?_⟩
      cases hfind : g.findSessionIndex map_id with
      | none =>
        rw [AddPlayer_new_session g player map_id draws map p hmap hspawn hfind] at h
        exact Or.inl (Option.some.inj h).symm
      | some idx =>
        cases hsession : g.game_sessions_[idx]? with
        | none =>
          have hfind2 : Game.findSessionIndex
              { g with dog_counter := g.dog_counter + 1, next_addr := g.next_addr + 1 }
              map_id = some idx := hfind
          unfold Game.AddPlayer at h
          simp only [hmap, hspawn, hfind2, hsession] at h
          exact absurd h (by simp)
        | some session =>
          rw [AddPlayer_old_session g player map_id draws map p idx session hmap hspawn hfind
            hsession] at h
          exact Or.inr ⟨idx, session, hsession, (Option.some.inj h).symm⟩

theorem newDog_id (g : Game) (player : Player) (map_ptr : Map) (uninit p : MapPoint) :
    (g.newDog player map_ptr uninit p).id_ = g.dog_counter := rfl

theorem Inv_AddPlayer (g0 g g' : Game) (hinv : Game.Inv g0 g) (player : Player)
    (map_id : String) (draws : JoinDraws) (h : g.AddPlayer player map_id draws = some g') :
    Game.Inv g0 g' := by
  obtain ⟨map, p, hmap, hcase⟩ := AddPlayer_cases g g' player map_id draws h
  have hmapid : map.id_ ∈ g0.maps_.map Map.id_ := by
    rw [← hinv.map_ids]
    exact List.mem_map_of_mem _ (List.mem_of_find?_eq_some hmap)
  rcases hcase with rfl | ⟨idx, session, hsession, rfl⟩
  · refine Inv_of_extend g0 g _ hinv _ g.session_counter_ g.next_addr
      (g.newDog player map draws.uninit p) rfl hinv.index_empty hinv.map_ids rfl ?_ rfl rfl
      rfl ?_
    · simp only [List.length_append, List.length_singleton]
      rw [hinv.session_count]
    · intro i s' hs'
      simp only at hs'
      by_cases hi : i < g.game_sessions_.length
      · rw [List.getElem?_append_left hi] at hs'
        exact ⟨hinv.session_ids i s' hs', hinv.session_maps s' (List.getElem?_mem hs'),
          fun d' hd' => Or.inl ⟨s', hs', hd'⟩, hinv.roster_ids s' (List.getElem?_mem hs')⟩
      · rw [List.getElem?_append_right (Nat.le_of_not_lt hi)] at hs'
        have hi' : i - g.game_sessions_.length = 0 := by
          by_contra hne
          obtain ⟨k, hk⟩ := Nat.exists_eq_succ_of_ne_zero hne
          rw [hk] at hs'
          simp at hs'
        rw [hi'] at hs'
        simp only [List.getElem?_cons_zero, Option.some.injEq] at hs'
        subst hs'
        have hieq : i = g.game_sessions_.length := by omega
        refine ⟨?_, hmapid, ?_, by simp⟩
        · rw [hieq]
          exact hinv.session_count
        · intro d' hd'
          simp only [List.mem_singleton] at hd'
          exact Or.inr ⟨hd', by rw [hieq]; exact hinv.session_count.symm⟩
  · have hsid : session.id_ = idx := hinv.session_ids idx session hsession
    have hlt : idx < g.game_sessions_.length := by
      obtain ⟨hlt, -⟩ := List.getElem?_eq_some.1 hsession
      exact hlt
    refine Inv_of_extend g0 g _ hinv _ idx g.next_addr
      (g.newDog player map draws.uninit p) rfl hinv.index_empty hinv.map_ids rfl ?_ rfl rfl
      hsid ?_
    · simp only [List.length_set]
      exact hinv.session_count
    · intro i s' hs'
      simp only at hs'
      by_cases hi : idx = i
      · subst hi
        rw [List.getElem?_set_self hlt] at hs'
        simp only [Option.some.injEq] at hs'
        subst hs'
        refine ⟨hsid, hinv.session_maps session (List.getElem?_mem hsession), ?_, ?_⟩
        · intro d' hd'
          simp only [List.mem_append, List.mem_singleton] at hd'
          rcases hd' with hd' | hd'
          · exact Or.inl ⟨session, hsession, hd'⟩
          · exact Or.inr ⟨hd', rfl⟩
        · simp only [List.map_append, List.map_cons, List.map_nil]
          rw [List.nodup_append]
          refine ⟨hinv.roster_ids session (List.getElem?_mem hsession), by simp, ?_⟩
          intro id h1 h2
          simp only [List.mem_singleton] at h2
          obtain ⟨d, hd, rfl⟩ := List.mem_map.1 h1
          have := hinv.dog_ids_lt session (List.getElem?_mem hsession) d hd
          rw [h2, newDog_id] at this
          exact absurd this (Nat.lt_irrefl _)
      · rw [List.getElem?_set_ne hi] at hs'
        exact ⟨hinv.session_ids i s' hs', hinv.session_maps s' (List.getElem?_mem hs'),
          fun d' hd' => Or.inl ⟨s', hs', hd'⟩, hinv.roster_ids s' (List.getElem?_mem hs')⟩

theorem bumpPlayerIdCounter_ids (id : String) :
    ∀ maps : List Map, (Game.bumpPlayerIdCounter maps id).map Map.id_ = maps.map Map.id_
  | [] => rfl
  | m :: rest => by
    unfold Game.bumpPlayerIdCounter
    by_cases hm : m.id_ = id
    · rw [if_pos hm]
      rfl
    · rw [if_neg hm, List.map_cons, List.map_cons, bumpPlayerIdCounter_ids id rest]

theorem Inv_bump (g0 g : Game) (hinv : Game.Inv g0 g) (id : String) :
    Game.Inv g0 { g with maps_ := Game.bumpPlayerIdCounter g.maps_ id } :=
  ⟨hinv.index_empty, hinv.session_ids, hinv.session_count,
    (bumpPlayerIdCounter_ids id g.maps_).trans hinv.map_ids, hinv.session_maps,
    hinv.dog_ids_lt, hinv.dog_ids_apart, hinv.tokens, hinv.players, hinv.roster_ids⟩

theorem Inv_HandleJoinGame (g0 g g1 : Game) (hinv : Game.Inv g0 g) (username map_id : String)
    (draws : JoinDraws) (resp : JoinResponse)
    (h : HandleJoinGame g username map_id draws = some (resp, g1)) : Game.Inv g0 g1 := by
  unfold HandleJoinGame at h
  by_cases hu : username = ""
  · rw [if_pos hu] at h
    obtain ⟨-, rfl⟩ := Prod.mk.inj (Option.some.inj h)
    exact hinv
  · rw [if_neg hu] at h
    cases hf : g.FindMap map_id with
    | none =>
      simp only [hf] at h
      obtain ⟨-, rfl⟩ := Prod.mk.inj (Option.some.inj h)
      exact hinv
    | some map =>
      simp only [hf] at h
      by_cases hm : map_id = ""
      · rw [if_pos hm] at h
        obtain ⟨-, rfl⟩ := Prod.mk.inj (Option.some.inj h)
        exact hinv
      · rw [if_neg hm] at h
        simp only [Option.map_eq_some'] at h
        obtain ⟨g2, hadd, heq⟩ := h
        obtain ⟨-, rfl⟩ := Prod.mk.inj heq
        exact Inv_AddPlayer g0 _ _ (Inv_bump g0 g hinv map_id) _ _ _ hadd

theorem Inv_of_Reachable (g0 g : Game) (hfresh : g0.IsFresh) (h : Game.Reachable g0 g) :
    Game.Inv g0 g := by
  induction h with
  | start => exact Inv_of_fresh g0 hfresh
  | join g g' username map_id draws resp _ hjoin ih =>
    exact Inv_HandleJoinGame g0 g g' ih username map_id draws resp hjoin
  | action g token direction player dog _ _ _ ih =>
    exact Inv_of_Shrinks g0 g _ ih (setDogDirection_Shrinks g dog direction)
  | tick g tick_time spawns _ ih =>
    exact Inv_of_Shrinks g0 g _ ih (MovePlayersAndUpdateLoot_Shrinks g tick_time spawns)

/-! ### Saving and loading a state that satisfies the invariant -/

theorem mapM_ofPlayer :
    ∀ players : List Player, (∀ p ∈ players, ∃ h, p.player_dog_ = some h) →
      ∃ reprs, players.mapM PlayerRepr.ofPlayer = some reprs
        ∧ List.Forall₂ (fun p r => PlayerRepr.ofPlayer p = some r) players reprs
  | [], _ => ⟨[], rfl, List.Forall₂.nil⟩
  | p :: players, h => by
    obtain ⟨reprs, hreprs, hall⟩ := mapM_ofPlayer players
      (fun q hq => h q (List.mem_cons_of_mem _ hq))
    obtain ⟨dog, hdog⟩ := h p (List.mem_cons_self _ _)
    have hp : PlayerRepr.ofPlayer p = some
        { id_ := p.playerId, name_ := p.userName, token_ := p.authToken
          session_id_ := p.current_session_id_, dog_id_ := dog.id_ } := by
      unfold PlayerRepr.ofPlayer
      rw [hdog]
      rfl
    refine ⟨_ :: reprs, ?_, List.Forall₂.cons hp hall⟩
    rw [List.mapM_cons, hp, hreprs]
    rfl

theorem find?_of_mem_ids (maps : List Map) (id : String) (h : id ∈ maps.map Map.id_) :
    ∃ m, maps.find? (fun m => decide (m.id_ = id)) = some m := by
  obtain ⟨m, hm, hid⟩ := List.mem_map.1 h
  have : (maps.find? (fun m => decide (m.id_ = id))).isSome = true := by
    rw [List.find?_isSome]
    exact ⟨m, hm, by simpa using hid⟩
  exact Option.isSome_iff_exists.1 this

theorem Forall₂_mem_right {α β : Type} (R : α → β → Prop) (l1 : List α) (l2 : List β)
    (h : List.Forall₂ R l1 l2) : ∀ b ∈ l2, ∃ a ∈ l1, R a b := by
  induction h with
  | nil => exact fun b hb => absurd hb (List.not_mem_nil _)
  | cons hab _ ih =>
    intro b hb
    rcases List.mem_cons.1 hb with rfl | hb
    · exact ⟨_, List.mem_cons_self _ _, hab⟩
    · obtain ⟨a', ha', hr⟩ := ih b hb
      exact ⟨a', List.mem_cons_of_mem _ ha', hr⟩

theorem Forall₂_imp_mem {α β : Type} (R S : α → β → Prop) (l1 : List α) (l2 : List β)
    (h : List.Forall₂ R l1 l2) :
    (∀ a ∈ l1, ∀ b, R a b → S a b) → List.Forall₂ S l1 l2 := by
  induction h with
  | nil => exact fun _ => List.Forall₂.nil
  | cons hab _ ih =>
    intro himp
    exact List.Forall₂.cons (himp _ (List.mem_cons_self _ _) _ hab)
      (ih (fun a' ha' => himp a' (List.mem_cons_of_mem _ ha')))

theorem Forall₂_map_eq {α β γ : Type} (R : α → β → Prop) (f : α → γ) (k : β → γ)
    (l1 : List α) (l2 : List β) (h : List.Forall₂ R l1 l2)
    (hR : ∀ a b, R a b → f a = k b) : l1.map f = l2.map k := by
  induction h with
  | nil => rfl
  | cons hab _ ih => rw [List.map_cons, List.map_cons, hR _ _ hab, ih]

theorem restored_session_at (restored sessions : List GameSession)
    (hcore : restored.map GameSession.core = sessions.map GameSession.core) (i : ℕ)
    (s : GameSession) (hs : sessions[i]? = some s) :
    ∃ s', restored[i]? = some s' ∧ s'.id_ = s.id_
      ∧ s'.dogs_.map Dog.id_ = s.dogs_.map Dog.id_ := by
  have h := congrArg (fun l => l[i]?) hcore
  simp only [List.getElem?_map, hs, Option.map_some'] at h
  cases hr : restored[i]? with
  | none =>
    rw [hr] at h
    simp at h
  | some s' =>
    rw [hr] at h
    simp only [Option.map_some', Option.some.injEq, GameSession.core, Prod.mk.injEq] at h
    exact ⟨s', rfl, h.1, h.2⟩

theorem GetDog_of_mem_ids (s : GameSession) (id : ℕ) (h : id ∈ s.dogs_.map Dog.id_) :
    ∃ d, s.GetDog id = some d := by
  obtain ⟨d, hd, hid⟩ := List.mem_map.1 h
  have : (s.dogs_.find? (fun d => decide (d.id_ = id))).isSome = true := by
    rw [List.find?_isSome]
    exact ⟨d, hd, by simpa using hid⟩
  exact Option.isSome_iff_exists.1 this

/-- What the record of a registered player says, in a state with the invariant where
the player's dog is in a roster. -/
theorem record_of_player (g0 g : Game) (hinv : Game.Inv g0 g) (hdogs : g.DogsInRosters)
    (p : Player) (hp : p ∈ g.players_) (r : PlayerRepr)
    (hr : PlayerRepr.ofPlayer p = some r) :
    ∃ h s d, p.player_dog_ = some h
      ∧ r = { id_ := p.playerId, name_ := p.userName, token_ := p.authToken
              session_id_ := p.current_session_id_, dog_id_ := h.id_ }
      ∧ g.game_sessions_[p.current_session_id_]? = some s ∧ d ∈ s.dogs_
      ∧ d.id_ = h.id_ ∧ s.id_ = p.current_session_id_
      ∧ ∀ (j : ℕ) (t : GameSession) (e : Dog), g.game_sessions_[j]? = some t →
          e ∈ t.dogs_ → e.id_ = h.id_ → t.id_ = p.current_session_id_ := by
  obtain ⟨h, hdog, -, hwhere⟩ := hinv.players p hp
  obtain ⟨s, hs, d, hd, hid⟩ := hdogs p hp
  rw [hdog] at hid
  simp only [Option.map_some', Option.some.injEq] at hid
  obtain ⟨i, hi⟩ := List.mem_iff_getElem?.1 hs
  have hip := hwhere i s d hi hd hid
  subst hip
  unfold PlayerRepr.ofPlayer at hr
  rw [hdog] at hr
  simp only [Option.map_some', Option.some.injEq] at hr
  refine ⟨h, s, d, hdog, hr.symm, hi, hd, hid, hinv.session_ids _ s hi, ?_⟩
  intro j t e hj he heq
  rw [hinv.session_ids j t hj]
  exact hwhere j t e hj he heq

theorem saveLoad_of_Inv (g0 g : Game) (uninitPoint : MapPoint) (uninit : ℕ → Loot)
    (hfresh : g0.IsFresh) (hinv : Game.Inv g0 g) (hdogs : g.DogsInRosters) :
    ∃ snap g', g.snapshot = some snap
      ∧ g0.LoadGameState snap uninitPoint uninit = some g'
      ∧ g'.players_.map Player.authToken = g.players_.map Player.authToken
      ∧ List.Forall₂
          (fun p p' => p'.playerId = p.playerId ∧ p'.userName = p.userName
            ∧ p'.authToken = p.authToken
            ∧ p'.current_session_id_ = p.current_session_id_
            ∧ ∃ h s' d', p.player_dog_ = some h
                ∧ g'.game_sessions_[p.current_session_id_]? = some s'
                ∧ s'.id_ = p.current_session_id_
                ∧ s'.GetDog h.id_ = some d'
                ∧ (∀ e ∈ s'.dogs_, e.id_ = h.id_ → e = d')
                ∧ p'.player_dog_ = some { addr := d'.addr_, id_ := d'.id_ })
          g.players_ g'.players_ := by
  obtain ⟨hp0, hs0, -, -, -⟩ := hfresh
  obtain ⟨reprs, hreprs, hall⟩ := mapM_ofPlayer g.players_
    (fun p hp => (hinv.players p hp).imp fun h hh => hh.1)
  obtain ⟨g1, restored, hres, hsess1, hcore, -, hplayers1, hidx1⟩ :=
    restoreSessions_ofSession uninitPoint uninit g.game_sessions_
      { g0 with dog_id_to_session_id_ := g.dog_id_to_session_id_ }
      (fun s hs => find?_of_mem_ids g0.maps_ _ (hinv.session_maps s hs))
  simp only [hs0, List.nil_append] at hsess1
  simp only [hp0] at hplayers1
  simp only [hinv.index_empty] at hidx1
  have hlen : restored.length = g.game_sessions_.length := by
    simpa using congrArg List.length hcore
  have hwired : ∀ r ∈ reprs,
      umapFind g1.dog_id_to_session_id_ r.dog_id_ = some r.session_id_
      ∧ r.session_id_ < g1.game_sessions_.length := by
    intro r hr
    obtain ⟨p, hp, hpr⟩ := Forall₂_mem_right _ _ _ hall r hr
    obtain ⟨h, s, d, -, rfl, hi, hd, hid, hsid, huniq⟩ :=
      record_of_player g0 g hinv hdogs p hp r hpr
    constructor
    · rw [hidx1]
      apply umapFind_foldl
      · intro kv hkv hkey
        simp only [sessionPairs, List.mem_flatMap, List.mem_map] at hkv
        obtain ⟨t, ht, e, he, rfl⟩ := hkv
        obtain ⟨j, hj⟩ := List.mem_iff_getElem?.1 ht
        exact huniq j t e hj he hkey
      · left
        refine ⟨(d.id_, s.id_), ?_, hid⟩
        simp only [sessionPairs, List.mem_flatMap, List.mem_map]
        exact ⟨s, List.getElem?_mem hi, d, hd, rfl⟩
    · rw [hsess1, hlen]
      exact (List.getElem?_eq_some.1 hi).1
  have htok : reprs.map PlayerRepr.token_ = g.players_.map Player.authToken := by
    symm
    apply Forall₂_map_eq _ _ _ _ _ hall
    intro p r hpr
    unfold PlayerRepr.ofPlayer at hpr
    simp only [Option.map_eq_some'] at hpr
    obtain ⟨_, -, rfl⟩ := hpr
    rfl
  obtain ⟨g', hrp, hplayers', hrost⟩ := restorePlayers_spec reprs g1 hwired
    (by rw [htok]; exact hinv.tokens)
    (by
      intro r _ p hp
      rw [hplayers1] at hp
      exact absurd hp (List.not_mem_nil _))
  rw [hplayers1, List.nil_append] at hplayers'
  refine ⟨{ dog_id_to_session_id_ := g.dog_id_to_session_id_
            sessions := g.game_sessions_.map GameSessionRepr.ofSession
            players := reprs }, g', ?_, ?_, ?_, ?_⟩
  · unfold Game.snapshot
    rw [hreprs]
    rfl
  · unfold Game.LoadGameState
    simp only [hres]
    exact hrp
  · rw [hplayers', List.map_map, ← htok]
    rfl
  · rw [hplayers', List.forall₂_map_right_iff]
    apply Forall₂_imp_mem _ _ _ _ hall
    intro p hp r hpr
    obtain ⟨h, s, d, hdog, rfl, hi, hd, hid, hsid, -⟩ :=
      record_of_player g0 g hinv hdogs p hp r hpr
    obtain ⟨s', hs', hs'id, hs'dogs⟩ :=
      restored_session_at restored g.game_sessions_ hcore _ s hi
    have hmem : h.id_ ∈ s'.dogs_.map Dog.id_ := by
      rw [hs'dogs, ← hid]
      exact List.mem_map_of_mem _ hd
    obtain ⟨d', hd'⟩ := GetDog_of_mem_ids s' h.id_ hmem
    have hr1 : g1.rosters[p.current_session_id_]? = some (s'.id_, s'.dogs_) := by
      unfold Game.rosters
      rw [List.getElem?_map, hsess1, hs']
      rfl
    have hr2 := hr1
    rw [← hrost] at hr2
    unfold Game.rosters at hr2
    rw [List.getElem?_map] at hr2
    simp only [Option.map_eq_some', Prod.mk.injEq] at hr2
    obtain ⟨s'', hs'', hid'', hdogs''⟩ := hr2
    refine ⟨rfl, rfl, rfl, rfl, h, s'', d', hdog, hs'', ?_, ?_, ?_, ?_⟩
    · rw [hid'', hs'id, hsid]
    · unfold GameSession.GetDog
      rw [hdogs'']
      exact hd'
    · intro e he heid
      rw [hdogs''] at he
      have hnodup : (s'.dogs_.map Dog.id_).Nodup := by
        rw [hs'dogs]
        exact hinv.roster_ids s (List.getElem?_mem hi)
      have hd'id : d'.id_ = h.id_ := by
        have := List.find?_some hd'
        simpa using this
      exact List.inj_on_of_nodup_map hnodup he (List.mem_of_find?_eq_some hd')
        (heid.trans hd'id.symm)
    · unfold GameSession.GetDog at hd'
      simp only [restoredPlayerOf, PlayerRepr.Restore, hr1, Option.some_bind, hd',
        Option.map_some']

/-- C17, counterexample: from the fresh game `twoMapsGame`, Ann joins `"map1"` and one
tick of `60000` ms passes.  Her dog stood still for the retirement time and leaves the
roster, while her player stays in the registry.  Saving this reachable state works,
but loading the archive into the fresh game fails: the player's dog id is in no
restored roster, so it is missing from the dog index ("Dog session not found"). -/
theorem C17_retired_dog_breaks_load :
    twoMapsGame.IsFresh ∧ Game.Reachable twoMapsGame retiredGame
    ∧ retiredGame.players_.map Player.userName = ["Ann"]
    ∧ retiredGame.dogIds = [[]]
    ∧ retiredGame.snapshot.isSome = true
    ∧ saveAndLoad retiredGame = none := by
  refine ⟨?_, ?_, by decide!, by decide!, by decide!, by decide!⟩
  · unfold Game.IsFresh
    decide!
  · exact Game.Reachable.tick annJoined 60000 (fun _ => [])
      (Game.Reachable.join twoMapsGame annJoined "Ann" "map1" (drawsOf 1)
        (JoinResponse.ok (GenerateAuthToken (drawsOf 1).token) 0) Game.Reachable.start
        (by decide!))

/-- C17, amended: for every state reached from a fresh game by joins, direction changes
and ticks in which the dog of every registered player is still in the roster of a
session, saving succeeds and loading the archive into the fresh game succeeds; the
restored registry has exactly the saved tokens, in the same order, and each restored
player has the saved id, name, token and session id, and its dog pointer is the dog
`GetDog` finds under the saved dog id in the restored session at the position of the
saved session id, which has that id; no other dog of that roster has the dog id. -/
theorem C17_round_trip_wiring (g0 g : Game) (uninitPoint : MapPoint) (uninit : ℕ → Loot)
    (hfresh : g0.IsFresh) (hreach : Game.Reachable g0 g) (hdogs : g.DogsInRosters) :
    ∃ snap g', g.snapshot = some snap
      ∧ g0.LoadGameState snap uninitPoint uninit = some g'
      ∧ g'.players_.map Player.authToken = g.players_.map Player.authToken
      ∧ List.Forall₂
          (fun p p' => p'.playerId = p.playerId ∧ p'.userName = p.userName
            ∧ p'.authToken = p.authToken
            ∧ p'.current_session_id_ = p.current_session_id_
            ∧ ∃ h s' d', p.player_dog_ = some h
                ∧ g'.game_sessions_[p.current_session_id_]? = some s'
                ∧ s'.id_ = p.current_session_id_
                ∧ s'.GetDog h.id_ = some d'
                ∧ (∀ e ∈ s'.dogs_, e.id_ = h.id_ → e = d')
                ∧ p'.player_dog_ = some { addr := d'.addr_, id_ := d'.id_ })
          g.players_ g'.players_ :=
  saveLoad_of_Inv g0 g uninitPoint uninit hfresh (Inv_of_Reachable g0 g hfresh hreach) hdogs

/-- C17, witness: the amended statement at `twoMapsGame` after Ann joined `"map1"`. -/
theorem C17_round_trip_wiring_witness :
    twoMapsGame.IsFresh ∧ Game.Reachable twoMapsGame annJoined ∧ annJoined.DogsInRosters
    ∧ ∃ snap g', annJoined.snapshot = some snap
      ∧ twoMapsGame.LoadGameState snap { x := 0, y := 0 } staleLoot = some g'
      ∧ g'.players_.map Player.authToken = annJoined.players_.map Player.authToken
      ∧ List.Forall₂
          (fun p p' => p'.playerId = p.playerId ∧ p'.userName = p.userName
            ∧ p'.authToken = p.authToken
            ∧ p'.current_session_id_ = p.current_session_id_
            ∧ ∃ h s' d', p.player_dog_ = some h
                ∧ g'.game_sessions_[p.current_session_id_]? = some s'
                ∧ s'.id_ = p.current_session_id_
                ∧ s'.GetDog h.id_ = some d'
                ∧ (∀ e ∈ s'.dogs_, e.id_ = h.id_ → e = d')
                ∧ p'.player_dog_ = some { addr := d'.addr_, id_ := d'.id_ })
          annJoined.players_ g'.players_ :=
  have hfresh : twoMapsGame.IsFresh := by
    unfold Game.IsFresh
    decide!
  have hreach : Game.Reachable twoMapsGame annJoined :=
    Game.Reachable.join twoMapsGame annJoined "Ann" "map1" (drawsOf 1)
      (JoinResponse.ok (GenerateAuthToken (drawsOf 1).token) 0) Game.Reachable.start
      (by decide!)
  have hdogs : annJoined.DogsInRosters := by decide!
  ⟨hfresh, hreach, hdogs,
    C17_round_trip_wiring twoMapsGame annJoined { x := 0, y := 0 } staleLoot hfresh hreach
      hdogs⟩

/-! ## Theorems: directions -/

/-- C22: `Dog::SetDirection` on a dog of movement speed `s`: `"L"`, `"R"`, `"U"`, `"D"`
set the facing direction to west, east, north, south and the velocity to `(-s,0)`,
`(s,0)`, `(0,-s)`, `(0,s)`; the empty string sets the velocity to `(0,0)` and keeps
the facing direction; whatever the string, position, bag and score (and id, name,
movement speed, capacity and previous position) are unchanged. -/
theorem C22_set_direction (d : Dog) :
    ((d.SetDirection "L").dir_ = DIRECTION.WEST
      ∧ (d.SetDirection "L").speed_ = { dx := -d.movement_speed_, dy := 0 })
    ∧ ((d.SetDirection "R").dir_ = DIRECTION.EAST
      ∧ (d.SetDirection "R").speed_ = { dx := d.movement_speed_, dy := 0 })
    ∧ ((d.SetDirection "U").dir_ = DIRECTION.NORTH
      ∧ (d.SetDirection "U").speed_ = { dx := 0, dy := -d.movement_speed_ })
    ∧ ((d.SetDirection "D").dir_ = DIRECTION.SOUTH
      ∧ (d.SetDirection "D").speed_ = { dx := 0, dy := d.movement_speed_ })
    ∧ ((d.SetDirection "").dir_ = d.dir_
      ∧ (d.SetDirection "").speed_ = { dx := 0, dy := 0 })
    ∧ ∀ direction : String,
        (d.SetDirection direction).pos_ = d.pos_
        ∧ (d.SetDirection direction).lootbag_ = d.lootbag_
        ∧ (d.SetDirection direction).score_ = d.score_
        ∧ (d.SetDirection direction).id_ = d.id_
        ∧ (d.SetDirection direction).name_ = d.name_
        ∧ (d.SetDirection direction).movement_speed_ = d.movement_speed_
        ∧ (d.SetDirection direction).lootbag_capacity_ = d.lootbag_capacity_
        ∧ (d.SetDirection direction).previous_pos_ = d.previous_pos_ := by
  refine ⟨?_, ?_, ?_, ?_, ?_, ?_⟩
  · simp [Dog.SetDirection]
  · simp [Dog.SetDirection]
  · simp [Dog.SetDirection]
  · simp [Dog.SetDirection]
  · simp [Dog.SetDirection]
  · intro direction
    unfold Dog.SetDirection
    split_ifs <;> exact ⟨rfl, rfl, rfl, rfl, rfl, rfl, rfl, rfl⟩

/-! ## Theorems: the auto-save accumulator -/

theorem toInt64_of_range (n : ℤ) (hlo : -2 ^ 63 ≤ n) (hhi : n < 2 ^ 63) : toInt64 n = n := by
  unfold toInt64
  rw [Int.emod_eq_of_lt (by linarith) (by linarith)]
  ring

theorem Update_eq (g : Game) (time_delta : ℕ) (spawns : ℕ → List (ℤ × MapPoint)) :
    g.Update time_delta spawns
      = if toInt64 (g.passed_time + (time_delta : ℤ)) ≥ g.save_period
            ∧ g.manual_time_control_ = true ∧ g.state_file_path_ ≠ "" then
          ({ (g.MovePlayersAndUpdateLoot time_delta spawns) with passed_time := 0 }, true)
        else
          ({ (g.MovePlayersAndUpdateLoot time_delta spawns) with
              passed_time := toInt64 (g.passed_time + (time_delta : ℤ)) }, false) := rfl

/-- C25, the failing input: with `1` ms on the accumulator, a save period of `10` ms,
manual mode and a state file, `Game::Update(2^63 - 1)` calls no `SaveGameState`
although `1 + (2^63 - 1) ≥ 10`: the sum wraps to `-2^63`, which stays on the
accumulator. -/
theorem C25_overflow_skips_save :
    autosaveGame.passed_time + ((2 ^ 63 - 1 : ℕ) : ℤ) ≥ autosaveGame.save_period
    ∧ (autosaveGame.Update (2 ^ 63 - 1) (fun _ => [])).2 = false
    ∧ (autosaveGame.Update (2 ^ 63 - 1) (fun _ => [])).1.passed_time = -2 ^ 63 := by
  refine ⟨by decide!, by decide!, by decide!⟩

/-- C25: as long as the sum `a + delta` fits `int64_t`.  In manual mode with a state
file: `Game::Update(delta)` calls `SaveGameState` iff `a + delta ≥ save_period`, and
then the accumulator is `0`; otherwise the accumulator is `a + delta`.  With manual
mode off or without a state file `SaveGameState` is not called (whatever the sum). -/
theorem C25_auto_save (g : Game) (delta : ℕ) (spawns : ℕ → List (ℤ × MapPoint))
    (hlo : -2 ^ 63 ≤ g.passed_time) (hhi : g.passed_time + (delta : ℤ) < 2 ^ 63) :
    (g.manual_time_control_ = true → g.state_file_path_ ≠ "" →
      ((g.Update delta spawns).2 = true ↔ g.passed_time + (delta : ℤ) ≥ g.save_period)
      ∧ ((g.Update delta spawns).2 = true → (g.Update delta spawns).1.passed_time = 0)
      ∧ ((g.Update delta spawns).2 = false →
          (g.Update delta spawns).1.passed_time = g.passed_time + (delta : ℤ)))
    ∧ ((g.manual_time_control_ = false ∨ g.state_file_path_ = "") →
        ∀ delta' : ℕ, (g.Update delta' spawns).2 = false) := by
  have hwrap : toInt64 (g.passed_time + (delta : ℤ)) = g.passed_time + (delta : ℤ) :=
    toInt64_of_range _ (by have := Int.natCast_nonneg delta; linarith) hhi
  constructor
  · intro hmanual hpath
    by_cases hsave : g.passed_time + (delta : ℤ) ≥ g.save_period
    · rw [Update_eq, if_pos ⟨by rw [hwrap]; exact hsave, hmanual, hpath⟩]
      exact ⟨⟨fun _ => hsave, fun _ => rfl⟩, fun _ => rfl, fun h => absurd h (by simp)⟩
    · have hno : ¬ (toInt64 (g.passed_time + (delta : ℤ)) ≥ g.save_period
          ∧ g.manual_time_control_ = true ∧ g.state_file_path_ ≠ "") := by
        rintro ⟨h, -, -⟩
        rw [hwrap] at h
        exact hsave h
      rw [Update_eq, if_neg hno]
      exact ⟨⟨fun h => absurd h (by simp), fun h => absurd h hsave⟩,
        fun h => absurd h (by simp), fun _ => hwrap⟩
  · intro hoff delta'
    have hno : ¬ (toInt64 (g.passed_time + (delta' : ℤ)) ≥ g.save_period
        ∧ g.manual_time_control_ = true ∧ g.state_file_path_ ≠ "") := by
      rintro ⟨-, hmanual, hpath⟩
      rcases hoff with hoff | hoff
      · rw [hoff] at hmanual
        exact absurd hmanual (by simp)
      · exact hpath hoff
    rw [Update_eq, if_neg hno]

/-- C25, witness: `5` ms on the accumulator and a tick of `7` ms with the save period
`10`; also manual mode off. -/
theorem C25_auto_save_witness :
    (({ autosaveGame with passed_time := 5 } : Game).manual_time_control_ = true →
      ({ autosaveGame with passed_time := 5 } : Game).state_file_path_ ≠ "" →
      ((({ autosaveGame with passed_time := 5 } : Game).Update 7 (fun _ => [])).2 = true
        ↔ ({ autosaveGame with passed_time := 5 } : Game).passed_time + ((7 : ℕ) : ℤ)
            ≥ ({ autosaveGame with passed_time := 5 } : Game).save_period)
      ∧ ((({ autosaveGame with passed_time := 5 } : Game).Update 7 (fun _ => [])).2 = true →
          (({ autosaveGame with passed_time := 5 } : Game).Update 7
            (fun _ => [])).1.passed_time = 0)
      ∧ ((({ autosaveGame with passed_time := 5 } : Game).Update 7 (fun _ => [])).2 = false →
          (({ autosaveGame with passed_time := 5 } : Game).Update 7
            (fun _ => [])).1.passed_time
            = ({ autosaveGame with passed_time := 5 } : Game).passed_time + ((7 : ℕ) : ℤ)))
    ∧ ((({ autosaveGame with passed_time := 5 } : Game).manual_time_control_ = false
        ∨ ({ autosaveGame with passed_time := 5 } : Game).state_file_path_ = "") →
        ∀ delta' : ℕ,
          (({ autosaveGame with passed_time := 5 } : Game).Update delta' (fun _ => [])).2
            = false) :=
  C25_auto_save { autosaveGame with passed_time := 5 } 7 (fun _ => []) (by decide!)
    (by decide!)

/-! ## Theorems: the action request -/

theorem SetDirection_of_malformed (d : Dog) (direction : String) (hL : direction ≠ "L")
    (hR : direction ≠ "R") (hU : direction ≠ "U") (hD : direction ≠ "D") :
    d.SetDirection direction = { d with speed_ := { dx := 0, dy := 0 } } := by
  unfold Dog.SetDirection
  rw [if_neg hL, if_neg hR, if_neg hU, if_neg hD]

/-- C23, what the code does: an action request of a registered player (token of `32`
bytes, dog pointer set) whose `move` value is none of `"L"`, `"R"`, `"U"`, `"D"` is
answered `200`, exactly like the stop command: the game afterwards is the one the
empty string gives, in which the player's dog has the velocity `(0,0)`.  No
validation error is raised and a moving dog does not keep its velocity. -/
theorem C23_malformed_direction_stops_dog (g : Game) (token direction : String)
    (player : Player) (dog : DogHandle) (hsize : token.utf8ByteSize = 32)
    (hplayer : g.FindPlayerByToken token = some player)
    (hdog : player.player_dog_ = some dog) (hL : direction ≠ "L") (hR : direction ≠ "R")
    (hU : direction ≠ "U") (hD : direction ≠ "D") :
    HandleAction g token direction = some (ActionResponse.ok, g.setDogDirection dog direction)
    ∧ g.setDogDirection dog direction = g.setDogDirection dog ""
    ∧ ∀ s ∈ (g.setDogDirection dog direction).game_sessions_, ∀ d ∈ s.dogs_,
        d.addr_ = dog.addr → d.speed_ = { dx := 0, dy := 0 } := by
  have hset : ∀ d : Dog, d.SetDirection direction = d.SetDirection "" := by
    intro d
    rw [SetDirection_of_malformed d direction hL hR hU hD,
      SetDirection_of_malformed d "" (by decide) (by decide) (by decide) (by decide)]
  refine ⟨?_, ?_, ?_⟩
  · unfold HandleAction
    rw [if_neg (by simp [hsize])]
    simp only [hplayer, hdog]
  · unfold Game.setDogDirection
    simp only [hset]
  · intro s hs d hd haddr
    simp only [Game.setDogDirection, List.mem_map] at hs
    obtain ⟨s0, -, rfl⟩ := hs
    simp only [List.mem_map] at hd
    obtain ⟨d0, -, rfl⟩ := hd
    by_cases h0 : d0.addr_ = dog.addr
    · rw [if_pos h0, SetDirection_of_malformed d0 direction hL hR hU hD]
    · rw [if_neg h0] at haddr
      exact absurd haddr h0

/-- C23, the failing input: Ann joined `"map1"` and sent `"R"`, so her dog has the
velocity `(1,0)` and faces east; her action request with `"move": "X"` is answered
`200` and the dog's velocity is `(0,0)` afterwards (the facing direction stays). -/
theorem C23_malformed_direction_stops_dog_witness :
    annEast.dogSpeeds = [[{ dx := 1, dy := 0 }]]
    ∧ annEast.dogDirs = [[DIRECTION.EAST]]
    ∧ (HandleAction annEast annToken "X").map Prod.fst = some ActionResponse.ok
    ∧ (annEast.setDogDirection { addr := 0, id_ := 0 } "X").dogSpeeds = [[{ dx := 0, dy := 0 }]]
    ∧ (annEast.setDogDirection { addr := 0, id_ := 0 } "X").dogDirs = [[DIRECTION.EAST]]
    ∧ (HandleAction annEast annToken "X"
        = some (ActionResponse.ok, annEast.setDogDirection { addr := 0, id_ := 0 } "X")
      ∧ annEast.setDogDirection { addr := 0, id_ := 0 } "X"
        = annEast.setDogDirection { addr := 0, id_ := 0 } ""
      ∧ ∀ s ∈ (annEast.setDogDirection { addr := 0, id_ := 0 } "X").game_sessions_,
          ∀ d ∈ s.dogs_, d.addr_ = ({ addr := 0, id_ := 0 } : DogHandle).addr →
            d.speed_ = { dx := 0, dy := 0 }) :=
  ⟨by decide!, by decide!, by decide!, by decide!, by decide!,
    C23_malformed_direction_stops_dog annEast annToken "X"
      { playerId := 0, userName := "Ann", authToken := annToken, current_session_id_ := 0
        player_dog_ := some { addr := 0, id_ := 0 } }
      { addr := 0, id_ := 0 } (by decide!) (by decide!) rfl (by decide) (by decide)
      (by decide) (by decide)⟩

/-! ## Theorems: one item, two dogs -/

/-- C28, the failing input: two dogs with empty bags of capacity `3` both sweep from
`(0,0)` to `(10,0)` over the one loot item at `(5,0)`.  `FindGatherEvents` reports the
item for dog `0` and then for dog `1`; `Game::UpdateGatheredLoot` reads the item of
each event from the copy of the roster it took at the start, so after the pass the
item (address `100`) is in both bags, while the roster is empty. -/
theorem C28_one_item_in_two_bags :
    twoCollectors.bags = [[], []]
    ∧ twoCollectors.loot_.map LootSharedPtr.addr = [100]
    ∧ (FindGatherEvents (GameItemGathererProvider twoCollectors.dogs_
          twoCollectors.loot_)).map (fun e => (e.gatherer_id, e.item_id)) = [(0, 0), (1, 0)]
    ∧ (UpdateGatheredLoot twoCollectors).bags = [[100], [100]]
    ∧ (UpdateGatheredLoot twoCollectors).loot_ = [] := by
  refine ⟨by decide!, by decide!, by decide!, by decide!, by decide!⟩

/-! ## Theorems: a dog that stands still -/

/-- C29, the failing input: Ann's dog went from `(0,10)` to `(2,10)`, a loot item was
spawned at `(1,10)` after that tick's gathering, and Ann stopped the dog.  At the start
of the next tick the dog's velocity is zero and its bag is empty, so `Dog::Move` is not
called and `previous_pos_` is still `(0,10)`: the gatherer segment is `(0,10)-(2,10)`,
not of zero length, and the dog that stands still at `(2,10)` picks the item up. -/
theorem C29_standing_dog_gathers :
    stoppedGame.dogSpeeds = [[{ dx := 0, dy := 0 }]]
    ∧ stoppedGame.dogPositions = [[{ x := 2, y := 10 }]]
    ∧ stoppedGame.bagIds = [[[]]]
    ∧ stoppedGame.lootIds = [[0]]
    ∧ stoppedGame.gathererSegments = [[({ x := 0, y := 10 }, { x := 2, y := 10 })]]
    ∧ (stoppedGame.MovePlayersAndUpdateLoot 1000 (fun _ => [])).dogPositions
        = [[{ x := 2, y := 10 }]]
    ∧ (stoppedGame.MovePlayersAndUpdateLoot 1000 (fun _ => [])).bagIds = [[[0]]]
    ∧ (stoppedGame.MovePlayersAndUpdateLoot 1000 (fun _ => [])).lootIds = [[]] := by
  refine ⟨by decide!, by decide!, by decide!, by decide!, by decide!, by decide!,
    by decide!, by decide!⟩

/-! ## Theorems: one session per map -/

theorem IndexInv_of_fresh (g0 : Game) (h : g0.IsFresh) : g0.IndexInv := by
  obtain ⟨-, hs, hidx, -, hc, -⟩ := h
  refine ⟨?_, ?_, ?_, ?_, ?_⟩
  · rw [hidx]
    exact List.nodup_nil
  · intro kv hkv
    rw [hidx] at hkv
    exact absurd hkv (List.not_mem_nil _)
  · intro i s hi
    rw [hs] at hi
    simp at hi
  · intro i s hi
    rw [hs] at hi
    simp at hi
  · rw [hc, hs]
    rfl

theorem AddPlayer_index_cases (g g' : Game) (player : Player) (map_id : String)
    (draws : JoinDraws) (h : g.AddPlayer player map_id draws = some g') :
    ∃ map dog, g.FindMap map_id = some map
      ∧ ((g.findSessionIndex map_id = none
          ∧ g'.game_sessions_ = g.game_sessions_ ++
              [{ dogs_ := [dog], loot_ := [], map_ := map, id_ := g.session_counter_ }]
          ∧ g'.sessions_
              = Game.assignSessionIndex g.sessions_ map_id g.game_sessions_.length
          ∧ g'.session_counter_ = g.session_counter_ + 1)
        ∨ ∃ idx session, g.findSessionIndex map_id = some idx
            ∧ g.game_sessions_[idx]? = some session
            ∧ g'.game_sessions_ = g.game_sessions_.set idx
                { session with dogs_ := session.dogs_ ++ [dog] }
            ∧ g'.sessions_ = g.sessions_
            ∧ g'.session_counter_ = g.session_counter_) := by
  cases hmap : g.FindMap map_id with
  | none =>
    unfold Game.AddPlayer at h
    simp only [hmap] at h
    exact absurd h (by simp)
  | some map =>
    cases hspawn : (if g.dog_random_spawning_mode_ then GetRandomMapPointOnRoads map draws
        else GetBeginMapPointOnRoads map) with
    | none =>
      unfold Game.AddPlayer at h
      simp only [hmap, hspawn] at h
      exact absurd h (by simp)
    | some p =>
      refine ⟨map, g.newDog player map draws.uninit p, rfl, ?_⟩
      cases hfind : g.findSessionIndex map_id with
      | none =>
        rw [AddPlayer_new_session g player map_id draws map p hmap hspawn hfind] at h
        have hg := (Option.some.inj h).symm
        subst hg
        exact Or.inl ⟨rfl, rfl, rfl, rfl⟩
      | some idx =>
        cases hsession : g.game_sessions_[idx]? with
        | none =>
          have hfind2 : Game.findSessionIndex
              { g with dog_counter := g.dog_counter + 1, next_addr := g.next_addr + 1 }
              map_id = some idx := hfind
          unfold Game.AddPlayer at h
          simp only [hmap, hspawn, hfind2, hsession] at h
          exact absurd h (by simp)
        | some session =>
          rw [AddPlayer_old_session g player map_id draws map p idx session hmap hspawn hfind
            hsession] at h
          have hg := (Option.some.inj h).symm
          subst hg
          exact Or.inr ⟨idx, session, rfl, hsession, rfl, rfl, rfl⟩

theorem key_of_findSessionIndex (g : Game) (map_id : String) (idx : ℕ)
    (h : g.findSessionIndex map_id = some idx) : (map_id, idx) ∈ g.sessions_ := by
  unfold Game.findSessionIndex at h
  simp only [Option.map_eq_some'] at h
  obtain ⟨kv, hkv, rfl⟩ := h
  have hk := List.find?_some hkv
  simp only [decide_eq_true_eq] at hk
  have hmem := List.mem_of_find?_eq_some hkv
  rw [← hk]
  exact hmem

theorem no_key_of_findSessionIndex (g : Game) (map_id : String)
    (h : g.findSessionIndex map_id = none) : ∀ kv ∈ g.sessions_, kv.1 ≠ map_id := by
  unfold Game.findSessionIndex at h
  simp only [Option.map_eq_none'] at h
  intro kv hkv
  have := List.find?_eq_none.1 h kv hkv
  simpa using this

theorem assignSessionIndex_of_no_key (sessions : List (String × ℕ)) (map_id : String)
    (idx : ℕ) (h : ∀ kv ∈ sessions, kv.1 ≠ map_id) :
    Game.assignSessionIndex sessions map_id idx = sessions ++ [(map_id, idx)] := by
  have hany : sessions.any (fun kv => decide (kv.1 = map_id)) = false := by
    rw [List.any_eq_false]
    intro kv hkv
    simpa using h kv hkv
  unfold Game.assignSessionIndex
  rw [hany]
  rfl

theorem IndexInv_new (g g' : Game) (hinv : g.IndexInv) (map_id : String) (s : GameSession)
    (hno : ∀ kv ∈ g.sessions_, kv.1 ≠ map_id)
    (hs : g'.game_sessions_ = g.game_sessions_ ++ [s]) (hmap : s.map_.id_ = map_id)
    (hid : s.id_ = g.session_counter_)
    (hidx : g'.sessions_ = g.sessions_ ++ [(map_id, g.game_sessions_.length)])
    (hc : g'.session_counter_ = g.session_counter_ + 1) : g'.IndexInv := by
  have hget : ∀ (i : ℕ) (t : GameSession), g'.game_sessions_[i]? = some t →
      g.game_sessions_[i]? = some t ∨ (i = g.game_sessions_.length ∧ t = s) := by
    intro i t ht
    rw [hs] at ht
    by_cases hi : i < g.game_sessions_.length
    · rw [List.getElem?_append_left hi] at ht
      exact Or.inl ht
    · rw [List.getElem?_append_right (Nat.le_of_not_lt hi)] at ht
      have hi' : i - g.game_sessions_.length = 0 := by
        by_contra hne
        obtain ⟨k, hk⟩ := Nat.exists_eq_succ_of_ne_zero hne
        rw [hk] at ht
        simp at ht
      rw [hi'] at ht
      simp only [List.getElem?_cons_zero, Option.some.injEq] at ht
      exact Or.inr ⟨by omega, ht.symm⟩
  refine ⟨?_, ?_, ?_, ?_, ?_⟩
  · rw [hidx, List.map_append, List.nodup_append]
    refine ⟨hinv.keys, by simp, ?_⟩
    intro k h1 h2
    simp only [List.map_cons, List.map_nil, List.mem_singleton] at h2
    obtain ⟨kv, hkv, rfl⟩ := List.mem_map.1 h1
    exact hno kv hkv h2
  · intro kv hkv
    rw [hidx, List.mem_append, List.mem_singleton] at hkv
    rcases hkv with hkv | rfl
    · obtain ⟨t, ht, hid'⟩ := hinv.index_sound kv hkv
      refine ⟨t, ?_, hid'⟩
      rw [hs, List.getElem?_append_left (List.getElem?_eq_some.1 ht).1]
      exact ht
    · refine ⟨s, ?_, hmap⟩
      rw [hs]
      simp
  · intro i t ht
    rw [hidx, List.mem_append, List.mem_singleton]
    rcases hget i t ht with h | ⟨rfl, rfl⟩
    · exact Or.inl (hinv.index_complete i t h)
    · right
      rw [hmap]
  · intro i t ht
    rcases hget i t ht with h | ⟨rfl, rfl⟩
    · exact hinv.session_ids i t h
    · rw [hid]
      exact hinv.session_count
  · rw [hc, hs, hinv.session_count]
    simp

theorem IndexInv_old (g g' : Game) (hinv : g.IndexInv) (idx : ℕ) (session s' : GameSession)
    (hsession : g.game_sessions_[idx]? = some session)
    (hs : g'.game_sessions_ = g.game_sessions_.set idx s') (hmap : s'.map_ = session.map_)
    (hid : s'.id_ = session.id_) (hidx : g'.sessions_ = g.sessions_)
    (hc : g'.session_counter_ = g.session_counter_) : g'.IndexInv := by
  have hlt : idx < g.game_sessions_.length := (List.getElem?_eq_some.1 hsession).1
  have hget : ∀ (i : ℕ) (t : GameSession), g'.game_sessions_[i]? = some t →
      ∃ t0, g.game_sessions_[i]? = some t0 ∧ t.map_ = t0.map_ ∧ t.id_ = t0.id_ := by
    intro i t ht
    rw [hs] at ht
    by_cases hi : idx = i
    · subst hi
      rw [List.getElem?_set_self hlt] at ht
      simp only [Option.some.injEq] at ht
      subst ht
      exact ⟨session, hsession, hmap, hid⟩
    · rw [List.getElem?_set_ne hi] at ht
      exact ⟨t, ht, rfl, rfl⟩
  refine ⟨?_, ?_, ?_, ?_, ?_⟩
  · rw [hidx]
    exact hinv.keys
  · intro kv hkv
    rw [hidx] at hkv
    obtain ⟨t, ht, hid'⟩ := hinv.index_sound kv hkv
    rw [hs]
    by_cases hi : idx = kv.2
    · rw [← hi, List.getElem?_set_self hlt]
      rw [← hi, hsession] at ht
      simp only [Option.some.injEq] at ht
      subst ht
      exact ⟨s', rfl, by rw [hmap]; exact hid'⟩
    · rw [List.getElem?_set_ne hi]
      exact ⟨t, ht, hid'⟩
  · intro i t ht
    obtain ⟨t0, ht0, hm, -⟩ := hget i t ht
    rw [hidx, hm]
    exact hinv.index_complete i t0 ht0
  · intro i t ht
    obtain ⟨t0, ht0, -, hi⟩ := hget i t ht
    rw [hi]
    exact hinv.session_ids i t0 ht0
  · rw [hc, hs, List.length_set]
    exact hinv.session_count

theorem not_mem_sessionMapIds (g : Game) (hinv : g.IndexInv) (map_id : String)
    (hno : ∀ kv ∈ g.sessions_, kv.1 ≠ map_id) : map_id ∉ g.sessionMapIds := by
  intro hmem
  unfold Game.sessionMapIds at hmem
  obtain ⟨s, hs, hid⟩ := List.mem_map.1 hmem
  obtain ⟨i, hi⟩ := List.mem_iff_getElem?.1 hs
  exact hno _ (hinv.index_complete i s hi) hid

/-- What one join does to the sessions of a game whose index agrees with its list. -/
theorem HandleJoinGame_sessions (g g1 : Game) (username map_id : String) (draws : JoinDraws)
    (resp : JoinResponse) (h : HandleJoinGame g username map_id draws = some (resp, g1))
    (hinv : g.IndexInv) :
    g1.IndexInv
    ∧ ((resp.isOk = false ∧ g1 = g)
      ∨ (resp.isOk = true
        ∧ ((map_id ∉ g.sessionMapIds
            ∧ ∃ s, g1.game_sessions_ = g.game_sessions_ ++ [s] ∧ s.map_.id_ = map_id
                ∧ s.id_ = g.game_sessions_.length ∧ s.dogs_.length = 1)
          ∨ ∃ i s dog, g.game_sessions_[i]? = some s ∧ s.map_.id_ = map_id
              ∧ g1.game_sessions_
                  = g.game_sessions_.set i { s with dogs_ := s.dogs_ ++ [dog] }))) := by
  unfold HandleJoinGame at h
  by_cases hu : username = ""
  · rw [if_pos hu] at h
    obtain ⟨rfl, rfl⟩ := Prod.mk.inj (Option.some.inj h)
    exact ⟨hinv, Or.inl ⟨rfl, rfl⟩⟩
  · rw [if_neg hu] at h
    cases hf : g.FindMap map_id with
    | none =>
      simp only [hf] at h
      obtain ⟨rfl, rfl⟩ := Prod.mk.inj (Option.some.inj h)
      exact ⟨hinv, Or.inl ⟨rfl, rfl⟩⟩
    | some map0 =>
      simp only [hf] at h
      by_cases hm : map_id = ""
      · rw [if_pos hm] at h
        obtain ⟨rfl, rfl⟩ := Prod.mk.inj (Option.some.inj h)
        exact ⟨hinv, Or.inl ⟨rfl, rfl⟩⟩
      · rw [if_neg hm] at h
        simp only [Option.map_eq_some'] at h
        obtain ⟨g2, hadd, heq⟩ := h
        obtain ⟨rfl, rfl⟩ := Prod.mk.inj heq
        have hid0 : map0.id_ = map_id := by
          have := List.find?_some hf
          simpa using this
        rw [hid0] at hadd
        obtain ⟨map, dog, hmap, hcase⟩ := AddPlayer_index_cases _ _ _ _ _ hadd
        have hmapid : map.id_ = map_id := by
          have := List.find?_some hmap
          simpa using this
        rcases hcase with ⟨hfind, hs, hidx, hc⟩
          | ⟨idx, session, hfind, hsession, hs, hidx, hc⟩
        · have hfind' : g.findSessionIndex map_id = none := hfind
          have hs' : g2.game_sessions_ = g.game_sessions_ ++
              [{ dogs_ := [dog], loot_ := [], map_ := map, id_ := g.session_counter_ }] := hs
          have hc' : g2.session_counter_ = g.session_counter_ + 1 := hc
          have hno : ∀ kv ∈ g.sessions_, kv.1 ≠ map_id :=
            no_key_of_findSessionIndex g map_id hfind'
          have hidx' : g2.sessions_ = g.sessions_ ++ [(map_id, g.game_sessions_.length)] := by
            rw [hidx]
            exact assignSessionIndex_of_no_key g.sessions_ map_id _ hno
          refine ⟨IndexInv_new g g2 hinv map_id _ hno hs' hmapid rfl hidx' hc',
            Or.inr ⟨rfl, ?_⟩⟩
          exact Or.inl ⟨not_mem_sessionMapIds g hinv map_id hno, _, hs', hmapid,
            hinv.session_count, rfl⟩
        · have hfind' : g.findSessionIndex map_id = some idx := hfind
          have hsession' : g.game_sessions_[idx]? = some session := hsession
          have hs' : g2.game_sessions_ = g.game_sessions_.set idx
              { session with dogs_ := session.dogs_ ++ [dog] } := hs
          have hidx' : g2.sessions_ = g.sessions_ := hidx
          have hc' : g2.session_counter_ = g.session_counter_ := hc
          have hkey : (map_id, idx) ∈ g.sessions_ :=
            key_of_findSessionIndex g map_id idx hfind'
          obtain ⟨t, ht, htid⟩ := hinv.index_sound _ hkey
          have hts : t = session := by
            simp only at ht
            rw [hsession'] at ht
            exact (Option.some.inj ht).symm
          subst hts
          refine ⟨IndexInv_old g g2 hinv idx t _ hsession' hs' rfl rfl hidx' hc',
            Or.inr ⟨rfl, ?_⟩⟩
          exact Or.inr ⟨idx, t, dog, hsession', htid, hs'⟩

theorem sessionMapIds_set (g : Game) (idx : ℕ) (session s' : GameSession)
    (hsession : g.game_sessions_[idx]? = some session) (hmap : s'.map_ = session.map_) :
    (g.game_sessions_.set idx s').map (fun s => s.map_.id_) = g.sessionMapIds := by
  unfold Game.sessionMapIds
  apply List.ext_getElem?
  intro i
  rw [List.getElem?_map, List.getElem?_map]
  by_cases hi : idx = i
  · subst hi
    rw [List.getElem?_set_self (List.getElem?_eq_some.1 hsession).1, hsession]
    simp [hmap]
  · rw [List.getElem?_set_ne hi]

theorem sessionMapIds_after_join (g g1 : Game) (username map_id : String) (draws : JoinDraws)
    (resp : JoinResponse) (h : HandleJoinGame g username map_id draws = some (resp, g1))
    (hinv : g.IndexInv) (m : String) :
    m ∈ g1.sessionMapIds ↔ (m ∈ g.sessionMapIds ∨ (map_id = m ∧ resp.isOk = true)) := by
  rcases (HandleJoinGame_sessions g g1 username map_id draws resp h hinv).2 with
    ⟨hno, rfl⟩ | ⟨hok, ⟨-, s, hs, hmap, -, -⟩ | ⟨i, s, dog, hget, hmap, hs⟩⟩
  · rw [hno]
    simp
  · unfold Game.sessionMapIds
    rw [hs, hok]
    simp only [List.map_append, List.map_cons, List.map_nil, List.mem_append,
      List.mem_singleton, hmap, and_true]
    constructor
    · rintro (h1 | h1)
      · exact Or.inl h1
      · exact Or.inr h1.symm
    · rintro (h1 | h1)
      · exact Or.inl h1
      · exact Or.inr h1.symm
  · have hsame : g1.sessionMapIds = g.sessionMapIds := by
      unfold Game.sessionMapIds
      rw [hs]
      exact sessionMapIds_set g i s _ hget rfl
    rw [hsame, hok]
    constructor
    · exact fun h1 => Or.inl h1
    · rintro (h1 | ⟨h1, -⟩)
      · exact h1
      · rw [← h1, ← hmap]
        unfold Game.sessionMapIds
        exact List.mem_map_of_mem _ (List.getElem?_mem hget)

theorem joinRun_sessions :
    ∀ (reqs : List (String × String × JoinDraws)) (g g' : Game)
      (log : List (String × JoinResponse)),
      joinRun reqs g = some (log, g') → g.IndexInv →
      g'.IndexInv
      ∧ ∀ m : String,
          m ∈ g'.sessionMapIds ↔ (m ∈ g.sessionMapIds ∨ 0 < successesOn m log)
  | [], g, g', log, h, hinv => by
    simp only [joinRun, Option.some.injEq, Prod.mk.injEq] at h
    obtain ⟨rfl, rfl⟩ := h
    exact ⟨hinv, fun m => by simp [successesOn]⟩
  | (username, map_id, draws) :: rest, g, g', log, h, hinv => by
    simp only [joinRun] at h
    cases hj : HandleJoinGame g username map_id draws with
    | none => simp [hj] at h
    | some r =>
      obtain ⟨resp, g1⟩ := r
      simp only [hj, Option.map_eq_some'] at h
      obtain ⟨⟨log1, g2⟩, hrest, heq⟩ := h
      obtain ⟨rfl, rfl⟩ := Prod.mk.inj heq
      have hinv1 := (HandleJoinGame_sessions g g1 username map_id draws resp hj hinv).1
      obtain ⟨hinv2, hmem2⟩ := joinRun_sessions rest g1 g2 log1 hrest hinv1
      refine ⟨hinv2, ?_⟩
      intro m
      rw [hmem2 m, sessionMapIds_after_join g g1 username map_id draws resp hj hinv m]
      have hcount : successesOn m ((map_id, resp) :: log1)
          = successesOn m log1 + (if (map_id = m ∧ resp.isOk = true) then 1 else 0) := by
        unfold successesOn
        rw [List.countP_cons]
        simp only [Bool.and_eq_true, decide_eq_true_eq]
      rw [hcount]
      by_cases hc : map_id = m ∧ resp.isOk = true
      · rw [if_pos hc]
        simp [hc]
      · rw [if_neg hc]
        simp only [hc, or_false, add_zero]

theorem sessionMapIds_nodup (g : Game) (hinv : g.IndexInv) : g.sessionMapIds.Nodup := by
  unfold Game.sessionMapIds
  rw [List.nodup_iff_getElem?_ne_getElem?]
  intro i j hij hj heq
  rw [List.length_map] at hj
  rw [List.getElem?_map, List.getElem?_map, List.getElem?_eq_getElem hj,
    List.getElem?_eq_getElem (Nat.lt_trans hij hj)] at heq
  simp only [Option.map_some', Option.some.injEq] at heq
  have h1 := hinv.index_complete i _ (List.getElem?_eq_getElem (Nat.lt_trans hij hj))
  have h2 := hinv.index_complete j _ (List.getElem?_eq_getElem hj)
  rw [heq] at h1
  have := List.inj_on_of_nodup_map hinv.keys h1 h2 rfl
  simp only [Prod.mk.injEq, true_and] at this
  omega

/-- C21: after any sequence of join requests on a fresh game, the sessions' map ids
are pairwise distinct and are exactly the map ids joined successfully at least once
(one session per joined map, none for another map); the session at position `i` of
the list, which grows at its end only, has the id `i`; the session-by-map index has
one entry per map id, and its entries are exactly the sessions of the list, each under
the id of its map; a further successful join to a map joined before adds one dog to
that map's session and leaves the list otherwise as it is, and a successful join to a
map not joined before appends one session with the next id, holding one dog. -/
theorem C21_one_session_per_map (g0 g : Game) (reqs : List (String × String × JoinDraws))
    (log : List (String × JoinResponse)) (hfresh : g0.IsFresh)
    (hrun : joinRun reqs g0 = some (log, g)) :
    g.sessionMapIds.Nodup
    ∧ (∀ m : String, m ∈ g.sessionMapIds ↔ 0 < successesOn m log)
    ∧ (∀ (i : ℕ) (s : GameSession), g.game_sessions_[i]? = some s → s.id_ = i)
    ∧ (g.sessions_.map Prod.fst).Nodup
    ∧ (∀ (m : String) (i : ℕ),
        (m, i) ∈ g.sessions_ ↔ ∃ s, g.game_sessions_[i]? = some s ∧ s.map_.id_ = m)
    ∧ (∀ (username map_id : String) (draws : JoinDraws) (resp : JoinResponse) (g' : Game),
        HandleJoinGame g username map_id draws = some (resp, g') → resp.isOk = true →
        (0 < successesOn map_id log →
          ∃ i s dog, g.game_sessions_[i]? = some s ∧ s.map_.id_ = map_id
            ∧ g'.game_sessions_
                = g.game_sessions_.set i { s with dogs_ := s.dogs_ ++ [dog] })
        ∧ (successesOn map_id log = 0 →
          ∃ s, g'.game_sessions_ = g.game_sessions_ ++ [s] ∧ s.map_.id_ = map_id
            ∧ s.id_ = g.game_sessions_.length ∧ s.dogs_.length = 1)) := by
  obtain ⟨hinv, hmem⟩ := joinRun_sessions reqs g0 g log hrun (IndexInv_of_fresh g0 hfresh)
  have hempty : g0.sessionMapIds = [] := by
    unfold Game.sessionMapIds
    rw [hfresh.2.1]
    rfl
  have hmem' : ∀ m : String, m ∈ g.sessionMapIds ↔ 0 < successesOn m log := by
    intro m
    rw [hmem m, hempty]
    simp
  refine ⟨sessionMapIds_nodup g hinv, hmem', hinv.session_ids, hinv.keys, ?_, ?_⟩
  · intro m i
    constructor
    · intro hkv
      exact hinv.index_sound _ hkv
    · rintro ⟨s, hs, rfl⟩
      exact hinv.index_complete i s hs
  · intro username map_id draws resp g' hjoin hok
    rcases (HandleJoinGame_sessions g g' username map_id draws resp hjoin hinv).2 with
      ⟨hno, -⟩ | ⟨-, ⟨hnot, s, hs, hmap, hid, hdogs⟩ | ⟨i, s, dog, hget, hmap, hs⟩⟩
    · rw [hok] at hno
      exact absurd hno (by simp)
    · constructor
      · intro hpos
        exact absurd ((hmem' map_id).2 hpos) hnot
      · exact fun _ => ⟨s, hs, hmap, hid, hdogs⟩
    · constructor
      · exact fun _ => ⟨i, s, dog, hget, hmap, hs⟩
      · intro hzero
        have hin : map_id ∈ g.sessionMapIds := by
          rw [← hmap]
          unfold Game.sessionMapIds
          exact List.mem_map_of_mem _ (List.getElem?_mem hget)
        have := (hmem' map_id).1 hin
        omega

/-- C21, witness: Ann joins `"map1"`, Bob `"map2"`, Cid `"map1"` on `twoMapsGame`: two
sessions, on `"map1"` (dogs `0` and `2`) and on `"map2"` (dog `1`). -/
theorem C21_one_session_per_map_witness :
    twoMapsGame.IsFresh
    ∧ joinRun sampleJoins twoMapsGame = some (sampleLog, sampleGame)
    ∧ sampleGame.sessionMapIds = ["map1", "map2"]
    ∧ sampleGame.dogIds = [[0, 2], [1]]
    ∧ sampleGame.sessions_ = [("map1", 0), ("map2", 1)]
    ∧ (sampleGame.sessionMapIds.Nodup
    ∧ (∀ m : String, m ∈ sampleGame.sessionMapIds ↔ 0 < successesOn m sampleLog)
    ∧ (∀ (i : ℕ) (s : GameSession), sampleGame.game_sessions_[i]? = some s → s.id_ = i)
    ∧ (sampleGame.sessions_.map Prod.fst).Nodup
    ∧ (∀ (m : String) (i : ℕ),
        (m, i) ∈ sampleGame.sessions_
          ↔ ∃ s, sampleGame.game_sessions_[i]? = some s ∧ s.map_.id_ = m)
    ∧ (∀ (username map_id : String) (draws : JoinDraws) (resp : JoinResponse) (g' : Game),
        HandleJoinGame sampleGame username map_id draws = some (resp, g') → resp.isOk = true →
        (0 < successesOn map_id sampleLog →
          ∃ i s dog, sampleGame.game_sessions_[i]? = some s ∧ s.map_.id_ = map_id
            ∧ g'.game_sessions_
                = sampleGame.game_sessions_.set i { s with dogs_ := s.dogs_ ++ [dog] })
        ∧ (successesOn map_id sampleLog = 0 →
          ∃ s, g'.game_sessions_ = sampleGame.game_sessions_ ++ [s] ∧ s.map_.id_ = map_id
            ∧ s.id_ = sampleGame.game_sessions_.length ∧ s.dogs_.length = 1))) :=
  have hfresh : twoMapsGame.IsFresh := by
    unfold Game.IsFresh
    decide!
  have hrun : joinRun sampleJoins twoMapsGame = some (sampleLog, sampleGame) := by decide!
  ⟨hfresh, hrun, by decide!, by decide!, by decide!,
    C21_one_session_per_map twoMapsGame sampleGame sampleJoins sampleLog hfresh hrun⟩

/-! ## Theorems: static files -/

theorem isSubPathLoop_self : ∀ path : List String, isSubPathLoop path path = true
  | [] => rfl
  | p :: path => by
    unfold isSubPathLoop
    rw [if_neg (by simp)]
    exact isSubPathLoop_self path

theorem IsSubPath_self (cwd : List String) (path : String) : IsSubPath cwd path path = true :=
  isSubPathLoop_self _

/-- C30, what the code does: `HandleStaticFileRequest` calls `IsSubPath(full_path, path)`
with the same path on both sides, not with the root directory, so the check never
fails and no request is answered `400`.  The failing input: with the root `/srv/www`
the target `/../secret.txt` resolves to `/srv/secret.txt`, which is not below the root
(`IsSubPath` against the root is `false`), and the handler opens that file and answers
`200`; the target `/` is served `/srv/www/index.html`. -/
theorem C30_static_root_not_enforced :
    (∀ (cwd : List String) (files : StaticFiles) (root_dir_ target : String),
      HandleStaticFileRequest cwd files root_dir_ target ≠ StaticResponse.error 400)
    ∧ DecodeURL "/../secret.txt" = "/../secret.txt"
    ∧ weakly_canonical [] ("/srv/www" ++ "/../secret.txt") = ["srv", "secret.txt"]
    ∧ weakly_canonical [] "/srv/www" = ["srv", "www"]
    ∧ IsSubPath [] ("/srv/www" ++ "/../secret.txt") "/srv/www" = false
    ∧ HandleStaticFileRequest [] sampleFiles "/srv/www" "/../secret.txt"
        = StaticResponse.file ["srv", "secret.txt"]
    ∧ HandleStaticFileRequest [] sampleFiles "/srv/www" "/"
        = StaticResponse.file ["srv", "www", "index.html"] := by
  refine ⟨?_, by decide!, by decide!, by decide!, by decide!, by decide!, by decide!⟩
  intro cwd files root_dir_ target
  unfold HandleStaticFileRequest
  dsimp only
  rw [if_neg (by simp [IsSubPath_self])]
  split_ifs <;> simp

/-! ## Theorems: saving through a temporary file -/

/-- What `Game::SaveGameState` does to the state file when the temporary file is
another file: in every state of the disk the state file holds what it held before
or what the temporary file held when it was closed; it ends with the latter exactly
when the temporary file opened, no insertion threw and the renaming succeeded, and
as it was in every other case; the temporary file is gone at the end once it was
opened.  What the temporary file held when it was closed is the whole archive only
if the stream did not go bad. -/
theorem SaveGameState_spec (g : Game) (disk : Disk) (faults : SaveFaults) (snap : Snapshot)
    (hsnap : g.snapshot = some snap)
    (hne : disk.key (tempPath g.state_file_path_) ≠ disk.key g.state_file_path_) :
    ∃ trace threw, g.SaveGameState disk faults = some (trace, threw)
      ∧ (∀ d ∈ trace, d.read g.state_file_path_ = disk.read g.state_file_path_
          ∨ d.read g.state_file_path_ = some (closedContent snap faults))
      ∧ (faults.Renames g disk →
          (finalDisk disk trace).read g.state_file_path_ = some (closedContent snap faults)
          ∧ (finalDisk disk trace).read (tempPath g.state_file_path_) = none)
      ∧ (¬ faults.Renames g disk →
          (finalDisk disk trace).read g.state_file_path_ = disk.read g.state_file_path_)
      ∧ (faults.Opens g disk → ¬ faults.Renames g disk →
          (finalDisk disk trace).read (tempPath g.state_file_path_) = none) := by
  unfold tempPath at hne
  simp only [Game.SaveGameState, SaveFaults.Renames, SaveFaults.Opens, tempPath]
  generalize joinPath (parent_path g.state_file_path_) "temp_game_save_data" = temp at hne ⊢
  generalize parent_path g.state_file_path_ = dir
  unfold Disk.key at hne
  have hne' : ¬ weakly_canonical disk.cwd g.state_file_path_ = weakly_canonical disk.cwd temp :=
    fun h => hne h.symm
  obtain ⟨mk, op, wf, la, rf, ob⟩ := faults
  by_cases hdir : dir = "" <;> by_cases hex : disk.exists dir = true
    <;> cases mk <;> cases op <;> cases wf <;> cases rf
    <;> simp [saveToTemp, hsnap, finalDisk, Disk.put, Disk.remove, Disk.rename, Disk.read,
      Disk.key, Disk.create_directories, hne, hne', hdir, hex]

/-- C26 (the code renames a file it did not write to its end): the state file
`saves/state` holds an older snapshot and the disk is full.  The temporary file is
created, the insertions into the archive and `ofs.close()` throw nothing, and the
method, which does not look at the stream again, renames the temporary file: the
state file ends with none of the characters of the new archive, the older snapshot
is gone, and no exception leaves the method. -/
theorem C26_full_disk_loses_snapshot :
    savingGame.snapshot = some annSnapshot
    ∧ oldDisk.key (tempPath savingGame.state_file_path_) = ["saves", "temp_game_save_data"]
    ∧ oldDisk.key savingGame.state_file_path_ = ["saves", "state"]
    ∧ oldDisk.read savingGame.state_file_path_ = some (FileContent.bytes "old")
    ∧ stateFileHistory savingGame (savingGame.SaveGameState oldDisk diskFull)
        = some [some (FileContent.bytes "old"), some (FileContent.bytes "old"),
            some (FileContent.bytes "old"), some (FileContent.cut annSnapshot 0)]
    ∧ (savingGame.SaveGameState oldDisk diskFull).map Prod.snd = some false
    ∧ stateFileHistory savingGame (savingGame.SaveGameState oldDisk { })
        = some [some (FileContent.bytes "old"), some (FileContent.bytes "old"),
            some (FileContent.bytes "old"), some (FileContent.archive annSnapshot)]
    ∧ stateFileHistory savingGame (savingGame.SaveGameState oldDisk renameFault)
        = some [some (FileContent.bytes "old"), some (FileContent.bytes "old"),
            some (FileContent.bytes "old"), some (FileContent.bytes "old")] := by
  refine ⟨by decide!, by decide!, by decide!, by decide!, by decide!, by decide!, by decide!,
    by decide!⟩

/-- C26, a second failing run: the state file is `temp_game_save_data` in the working
directory, which is also the path of the temporary file, and holds an older snapshot.
A save whose serialization throws after `3` characters truncates the file, writes to
it and removes it: the older snapshot is gone.  A save without any fault writes the
archive into the state file itself, which is empty and then half written on the way.
The same happens for every spelling of that path, `.//temp_game_save_data` for one, whose temporary file is
`./temp_game_save_data`. -/
theorem C26_state_file_named_like_temp_file :
    tempPath clashingGame.state_file_path_ = clashingGame.state_file_path_
    ∧ clashingDisk.read clashingGame.state_file_path_ = some (FileContent.bytes "old")
    ∧ stateFileHistory clashingGame
        (clashingGame.SaveGameState clashingDisk { write_fails_after := some 3 })
        = some [some (FileContent.bytes ""), some (FileContent.cut annSnapshot 3), none]
    ∧ stateFileHistory clashingGame (clashingGame.SaveGameState clashingDisk { observed := 5 })
        = some [some (FileContent.bytes ""), some (FileContent.cut annSnapshot 5),
            some (FileContent.archive annSnapshot), some (FileContent.archive annSnapshot)]
    ∧ tempPath ".//temp_game_save_data" ≠ ".//temp_game_save_data"
    ∧ clashingDisk.key (tempPath ".//temp_game_save_data")
        = clashingDisk.key ".//temp_game_save_data"
    ∧ stateFileHistory { clashingGame with state_file_path_ := ".//temp_game_save_data" }
        (Game.SaveGameState { clashingGame with state_file_path_ := ".//temp_game_save_data" }
          clashingDisk { write_fails_after := some 3 })
        = some [some (FileContent.bytes ""), some (FileContent.cut annSnapshot 3), none] := by
  refine ⟨by decide!, by decide!, by decide!, by decide!, by decide!, by decide!, by decide!⟩

/-! ## Theorems: the two strands -/

theorem ioStep_strand (args : Args) (threads n : ℕ) (running running' : List GameTask)
    (event : Event) (h : ioStep args threads running event = some running')
    (hinv : (onExecutor args (Executor.strand n) running).length ≤ 1) :
    (onExecutor args (Executor.strand n) running').length ≤ 1 := by
  cases event with
  | start task =>
    simp only [ioStep] at h
    cases he : executorOf args task with
    | none => simp [he] at h
    | some executor =>
      simp only [he] at h
      split_ifs at h with hc
      obtain rfl := Option.some.inj h
      by_cases hn : executor = Executor.strand n
      · subst hn
        rcases hc.2 with hio | hfree
        · exact absurd hio (by simp)
        · have hempty : onExecutor args (Executor.strand n) running = [] := by
            unfold onExecutor
            rw [List.filter_eq_nil_iff]
            intro other hother
            simpa using hfree other hother
          unfold onExecutor at hempty ⊢
          rw [List.filter_cons, hempty]
          split_ifs <;> simp
      · have hnot : ¬ executorOf args task = some (Executor.strand n) := by
          rw [he]
          intro heq
          exact hn (Option.some.inj heq)
        unfold onExecutor at hinv ⊢
        rw [List.filter_cons, if_neg (by simpa using hnot)]
        exact hinv
  | finish task =>
    simp only [ioStep] at h
    split_ifs at h
    obtain rfl := Option.some.inj h
    unfold onExecutor at hinv ⊢
    exact le_trans (List.Sublist.length_le
      (List.Sublist.filter _ (List.erase_sublist task running))) hinv

theorem ioRun_strand (args : Args) (threads n : ℕ) :
    ∀ (events : List Event) (running running' : List GameTask),
      ioRun args threads events running = some running' →
      (onExecutor args (Executor.strand n) running).length ≤ 1 →
      (onExecutor args (Executor.strand n) running').length ≤ 1
  | [], running, running', h, hinv => by
    simp only [ioRun, Option.some.injEq] at h
    rw [← h]
    exact hinv
  | event :: rest, running, running', h, hinv => by
    simp only [ioRun] at h
    cases hs : ioStep args threads running event with
    | none => simp [hs] at h
    | some running1 =>
      simp only [hs] at h
      exact ioRun_strand args threads n rest running1 running' h
        (ioStep_strand args threads n running running1 event hs hinv)

/-- C27, the failing input and what holds instead: `main` makes `ticker_strand` and
the `RequestHandler` makes its own `strand_`, two strands.  With `--tick-period` and
two threads, the auto-tick starts while a join request is being handled.  In every
run, of the handlers that have started and not returned at most one is on
`ticker_strand` (auto-tick, periodic save) and at most one on `strand_` (the
requests); without `--tick-period` no auto-tick and no periodic save is scheduled. -/
theorem C27_tick_and_request_on_two_strands :
    executorOf wallClockArgs GameTask.autoTick = some (Executor.strand 0)
    ∧ executorOf wallClockArgs (GameTask.request RequestKind.join) = some (Executor.strand 1)
    ∧ ioRun wallClockArgs 2
        [Event.start (GameTask.request RequestKind.join), Event.start GameTask.autoTick] []
        = some [GameTask.autoTick, GameTask.request RequestKind.join]
    ∧ (∀ (args : Args) (threads : ℕ) (events : List Event) (running : List GameTask),
        ioRun args threads events [] = some running →
        (onExecutor args ticker_strand running).length ≤ 1
        ∧ (onExecutor args strand_ running).length ≤ 1)
    ∧ (∀ args : Args, args.tick_period = false →
        executorOf args GameTask.autoTick = none
        ∧ executorOf args GameTask.periodicSave = none) := by
  refine ⟨by decide, by decide, by decide, ?_, ?_⟩
  · intro args threads events running h
    exact ⟨ioRun_strand args threads 0 events [] running h (by simp [onExecutor]),
      ioRun_strand args threads 1 events [] running h (by simp [onExecutor])⟩
  · intro args hargs
    simp [executorOf, hargs]

/-! ## Theorems: rounding to the nearest double -/

theorem ieee_log2Loop_spec : ∀ (fuel n : ℕ), 0 < n → n ≤ fuel →
    2 ^ IEEE.log2Loop fuel n ≤ n ∧ n < 2 ^ (IEEE.log2Loop fuel n + 1)
  | 0, n, hn, hle => by omega
  | fuel + 1, n, hn, hle => by
    unfold IEEE.log2Loop
    by_cases h2 : 2 ≤ n
    · rw [if_pos h2]
      have hm : 0 < n / 2 := Nat.div_pos h2 (by norm_num)
      have hmle : n / 2 ≤ fuel := by omega
      obtain ⟨h1, h3⟩ := ieee_log2Loop_spec fuel (n / 2) hm hmle
      constructor
      · calc 2 ^ (IEEE.log2Loop fuel (n / 2) + 1) = 2 ^ IEEE.log2Loop fuel (n / 2) * 2 := by
              ring
          _ ≤ n / 2 * 2 := Nat.mul_le_mul_right 2 h1
          _ ≤ n := Nat.div_mul_le_self n 2
      · have h4 : n < (n / 2 + 1) * 2 := by omega
        calc n < (n / 2 + 1) * 2 := h4
          _ ≤ 2 ^ (IEEE.log2Loop fuel (n / 2) + 1) * 2 := Nat.mul_le_mul_right 2 h3
          _ = 2 ^ (IEEE.log2Loop fuel (n / 2) + 1 + 1) := by ring
    · rw [if_neg h2]
      have : n = 1 := by omega
      subst this
      norm_num

theorem ieee_log2_spec (n : ℕ) (hn : 0 < n) :
    2 ^ IEEE.log2 n ≤ n ∧ n < 2 ^ (IEEE.log2 n + 1) :=
  ieee_log2Loop_spec n n hn le_rfl

/-- The exponent `floorLog2 n d` is not above the binary exponent of `n / d`. -/
theorem ieee_floorLog2_le (n d : ℕ) (hn : 0 < n) (hd : 0 < d) :
    (2 : ℚ) ^ IEEE.floorLog2 n d ≤ (n : ℚ) / d := by
  obtain ⟨ha, -⟩ := ieee_log2_spec n hn
  obtain ⟨-, hb⟩ := ieee_log2_spec d hd
  have hdq : (0 : ℚ) < d := by exact_mod_cast hd
  have h2 : ∀ k : ℕ, (0 : ℚ) < 2 ^ k := fun k => by positivity
  unfold IEEE.floorLog2
  dsimp only
  generalize IEEE.log2 n = a at ha ⊢
  generalize IEEE.log2 d = b at hb ⊢
  have hsub : (2 : ℚ) ^ ((a : ℤ) - (b : ℤ)) = (2 : ℚ) ^ a / (2 : ℚ) ^ b := by
    rw [zpow_sub₀ (by norm_num : (2 : ℚ) ≠ 0), zpow_natCast, zpow_natCast]
  split_ifs with hc
  · rw [hsub, div_le_div_iff₀ (h2 b) hdq]
    have hc' : ((d * 2 ^ (a - b) : ℕ) : ℚ) ≤ ((n * 2 ^ (b - a) : ℕ) : ℚ) := by exact_mod_cast hc
    push_cast at hc'
    rcases le_total a b with hab | hab
    · have e1 : a - b = 0 := Nat.sub_eq_zero_of_le hab
      have e2 : (2 : ℚ) ^ b = 2 ^ a * 2 ^ (b - a) := by
        rw [← pow_add]
        congr 1
        omega
      rw [e1, pow_zero, mul_one] at hc'
      rw [e2]
      calc (2 : ℚ) ^ a * d ≤ 2 ^ a * (n * 2 ^ (b - a)) :=
            mul_le_mul_of_nonneg_left hc' (le_of_lt (h2 a))
        _ = n * (2 ^ a * 2 ^ (b - a)) := by ring
    · have e1 : b - a = 0 := Nat.sub_eq_zero_of_le hab
      have e2 : (2 : ℚ) ^ a = 2 ^ b * 2 ^ (a - b) := by
        rw [← pow_add]
        congr 1
        omega
      rw [e1, pow_zero, mul_one] at hc'
      rw [e2]
      calc (2 : ℚ) ^ b * 2 ^ (a - b) * d = 2 ^ b * (d * 2 ^ (a - b)) := by ring
        _ ≤ 2 ^ b * n := mul_le_mul_of_nonneg_left hc' (le_of_lt (h2 b))
        _ = n * 2 ^ b := by ring
  · have hsub1 : (2 : ℚ) ^ ((a : ℤ) - (b : ℤ) - 1) = (2 : ℚ) ^ a / (2 : ℚ) ^ (b + 1) := by
      have : (a : ℤ) - (b : ℤ) - 1 = (a : ℤ) - ((b + 1 : ℕ) : ℤ) := by push_cast; ring
      rw [this, zpow_sub₀ (by norm_num : (2 : ℚ) ≠ 0), zpow_natCast, zpow_natCast]
    rw [hsub1, div_le_div_iff₀ (h2 (b + 1)) hdq]
    have ha' : ((2 ^ a : ℕ) : ℚ) ≤ (n : ℚ) := by exact_mod_cast ha
    have hb' : ((d : ℕ) : ℚ) ≤ ((2 ^ (b + 1) : ℕ) : ℚ) := by exact_mod_cast le_of_lt hb
    push_cast at ha' hb'
    calc (2 : ℚ) ^ a * d ≤ n * d := mul_le_mul_of_nonneg_right ha' (le_of_lt hdq)
      _ ≤ n * 2 ^ (b + 1) := mul_le_mul_of_nonneg_left hb' (by positivity)

/-- Rounding a quotient to the nearest natural number moves it by a half at most. -/
theorem ieee_roundHalfEven_err (n d : ℕ) (hd : 0 < d) :
    |((IEEE.roundHalfEven n d : ℕ) : ℚ) - (n : ℚ) / d| ≤ 1 / 2 := by
  have hdq : (0 : ℚ) < d := by exact_mod_cast hd
  have hn : (n : ℚ) = (d : ℚ) * ((n / d : ℕ) : ℚ) + ((n % d : ℕ) : ℚ) := by
    exact_mod_cast (Nat.div_add_mod n d).symm
  have hr : ((n % d : ℕ) : ℚ) < d := by exact_mod_cast Nat.mod_lt n hd
  have hr0 : (0 : ℚ) ≤ ((n % d : ℕ) : ℚ) := by positivity
  have hq : (n : ℚ) / d = ((n / d : ℕ) : ℚ) + ((n % d : ℕ) : ℚ) / d := by
    rw [div_eq_iff (ne_of_gt hdq), add_mul, div_mul_cancel₀ _ (ne_of_gt hdq)]
    linarith
  unfold IEEE.roundHalfEven
  dsimp only
  rw [hq, abs_le]
  have key : ∀ (x : ℚ), 0 ≤ x → x < d → (2 * x ≤ d → x / d ≤ 1 / 2) ∧ (d ≤ 2 * x → 1 / 2 ≤ x / d) := by
    intro x _ _
    constructor
    · intro h
      rw [div_le_iff₀ hdq]
      linarith
    · intro h
      rw [le_div_iff₀ hdq]
      linarith
  obtain ⟨k1, k2⟩ := key _ hr0 hr
  have hpos : 0 ≤ ((n % d : ℕ) : ℚ) / d := div_nonneg hr0 (le_of_lt hdq)
  have hlt1 : ((n % d : ℕ) : ℚ) / d < 1 := by
    rw [div_lt_one hdq]
    exact hr
  split_ifs with h1 h2 h3
  · have h1' : (2 : ℚ) * ((n % d : ℕ) : ℚ) ≤ d := by exact_mod_cast le_of_lt h1
    have := k1 h1'
    constructor <;> linarith
  · have h2' : (d : ℚ) ≤ 2 * ((n % d : ℕ) : ℚ) := by exact_mod_cast le_of_lt h2
    have := k2 h2'
    push_cast
    constructor <;> linarith
  · have h1' : (2 : ℚ) * ((n % d : ℕ) : ℚ) ≤ d := by
      have : 2 * (n % d) ≤ d := by omega
      exact_mod_cast this
    have := k1 h1'
    constructor <;> linarith
  · have h2' : (d : ℚ) ≤ 2 * ((n % d : ℕ) : ℚ) := by
      have : d ≤ 2 * (n % d) := by omega
      exact_mod_cast this
    have := k2 h2'
    push_cast
    constructor <;> linarith

theorem ieee_flPos_err (n d : ℕ) (hn : 0 < n) (hd : 0 < d) :
    |IEEE.flPos n d - (n : ℚ) / d| ≤ (n : ℚ) / d / 2 ^ 53 + 1 / 2 ^ 1075 := by
  have hdq : (0 : ℚ) < d := by exact_mod_cast hd
  have hnq : (0 : ℚ) < n := by exact_mod_cast hn
  have hq0 : (0 : ℚ) < (n : ℚ) / d := div_pos hnq hdq
  have h2 : ∀ k : ℕ, (0 : ℚ) < 2 ^ k := fun k => by positivity
  have hle := ieee_floorLog2_le n d hn hd
  unfold IEEE.flPos
  dsimp only
  generalize IEEE.floorLog2 n d = e at hle ⊢
  by_cases hp : 0 ≤ 52 - max e (-1022)
  · rw [if_pos hp]
    obtain ⟨P, hP⟩ := Int.eq_ofNat_of_zero_le hp
    rw [hP, Int.toNat_ofNat, Rat.mkRat_eq_div]
    have herr := ieee_roundHalfEven_err (n * 2 ^ P) d hd
    push_cast at herr ⊢
    generalize ((IEEE.roundHalfEven (n * 2 ^ P) d : ℕ) : ℚ) = R at herr ⊢
    have hstep : |R / 2 ^ P - (n : ℚ) / d| ≤ 1 / (2 * 2 ^ P) := by
      have heq : R / 2 ^ P - (n : ℚ) / d = (R - (n : ℚ) * 2 ^ P / d) / 2 ^ P := by
        field_simp
        ring
      rw [heq, abs_div, abs_of_pos (h2 P), div_le_div_iff₀ (h2 P) (by positivity)]
      calc |R - (n : ℚ) * 2 ^ P / d| * (2 * 2 ^ P) ≤ 1 / 2 * (2 * 2 ^ P) :=
            mul_le_mul_of_nonneg_right herr (by positivity)
        _ = 1 * 2 ^ P := by ring
    refine le_trans hstep ?_
    by_cases he : -1022 ≤ e
    · have hmax : max e (-1022) = e := max_eq_left he
      rw [hmax] at hP
      have hee : e = 52 - (P : ℤ) := by omega
      have hpow : (2 : ℚ) ^ e = 2 ^ 52 / 2 ^ P := by
        rw [hee, zpow_sub₀ (by norm_num : (2 : ℚ) ≠ 0), zpow_natCast]
        norm_num
      rw [hpow] at hle
      have h3 : (1 : ℚ) / (2 * 2 ^ P) = 2 ^ 52 / 2 ^ P / 2 ^ 53 := by
        field_simp
        ring
      rw [h3]
      have h4 : (2 : ℚ) ^ 52 / 2 ^ P / 2 ^ 53 ≤ (n : ℚ) / d / 2 ^ 53 :=
        div_le_div_of_nonneg_right hle (by positivity)
      have h5 : (0 : ℚ) ≤ 1 / 2 ^ 1075 := by positivity
      linarith
    · have hmax : max e (-1022) = -1022 := max_eq_right (by omega)
      rw [hmax] at hP
      have hPe : P = 1074 := by omega
      subst hPe
      have h3 : (1 : ℚ) / (2 * 2 ^ 1074) = 1 / 2 ^ 1075 := by
        rw [← pow_succ']
      rw [h3]
      have h5 : (0 : ℚ) ≤ (n : ℚ) / d / 2 ^ 53 := by positivity
      linarith
  · rw [if_neg hp]
    have hp' : 0 ≤ -(52 - max e (-1022)) := by omega
    obtain ⟨P, hP⟩ := Int.eq_ofNat_of_zero_le hp'
    rw [hP, Int.toNat_ofNat]
    have hmax : max e (-1022) = e := by
      apply max_eq_left
      by_contra hcon
      rw [max_eq_right (by omega)] at hp
      omega
    rw [hmax] at hP
    have hee : e = ((52 + P : ℕ) : ℤ) := by
      push_cast
      omega
    have hpow : (2 : ℚ) ^ e = 2 ^ 52 * 2 ^ P := by
      rw [hee, zpow_natCast, pow_add]
    rw [hpow] at hle
    have herr := ieee_roundHalfEven_err n (d * 2 ^ P) (by positivity)
    push_cast at herr ⊢
    generalize ((IEEE.roundHalfEven n (d * 2 ^ P) : ℕ) : ℚ) = R at herr ⊢
    have heq : R * 2 ^ P - (n : ℚ) / d = (R - (n : ℚ) / (d * 2 ^ P)) * 2 ^ P := by
      field_simp
      ring
    rw [heq, abs_mul, abs_of_pos (h2 P)]
    have h3 : |R - (n : ℚ) / (d * 2 ^ P)| * 2 ^ P ≤ 1 / 2 * 2 ^ P :=
      mul_le_mul_of_nonneg_right herr (le_of_lt (h2 P))
    have h4 : (1 : ℚ) / 2 * 2 ^ P = 2 ^ 52 * 2 ^ P / 2 ^ 53 := by
      field_simp
      ring
    have h5 : (2 : ℚ) ^ 52 * 2 ^ P / 2 ^ 53 ≤ (n : ℚ) / d / 2 ^ 53 :=
      div_le_div_of_nonneg_right hle (by positivity)
    have h6 : (0 : ℚ) ≤ 1 / 2 ^ 1075 := by positivity
    linarith

/-- Rounding to the nearest double: the result is within half a unit in the last
place, that is within `2^(-53)` of the value relative to it, or within `2^(-1075)`
in the subnormal range. -/
theorem ieee_fl_err (q : ℚ) : |IEEE.fl q - q| ≤ |q| / 2 ^ 53 + 1 / 2 ^ 1075 := by
  unfold IEEE.fl
  by_cases h0 : q = 0
  · rw [if_pos h0, h0]
    norm_num
  · rw [if_neg h0]
    have hden : 0 < q.den := q.den_pos
    by_cases hpos : 0 < q
    · rw [if_pos hpos]
      have hnum : 0 < q.num := Rat.num_pos.2 hpos
      have hna : 0 < q.num.natAbs := Int.natAbs_pos.2 (ne_of_gt hnum)
      have hcast : ((q.num.natAbs : ℕ) : ℚ) / q.den = q := by
        rw [Nat.cast_natAbs, abs_of_pos hnum]
        exact Rat.num_div_den q
      have h := ieee_flPos_err q.num.natAbs q.den hna hden
      rw [hcast] at h
      rw [abs_of_pos hpos]
      exact h
    · rw [if_neg hpos]
      have hneg : q < 0 := lt_of_le_of_ne (not_lt.1 hpos) h0
      have hnum : q.num < 0 := Rat.num_neg.2 hneg
      have hna : 0 < q.num.natAbs := Int.natAbs_pos.2 (ne_of_lt hnum)
      have hcast : ((q.num.natAbs : ℕ) : ℚ) / q.den = -q := by
        rw [Nat.cast_natAbs, abs_of_neg hnum, Int.cast_neg, neg_div, Rat.num_div_den q]
      have h := ieee_flPos_err q.num.natAbs q.den hna hden
      rw [hcast] at h
      rw [abs_of_neg hneg]
      have h' : |-IEEE.flPos q.num.natAbs q.den - q| = |IEEE.flPos q.num.natAbs q.den - -q| := by
        rw [← abs_neg]
        congr 1
        ring
      rw [h']
      exact h

/-- The exponent `floorLog2 n d` is the binary exponent of `n / d`: the next power of
two is above the quotient. -/
theorem ieee_floorLog2_lt (n d : ℕ) (hn : 0 < n) (hd : 0 < d) :
    (n : ℚ) / d < (2 : ℚ) ^ (IEEE.floorLog2 n d + 1) := by
  obtain ⟨-, ha⟩ := ieee_log2_spec n hn
  obtain ⟨hb, -⟩ := ieee_log2_spec d hd
  have hdq : (0 : ℚ) < d := by exact_mod_cast hd
  have h2 : ∀ k : ℕ, (0 : ℚ) < 2 ^ k := fun k => by positivity
  unfold IEEE.floorLog2
  dsimp only
  generalize IEEE.log2 n = a at ha ⊢
  generalize IEEE.log2 d = b at hb ⊢
  split_ifs with hc
  · have hsub : (2 : ℚ) ^ ((a : ℤ) - (b : ℤ) + 1) = (2 : ℚ) ^ (a + 1) / (2 : ℚ) ^ b := by
      have : (a : ℤ) - (b : ℤ) + 1 = ((a + 1 : ℕ) : ℤ) - (b : ℤ) := by push_cast; ring
      rw [this, zpow_sub₀ (by norm_num : (2 : ℚ) ≠ 0), zpow_natCast, zpow_natCast]
    rw [hsub, div_lt_div_iff₀ hdq (h2 b)]
    have ha' : ((n : ℕ) : ℚ) < ((2 ^ (a + 1) : ℕ) : ℚ) := by exact_mod_cast ha
    have hb' : ((2 ^ b : ℕ) : ℚ) ≤ ((d : ℕ) : ℚ) := by exact_mod_cast hb
    push_cast at ha' hb'
    calc (n : ℚ) * 2 ^ b ≤ n * d := mul_le_mul_of_nonneg_left hb' (by positivity)
      _ < 2 ^ (a + 1) * d := mul_lt_mul_of_pos_right ha' hdq
  · have hsub : (2 : ℚ) ^ ((a : ℤ) - (b : ℤ) - 1 + 1) = (2 : ℚ) ^ a / (2 : ℚ) ^ b := by
      have : (a : ℤ) - (b : ℤ) - 1 + 1 = (a : ℤ) - (b : ℤ) := by ring
      rw [this, zpow_sub₀ (by norm_num : (2 : ℚ) ≠ 0), zpow_natCast, zpow_natCast]
    rw [hsub, div_lt_div_iff₀ hdq (h2 b)]
    have hc' : ((n * 2 ^ (b - a) : ℕ) : ℚ) < ((d * 2 ^ (a - b) : ℕ) : ℚ) := by
      exact_mod_cast not_le.1 hc
    push_cast at hc'
    rcases le_total a b with hab | hab
    · have e1 : a - b = 0 := Nat.sub_eq_zero_of_le hab
      have e2 : (2 : ℚ) ^ b = 2 ^ a * 2 ^ (b - a) := by
        rw [← pow_add]
        congr 1
        omega
      rw [e1, pow_zero, mul_one] at hc'
      rw [e2]
      calc (n : ℚ) * (2 ^ a * 2 ^ (b - a)) = 2 ^ a * (n * 2 ^ (b - a)) := by ring
        _ < 2 ^ a * d := mul_lt_mul_of_pos_left hc' (h2 a)
    · have e1 : b - a = 0 := Nat.sub_eq_zero_of_le hab
      have e2 : (2 : ℚ) ^ a = 2 ^ b * 2 ^ (a - b) := by
        rw [← pow_add]
        congr 1
        omega
      rw [e1, pow_zero, mul_one] at hc'
      rw [e2]
      calc (n : ℚ) * 2 ^ b < d * 2 ^ (a - b) * 2 ^ b := mul_lt_mul_of_pos_right hc' (h2 b)
        _ = 2 ^ b * 2 ^ (a - b) * d := by ring

/-- The rounded quotient lies between the quotient rounded down and rounded up, and
is even when the quotient is half-way between two natural numbers. -/
theorem ieee_roundHalfEven_spec (n d : ℕ) (hd : 0 < d) :
    n / d ≤ IEEE.roundHalfEven n d ∧ IEEE.roundHalfEven n d ≤ n / d + 1
    ∧ (n % d = 0 → IEEE.roundHalfEven n d = n / d)
    ∧ (|((IEEE.roundHalfEven n d : ℕ) : ℚ) - (n : ℚ) / d| = 1 / 2 →
        Even (IEEE.roundHalfEven n d)) := by
  have hdq : (0 : ℚ) < d := by exact_mod_cast hd
  have hn : (n : ℚ) = (d : ℚ) * ((n / d : ℕ) : ℚ) + ((n % d : ℕ) : ℚ) := by
    exact_mod_cast (Nat.div_add_mod n d).symm
  have hq : (n : ℚ) / d = ((n / d : ℕ) : ℚ) + ((n % d : ℕ) : ℚ) / d := by
    rw [div_eq_iff (ne_of_gt hdq), add_mul, div_mul_cancel₀ _ (ne_of_gt hdq)]
    linarith
  have hr0 : (0 : ℚ) ≤ ((n % d : ℕ) : ℚ) := by positivity
  unfold IEEE.roundHalfEven
  dsimp only
  refine ⟨?_, ?_, ?_, ?_⟩
  · split_ifs <;> omega
  · split_ifs <;> omega
  · intro h0
    rw [h0]
    simp [hd]
  · rw [hq]
    split_ifs with h1 h2 h3
    · intro h
      exfalso
      have h1' : (2 : ℚ) * ((n % d : ℕ) : ℚ) < d := by exact_mod_cast h1
      have hlt : ((n % d : ℕ) : ℚ) / d < 1 / 2 := by
        rw [div_lt_iff₀ hdq]
        linarith
      have hpos : 0 ≤ ((n % d : ℕ) : ℚ) / d := div_nonneg hr0 (le_of_lt hdq)
      have : |((n / d : ℕ) : ℚ) - (((n / d : ℕ) : ℚ) + ((n % d : ℕ) : ℚ) / d)|
          = ((n % d : ℕ) : ℚ) / d := by
        rw [sub_add_cancel_left, abs_neg, abs_of_nonneg hpos]
      rw [this] at h
      linarith
    · intro h
      exfalso
      have h2' : (d : ℚ) < 2 * ((n % d : ℕ) : ℚ) := by exact_mod_cast h2
      have hgt : 1 / 2 < ((n % d : ℕ) : ℚ) / d := by
        rw [lt_div_iff₀ hdq]
        linarith
      have hlt1 : ((n % d : ℕ) : ℚ) / d < 1 := by
        rw [div_lt_one hdq]
        exact_mod_cast Nat.mod_lt n hd
      have : |((n / d + 1 : ℕ) : ℚ) - (((n / d : ℕ) : ℚ) + ((n % d : ℕ) : ℚ) / d)|
          = 1 - ((n % d : ℕ) : ℚ) / d := by
        push_cast
        rw [abs_of_nonneg (by linarith)]
        ring
      rw [this] at h
      linarith
    · intro _
      exact Nat.even_iff.2 h3
    · intro _
      rw [Nat.even_add_one, Nat.even_iff]
      exact h3

/-- The double `flPos n d` lies on the grid of the doubles around `n / d`: it is
`m · 2^k` with a significand `m ≤ 2^53` that is at least `2^52` unless the exponent
is the least one, `-1074`; it is within half a grid step of `n / d`, and its
significand is even when `n / d` is half-way between two grid points. -/
theorem ieee_flPos_grid (n d : ℕ) (hn : 0 < n) (hd : 0 < d) :
    ∃ (m : ℕ) (k : ℤ), IEEE.flPos n d = m * (2 : ℚ) ^ k ∧ -1074 ≤ k ∧ m ≤ 2 ^ 53
      ∧ (k = -1074 ∨ 2 ^ 52 ≤ m)
      ∧ |IEEE.flPos n d - (n : ℚ) / d| ≤ (2 : ℚ) ^ k / 2
      ∧ (|IEEE.flPos n d - (n : ℚ) / d| = (2 : ℚ) ^ k / 2 → Even m) := by
  have hdq : (0 : ℚ) < d := by exact_mod_cast hd
  have hnq : (0 : ℚ) < n := by exact_mod_cast hn
  have h2 : ∀ k : ℕ, (0 : ℚ) < 2 ^ k := fun k => by positivity
  have hle := ieee_floorLog2_le n d hn hd
  have hlt := ieee_floorLog2_lt n d hn hd
  unfold IEEE.flPos
  dsimp only
  generalize IEEE.floorLog2 n d = e at hle hlt ⊢
  by_cases hp : 0 ≤ 52 - max e (-1022)
  · rw [if_pos hp]
    obtain ⟨P, hP⟩ := Int.eq_ofNat_of_zero_le hp
    rw [hP, Int.toNat_ofNat, Rat.mkRat_eq_div]
    have herr := ieee_roundHalfEven_err (n * 2 ^ P) d hd
    obtain ⟨hlo, hhi, -, htie⟩ := ieee_roundHalfEven_spec (n * 2 ^ P) d hd
    have hkpow : (2 : ℚ) ^ (-(P : ℤ)) = 1 / 2 ^ P := by
      rw [zpow_neg, zpow_natCast, one_div]
    have hPle : (P : ℤ) ≤ 1074 := by
      have : -1022 ≤ max e (-1022) := le_max_right _ _
      omega
    have heP : e + 1 ≤ 53 - (P : ℤ) := by
      have : e ≤ max e (-1022) := le_max_left _ _
      omega
    have hup : (n : ℚ) * 2 ^ P < 2 ^ 53 * d := by
      have h3 : (2 : ℚ) ^ (e + 1) ≤ (2 : ℚ) ^ (53 - (P : ℤ)) :=
        zpow_le_zpow_right₀ (by norm_num) heP
      have h4 : (2 : ℚ) ^ (53 - (P : ℤ)) = 2 ^ 53 / 2 ^ P := by
        rw [zpow_sub₀ (by norm_num : (2 : ℚ) ≠ 0), zpow_natCast]
        norm_num
      rw [h4] at h3
      have h5 : (n : ℚ) / d < 2 ^ 53 / 2 ^ P := lt_of_lt_of_le hlt h3
      rw [div_lt_div_iff₀ hdq (h2 P)] at h5
      exact h5
    have hupN : n * 2 ^ P / d < 2 ^ 53 := by
      rw [Nat.div_lt_iff_lt_mul hd]
      exact_mod_cast hup
    push_cast at herr htie
    refine ⟨IEEE.roundHalfEven (n * 2 ^ P) d, -(P : ℤ), ?_, by omega, by omega, ?_, ?_, ?_⟩
    · rw [hkpow]
      push_cast
      ring
    · by_cases he : -1022 ≤ e
      · right
        have hmax : max e (-1022) = e := max_eq_left he
        rw [hmax] at hP
        have hee : e = 52 - (P : ℤ) := by omega
        have hpow : (2 : ℚ) ^ e = 2 ^ 52 / 2 ^ P := by
          rw [hee, zpow_sub₀ (by norm_num : (2 : ℚ) ≠ 0), zpow_natCast]
          norm_num
        rw [hpow, div_le_div_iff₀ (h2 P) hdq] at hle
        have hloN : 2 ^ 52 ≤ n * 2 ^ P / d := by
          rw [Nat.le_div_iff_mul_le hd]
          exact_mod_cast hle
        omega
      · left
        have hmax : max e (-1022) = -1022 := max_eq_right (by omega)
        rw [hmax] at hP
        omega
    · have heq : ((IEEE.roundHalfEven (n * 2 ^ P) d : ℕ) : ℚ) / 2 ^ P - (n : ℚ) / d
          = (((IEEE.roundHalfEven (n * 2 ^ P) d : ℕ) : ℚ) - (n : ℚ) * 2 ^ P / d) / 2 ^ P := by
        field_simp
        ring
      push_cast
      rw [hkpow, heq, abs_div, abs_of_pos (h2 P)]
      rw [div_div, div_le_div_iff₀ (h2 P) (by positivity)]
      calc |((IEEE.roundHalfEven (n * 2 ^ P) d : ℕ) : ℚ) - (n : ℚ) * 2 ^ P / d| * (2 ^ P * 2)
            ≤ 1 / 2 * (2 ^ P * 2) := mul_le_mul_of_nonneg_right herr (by positivity)
        _ = 1 * 2 ^ P := by ring
    · intro htie'
      apply htie
      have heq : ((IEEE.roundHalfEven (n * 2 ^ P) d : ℕ) : ℚ) / 2 ^ P - (n : ℚ) / d
          = (((IEEE.roundHalfEven (n * 2 ^ P) d : ℕ) : ℚ) - (n : ℚ) * 2 ^ P / d) / 2 ^ P := by
        field_simp
        ring
      push_cast at htie'
      rw [hkpow, heq, abs_div, abs_of_pos (h2 P), div_div,
        div_eq_div_iff (ne_of_gt (h2 P)) (by positivity)] at htie'
      have h2P := h2 P
      nlinarith [htie', h2P]
  · rw [if_neg hp]
    have hp' : 0 ≤ -(52 - max e (-1022)) := by omega
    obtain ⟨P, hP⟩ := Int.eq_ofNat_of_zero_le hp'
    rw [hP, Int.toNat_ofNat]
    have hmax : max e (-1022) = e := by
      apply max_eq_left
      by_contra hcon
      rw [max_eq_right (by omega)] at hp
      omega
    rw [hmax] at hP
    have hee : e = ((52 + P : ℕ) : ℤ) := by
      push_cast
      omega
    have hpow : (2 : ℚ) ^ e = 2 ^ 52 * 2 ^ P := by
      rw [hee, zpow_natCast, pow_add]
    have hpow1 : (2 : ℚ) ^ (e + 1) = 2 ^ 53 * 2 ^ P := by
      have : e + 1 = ((53 + P : ℕ) : ℤ) := by
        push_cast
        omega
      rw [this, zpow_natCast, pow_add]
    rw [hpow] at hle
    rw [hpow1] at hlt
    have hdP : 0 < d * 2 ^ P := by positivity
    have hdPq : (0 : ℚ) < (d : ℚ) * 2 ^ P := by positivity
    have herr := ieee_roundHalfEven_err n (d * 2 ^ P) hdP
    obtain ⟨hlo, hhi, -, htie⟩ := ieee_roundHalfEven_spec n (d * 2 ^ P) hdP
    have hupN : n / (d * 2 ^ P) < 2 ^ 53 := by
      rw [Nat.div_lt_iff_lt_mul hdP]
      rw [div_lt_iff₀ hdq] at hlt
      have : (n : ℚ) < 2 ^ 53 * (d * 2 ^ P) := by linarith
      exact_mod_cast this
    have hloN : 2 ^ 52 ≤ n / (d * 2 ^ P) := by
      rw [Nat.le_div_iff_mul_le hdP]
      rw [le_div_iff₀ hdq] at hle
      have : (2 : ℚ) ^ 52 * (d * 2 ^ P) ≤ n := by linarith
      exact_mod_cast this
    push_cast at herr htie
    have heq : ((IEEE.roundHalfEven n (d * 2 ^ P) : ℕ) : ℚ) * 2 ^ P - (n : ℚ) / d
        = (((IEEE.roundHalfEven n (d * 2 ^ P) : ℕ) : ℚ) - (n : ℚ) / (d * 2 ^ P)) * 2 ^ P := by
      field_simp
      ring
    refine ⟨IEEE.roundHalfEven n (d * 2 ^ P), (P : ℤ), ?_, by omega, by omega,
      Or.inr (by omega), ?_, ?_⟩
    · rw [zpow_natCast]
      push_cast
      ring
    · push_cast
      rw [zpow_natCast, heq, abs_mul, abs_of_pos (h2 P)]
      have := mul_le_mul_of_nonneg_right herr (le_of_lt (h2 P))
      linarith
    · intro htie'
      apply htie
      push_cast at htie'
      rw [zpow_natCast, heq, abs_mul, abs_of_pos (h2 P)] at htie'
      have h2P := h2 P
      have : (|((IEEE.roundHalfEven n (d * 2 ^ P) : ℕ) : ℚ) - (n : ℚ) / (d * 2 ^ P)| - 1 / 2)
          * 2 ^ P = 0 := by linarith
      rcases mul_eq_zero.1 this with h | h
      · linarith
      · exact absurd h (ne_of_gt h2P)

/-- The function `fl` rounds to the nearest double, ties to even: `fl q` is `± m · 2^k`
with a significand `m ≤ 2^53` that is at least `2^52` unless the exponent is the
least one, `-1074`; it is within half a grid step `2^k` of `q`, and its significand
is even when `q` is half-way between two doubles. -/
theorem ieee_fl_grid (q : ℚ) (hq : q ≠ 0) :
    ∃ (m : ℕ) (k : ℤ), |IEEE.fl q| = m * (2 : ℚ) ^ k ∧ -1074 ≤ k ∧ m ≤ 2 ^ 53
      ∧ (k = -1074 ∨ 2 ^ 52 ≤ m)
      ∧ |IEEE.fl q - q| ≤ (2 : ℚ) ^ k / 2
      ∧ (|IEEE.fl q - q| = (2 : ℚ) ^ k / 2 → Even m) := by
  have hden : 0 < q.den := q.den_pos
  unfold IEEE.fl
  rw [if_neg hq]
  by_cases hpos : 0 < q
  · rw [if_pos hpos]
    have hnum : 0 < q.num := Rat.num_pos.2 hpos
    have hna : 0 < q.num.natAbs := Int.natAbs_pos.2 (ne_of_gt hnum)
    have hcast : ((q.num.natAbs : ℕ) : ℚ) / q.den = q := by
      rw [Nat.cast_natAbs, abs_of_pos hnum]
      exact Rat.num_div_den q
    obtain ⟨m, k, h1, h2, h3, h4, h5, h6⟩ := ieee_flPos_grid q.num.natAbs q.den hna hden
    rw [hcast] at h5 h6
    refine ⟨m, k, ?_, h2, h3, h4, h5, h6⟩
    rw [h1, abs_of_nonneg (by positivity)]
  · rw [if_neg hpos]
    have hneg : q < 0 := lt_of_le_of_ne (not_lt.1 hpos) hq
    have hnum : q.num < 0 := Rat.num_neg.2 hneg
    have hna : 0 < q.num.natAbs := Int.natAbs_pos.2 (ne_of_lt hnum)
    have hcast : ((q.num.natAbs : ℕ) : ℚ) / q.den = -q := by
      rw [Nat.cast_natAbs, abs_of_neg hnum, Int.cast_neg, neg_div, Rat.num_div_den q]
    obtain ⟨m, k, h1, h2, h3, h4, h5, h6⟩ := ieee_flPos_grid q.num.natAbs q.den hna hden
    rw [hcast] at h5 h6
    have h' : |-IEEE.flPos q.num.natAbs q.den - q| = |IEEE.flPos q.num.natAbs q.den - -q| := by
      rw [← abs_neg]
      congr 1
      ring
    rw [h']
    refine ⟨m, k, ?_, h2, h3, h4, h5, h6⟩
    rw [abs_neg, h1, abs_of_nonneg (by positivity)]

/-- No multiple of `1/100` rounds to the double `0.125`. -/
theorem ieee_no_centesimal_rounds_to_eighth (k : ℤ) : IEEE.fl ((k : ℚ) / 100) ≠ 1 / 8 := by
  intro h
  have herr := ieee_fl_err ((k : ℚ) / 100)
  rw [h] at herr
  have hη : (1 : ℚ) / 2 ^ 1075 ≤ 1 / 2 ^ 53 := by
    apply one_div_le_one_div_of_le (by positivity)
    exact pow_le_pow_right₀ (by norm_num) (by norm_num)
  have hε : (1 : ℚ) / 2 ^ 53 ≤ 1 / 1000000 := by norm_num
  rcases le_or_lt k 12 with hk | hk
  · have hkq : (k : ℚ) ≤ 12 := by exact_mod_cast hk
    rcases le_or_lt 0 k with h0 | h0
    · have h0q : (0 : ℚ) ≤ k := by exact_mod_cast h0
      rw [abs_of_nonneg (by linarith), abs_of_nonneg (by positivity)] at herr
      have : (k : ℚ) / 100 / 2 ^ 53 ≤ 12 / 100 * (1 / 2 ^ 53) := by
        rw [div_eq_mul_one_div ((k : ℚ) / 100)]
        apply mul_le_mul_of_nonneg_right _ (by positivity)
        linarith
      linarith
    · have h0q : (k : ℚ) < 0 := by exact_mod_cast h0
      rw [abs_of_nonneg (by linarith), abs_of_neg (by linarith)] at herr
      have : -((k : ℚ) / 100) / 2 ^ 53 ≤ -((k : ℚ) / 100) * (1 / 1000000) := by
        rw [div_eq_mul_one_div (-((k : ℚ) / 100))]
        apply mul_le_mul_of_nonneg_left hε
        linarith
      linarith
  · have hkq : (13 : ℚ) ≤ k := by exact_mod_cast hk
    rw [abs_of_nonpos (by linarith), abs_of_nonneg (by positivity)] at herr
    have : (k : ℚ) / 100 / 2 ^ 53 ≤ (k : ℚ) / 100 * (1 / 1000000) := by
      rw [div_eq_mul_one_div ((k : ℚ) / 100)]
      apply mul_le_mul_of_nonneg_left hε
      positivity
    linarith

/-! ## Theorems: the collision engine in double arithmetic -/

theorem ieee_div_of_ne_zero (a b : ℚ) (hb : b ≠ 0) :
    IEEE.div a b = FVal.num (IEEE.fl (a / b)) := by
  simp [IEEE.div, hb]

theorem ieee_div_zero (a : ℚ) :
    IEEE.div a 0 = if a = 0 then FVal.nan else if 0 < a then FVal.posInf else FVal.negInf := by
  simp [IEEE.div]

theorem ieee_div_zero_not_num (a t : ℚ) : IEEE.div a 0 ≠ FVal.num t := by
  rw [ieee_div_zero]
  split_ifs <;> simp

/-- When `IsCollected` accepts the result of `TryCollectPoint`, both values are finite:
a zero divisor makes the ratio an infinity or NaN, which fails the test. -/
theorem ieee_IsCollected_iff (a b c : Point2D) (collect_radius : ℚ) :
    IEEE.IsCollected (IEEE.TryCollectPoint a b c) collect_radius = true ↔
      ∃ t d2 : ℚ, (IEEE.TryCollectPoint a b c).proj_ratio = FVal.num t
        ∧ (IEEE.TryCollectPoint a b c).sq_distance = FVal.num d2
        ∧ 0 ≤ t ∧ t ≤ 1 ∧ d2 ≤ IEEE.mul collect_radius collect_radius := by
  unfold IEEE.IsCollected IEEE.TryCollectPoint
  dsimp only
  generalize IEEE.add (IEEE.mul (IEEE.sub b.x a.x) (IEEE.sub b.x a.x))
    (IEEE.mul (IEEE.sub b.y a.y) (IEEE.sub b.y a.y)) = v_len2
  generalize IEEE.add (IEEE.mul (IEEE.sub c.x a.x) (IEEE.sub b.x a.x))
    (IEEE.mul (IEEE.sub c.y a.y) (IEEE.sub b.y a.y)) = u_dot_v
  generalize IEEE.add (IEEE.mul (IEEE.sub c.x a.x) (IEEE.sub c.x a.x))
    (IEEE.mul (IEEE.sub c.y a.y) (IEEE.sub c.y a.y)) = u_len2
  by_cases hv : v_len2 = 0
  · subst hv
    constructor
    · intro h
      rw [ieee_div_zero u_dot_v] at h
      split_ifs at h <;> simp [FVal.le] at h
    · rintro ⟨t, d2, ht, -⟩
      exact absurd ht (ieee_div_zero_not_num _ _)
  · simp only [ieee_div_of_ne_zero _ _ hv, IEEE.rsub, FVal.le, Bool.and_eq_true,
      decide_eq_true_eq, FVal.num.injEq]
    constructor
    · rintro ⟨⟨h1, h2⟩, h3⟩
      exact ⟨_, _, rfl, rfl, h1, h2, h3⟩
    · rintro ⟨t, d2, rfl, rfl, h1, h2, h3⟩
      exact ⟨⟨h1, h2⟩, h3⟩

instance (g : Gatherer) (it : Item) : Decidable (IEEE.specCollects g it) :=
  decidable_of_iff _ (ieee_IsCollected_iff g.start_pos g.end_pos it.position
    (IEEE.add (IEEE.fl (g.width / 2)) (IEEE.fl (it.width / 2))))

theorem ieee_gatherEventAt_eq_some (provider : ItemGathererProvider) (g i : ℕ)
    (e : GatheringEvent) :
    IEEE.gatherEventAt provider g i = some e ↔
      IEEE.specCollects (provider.GetGatherer g) (provider.GetItem i)
      ∧ e = { item_id := i, gatherer_id := g
              sq_distance := (IEEE.TryCollectPoint (provider.GetGatherer g).start_pos
                (provider.GetGatherer g).end_pos (provider.GetItem i).position).sq_distance
              time := (IEEE.TryCollectPoint (provider.GetGatherer g).start_pos
                (provider.GetGatherer g).end_pos (provider.GetItem i).position).proj_ratio } := by
  unfold IEEE.gatherEventAt IEEE.specCollects
  dsimp only
  rw [← ieee_IsCollected_iff]
  constructor
  · intro h
    split_ifs at h with hc
    exact ⟨hc, by simpa using h.symm⟩
  · rintro ⟨hc, rfl⟩
    rw [if_pos hc]

theorem ieee_mem_collectEvents (provider : ItemGathererProvider) (e : GatheringEvent) :
    e ∈ IEEE.collectEvents provider ↔
      e.gatherer_id < provider.GatherersCount ∧ e.item_id < provider.ItemsCount
      ∧ IEEE.gatherEventAt provider e.gatherer_id e.item_id = some e := by
  unfold IEEE.collectEvents
  simp only [List.mem_flatMap, List.mem_filterMap, List.mem_range]
  constructor
  · rintro ⟨g, hg, i, hi, h⟩
    have h' := (ieee_gatherEventAt_eq_some provider g i e).1 h
    obtain ⟨-, rfl⟩ := h'
    exact ⟨hg, hi, h⟩
  · rintro ⟨hg, hi, h⟩
    exact ⟨_, hg, _, hi, h⟩

theorem ieee_collectEvents_keys_nodup (provider : ItemGathererProvider) :
    ((IEEE.collectEvents provider).map (fun e => (e.gatherer_id, e.item_id))).Nodup := by
  unfold IEEE.collectEvents
  rw [List.map_flatMap, List.nodup_flatMap]
  constructor
  · intro g _
    rw [List.map_filterMap]
    refine List.Nodup.filterMap ?_ (List.nodup_range _)
    intro i i' k hk hk'
    simp only [Option.mem_def, Option.map_eq_some'] at hk hk'
    obtain ⟨e, he, rfl⟩ := hk
    obtain ⟨e', he', hk'⟩ := hk'
    obtain ⟨-, rfl⟩ := (ieee_gatherEventAt_eq_some provider g i e).1 he
    obtain ⟨-, rfl⟩ := (ieee_gatherEventAt_eq_some provider g i' e').1 he'
    simp only [Prod.mk.injEq] at hk'
    exact hk'.2.symm
  · refine List.Pairwise.imp_of_mem ?_ (List.nodup_range provider.GatherersCount)
    intro g g' _ _ hne
    simp only [Function.onFun, List.Disjoint, List.mem_map, List.mem_filterMap]
    rintro k ⟨e, ⟨i, -, he⟩, rfl⟩ ⟨e', ⟨i', -, he'⟩, hk⟩
    obtain ⟨-, rfl⟩ := (ieee_gatherEventAt_eq_some provider g i e).1 he
    obtain ⟨-, rfl⟩ := (ieee_gatherEventAt_eq_some provider g' i' e').1 he'
    simp only [Prod.mk.injEq] at hk
    exact hne hk.1.symm

theorem ieee_exists_event_iff (provider : ItemGathererProvider) (g i : ℕ)
    (hg : g < provider.GatherersCount) (hi : i < provider.ItemsCount) :
    (∃ e ∈ IEEE.FindGatherEvents provider, e.gatherer_id = g ∧ e.item_id = i)
      ↔ IEEE.specCollects (provider.GetGatherer g) (provider.GetItem i) := by
  have hperm : (IEEE.FindGatherEvents provider).Perm (IEEE.collectEvents provider) :=
    List.perm_insertionSort _ _
  constructor
  · rintro ⟨e, he, rfl, rfl⟩
    obtain ⟨-, -, h⟩ := (ieee_mem_collectEvents provider e).1 (hperm.mem_iff.1 he)
    exact ((ieee_gatherEventAt_eq_some provider _ _ e).1 h).1
  · intro hc
    obtain ⟨e, hsome, heg, hei⟩ : ∃ e, IEEE.gatherEventAt provider g i = some e
        ∧ e.gatherer_id = g ∧ e.item_id = i :=
      ⟨_, (ieee_gatherEventAt_eq_some provider g i _).2 ⟨hc, rfl⟩, rfl, rfl⟩
    refine ⟨e, hperm.mem_iff.2 ((ieee_mem_collectEvents provider e).2 ?_), heg, hei⟩
    rw [heg, hei]
    exact ⟨hg, hi, hsome⟩

/-- The geometry of the two formulas of `TryCollectPoint` in exact arithmetic: for
`a ≠ b`, `a + t·(b − a)` is the orthogonal projection of `c` onto the line `ab` and
`d2` is the squared distance of `c` from it. -/
theorem projection_geometry (a b c : Point2D) (hab : a ≠ b) :
    (c.x - (a.x + specProjRatio a b c * (b.x - a.x))) * (b.x - a.x)
        + (c.y - (a.y + specProjRatio a b c * (b.y - a.y))) * (b.y - a.y) = 0
    ∧ specSqDistance a b c
        = (c.x - (a.x + specProjRatio a b c * (b.x - a.x))) ^ 2
          + (c.y - (a.y + specProjRatio a b c * (b.y - a.y))) ^ 2
    ∧ 0 ≤ specSqDistance a b c := by
  have hv := sq_add_sq_ne_zero_of_ne hab
  have hv2 : (b.x - a.x) ^ 2 + (b.y - a.y) ^ 2 ≠ 0 := by
    intro h
    apply hv
    nlinarith [h]
  have h2 : specSqDistance a b c
      = (c.x - (a.x + specProjRatio a b c * (b.x - a.x))) ^ 2
        + (c.y - (a.y + specProjRatio a b c * (b.y - a.y))) ^ 2 := by
    unfold specSqDistance specProjRatio
    field_simp
    ring
  refine ⟨?_, h2, ?_⟩
  · unfold specProjRatio
    field_simp
    ring
  · rw [h2]
    positivity

/-- Where no operation rounds, the doubles `TryCollectPoint` computes are the exact
values of the two formulas. -/
theorem ieee_TryCollectPoint_of_RoundsNowhere (a b c : Point2D) (hab : a ≠ b)
    (hex : IEEE.RoundsNowhere a b c) :
    IEEE.TryCollectPoint a b c
      = { sq_distance := FVal.num (specSqDistance a b c)
          proj_ratio := FVal.num (specProjRatio a b c) } := by
  have hv := sq_add_sq_ne_zero_of_ne hab
  unfold IEEE.RoundsNowhere IEEE.IsDouble at hex
  dsimp only at hex
  obtain ⟨h1, h2, h3, h4, h5, h6, h7, h8, h9, h10, h11, h12, h13, h14, h15, h16, h17⟩ := hex
  unfold IEEE.TryCollectPoint IEEE.sub IEEE.add IEEE.mul
  dsimp only
  rw [h1, h2, h3, h4, h5, h6, h7, h8, h9, h10, h11, h12, h13, h15,
    ieee_div_of_ne_zero _ _ hv, ieee_div_of_ne_zero _ _ hv, h14, h16]
  simp only [IEEE.rsub]
  rw [h17]
  simp only [specSqDistance, specProjRatio, sq]

theorem ieee_quarter : IEEE.fl ((1 / 2 : ℚ) / 2) = 1 / 4 := by decide!

theorem ieee_InCorridor_of_horizontal (r : Road) (p : MapPoint) (h : r.IsHorizontal = true) :
    IEEE.InCorridor r p ↔
      (|IEEE.sub p.y (r.GetStart.y : ℚ)| ≤ IEEE.ROAD_RADIUS
        ∧ p.x ≥ IEEE.sub ((min r.GetStart.x r.GetEnd.x : ℤ) : ℚ) IEEE.ROAD_RADIUS
        ∧ p.x ≤ IEEE.add ((max r.GetStart.x r.GetEnd.x : ℤ) : ℚ) IEEE.ROAD_RADIUS) := by
  unfold IEEE.InCorridor
  rw [if_pos h]

theorem ieee_InCorridor_of_vertical (r : Road) (p : MapPoint) (h : r.IsHorizontal = false)
    (hv : r.IsVertical = true) :
    IEEE.InCorridor r p ↔
      (|IEEE.sub p.x (r.GetStart.x : ℚ)| ≤ IEEE.ROAD_RADIUS
        ∧ p.y ≥ IEEE.sub ((min r.GetStart.y r.GetEnd.y : ℤ) : ℚ) IEEE.ROAD_RADIUS
        ∧ p.y ≤ IEEE.add ((max r.GetStart.y r.GetEnd.y : ℤ) : ℚ) IEEE.ROAD_RADIUS) := by
  unfold IEEE.InCorridor
  rw [h, hv]
  simp only [Bool.false_eq_true, if_false, if_true]

/-- A road whose corridor test fails leaves the loop state alone. -/
theorem ieee_moveStep_of_not_InCorridor (time : ℚ) (road : Road) (s : MoveState)
    (h : ¬ IEEE.InCorridor road s.pos_) : IEEE.moveStep time road s = (s, false) := by
  unfold IEEE.moveStep
  by_cases hH : road.IsHorizontal = true
  · rw [if_pos hH]
    rw [ieee_InCorridor_of_horizontal road s.pos_ hH] at h
    unfold IEEE.moveOnHorizontal
    simp only [if_neg h]
  · rw [if_neg hH]
    by_cases hV : road.IsVertical = true
    · rw [if_pos hV]
      rw [ieee_InCorridor_of_vertical road s.pos_ (by simpa using hH) hV] at h
      unfold IEEE.moveOnVertical
      simp only [if_neg h]
    · rw [if_neg hV]

theorem ieee_moveLoop_skip (time : ℚ) (rest : List Road) (s : MoveState) :
    ∀ pre : List Road, (∀ r ∈ pre, ¬ IEEE.InCorridor r s.pos_) →
      IEEE.moveLoop time (pre ++ rest) s = IEEE.moveLoop time rest s
  | [], _ => rfl
  | r :: pre, h => by
    rw [List.cons_append, IEEE.moveLoop,
      ieee_moveStep_of_not_InCorridor time r s (h r (List.mem_cons_self _ _))]
    simp only [Bool.false_eq_true, if_false]
    exact ieee_moveLoop_skip time rest s pre (fun r' hr' => h r' (List.mem_cons_of_mem _ hr'))

theorem ieee_moveLoop_all_skip (time : ℚ) (s : MoveState) (roads : List Road)
    (h : ∀ r ∈ roads, ¬ IEEE.InCorridor r s.pos_) : IEEE.moveLoop time roads s = s := by
  have := ieee_moveLoop_skip time [] s roads h
  rw [List.append_nil] at this
  rw [this]
  rfl

/-- On a road along the direction of travel whose corridor holds the dog the loop
ends with `break`. -/
theorem ieee_moveStep_break_of_along (time : ℚ) (road : Road) (s : MoveState)
    (hin : IEEE.InCorridor road s.pos_) (hpar : AlongRoad road s.speed_) :
    (IEEE.moveStep time road s).2 = true := by
  unfold IEEE.moveStep
  rcases hpar with ⟨hH, hdx⟩ | ⟨hH, hV, hdy⟩
  · rw [if_pos hH]
    rw [ieee_InCorridor_of_horizontal road s.pos_ hH] at hin
    unfold IEEE.moveOnHorizontal
    simp only [if_pos hin]
    rcases lt_or_gt_of_ne hdx with hneg | hpos
    · have hnp : ¬ s.speed_.dx > 0 := not_lt.2 (le_of_lt hneg)
      simp only [if_neg hnp, if_pos hneg]
      split_ifs <;> rfl
    · simp only [if_pos hpos]
      split_ifs <;> rfl
  · rw [hH, hV]
    simp only [Bool.false_eq_true, if_false, if_true]
    rw [ieee_InCorridor_of_vertical road s.pos_ hH hV] at hin
    unfold IEEE.moveOnVertical
    simp only [if_pos hin]
    rcases lt_or_gt_of_ne hdy with hneg | hpos
    · have hnp : ¬ s.speed_.dy > 0 := not_lt.2 (le_of_lt hneg)
      simp only [if_neg hnp, if_pos hneg]
      split_ifs <;> rfl
    · simp only [if_pos hpos]
      split_ifs <;> rfl

/-- On a road that does not run along the direction of travel the loop goes on. -/
theorem ieee_moveStep_no_break (time : ℚ) (road : Road) (s : MoveState)
    (hpar : ¬ AlongRoad road s.speed_) : (IEEE.moveStep time road s).2 = false := by
  unfold AlongRoad at hpar
  unfold IEEE.moveStep
  by_cases hH : road.IsHorizontal = true
  · have hdx : s.speed_.dx = 0 := by
      by_contra hne
      exact hpar (Or.inl ⟨hH, hne⟩)
    rw [if_pos hH]
    unfold IEEE.moveOnHorizontal
    dsimp only
    simp only [hdx, gt_iff_lt, lt_irrefl, if_false]
    split_ifs <;> rfl
  · have hH' : road.IsHorizontal = false := by simpa using hH
    rw [if_neg hH]
    by_cases hV : road.IsVertical = true
    · have hdy : s.speed_.dy = 0 := by
        by_contra hne
        exact hpar (Or.inr ⟨hH', hV, hne⟩)
      rw [if_pos hV]
      unfold IEEE.moveOnVertical
      dsimp only
      simp only [hdy, gt_iff_lt, lt_irrefl, if_false]
      split_ifs <;> rfl
    · rw [if_neg hV]

theorem ieee_moveLoop_first_along (time : ℚ) (pre post : List Road) (road : Road)
    (s : MoveState) (hpre : ∀ r ∈ pre, ¬ IEEE.InCorridor r s.pos_)
    (hin : IEEE.InCorridor road s.pos_) (hpar : AlongRoad road s.speed_) :
    IEEE.moveLoop time (pre ++ road :: post) s = (IEEE.moveStep time road s).1 := by
  rw [ieee_moveLoop_skip time _ s pre hpre, IEEE.moveLoop,
    ieee_moveStep_break_of_along time road s hin hpar]
  simp

theorem ieee_moveLoop_first_across (time : ℚ) (pre post : List Road) (road : Road)
    (s : MoveState) (hpre : ∀ r ∈ pre, ¬ IEEE.InCorridor r s.pos_)
    (hpar : ¬ AlongRoad road s.speed_) :
    IEEE.moveLoop time (pre ++ road :: post) s
      = IEEE.moveLoop time post (IEEE.moveStep time road s).1 := by
  rw [ieee_moveLoop_skip time _ s pre hpre, IEEE.moveLoop,
    ieee_moveStep_no_break time road s hpar]
  simp

theorem ieee_moveStep_of_still (time : ℚ) (road : Road) (s : MoveState)
    (hdx : s.speed_.dx = 0) (hdy : s.speed_.dy = 0) :
    IEEE.moveStep time road s = (s, false) := by
  unfold IEEE.moveStep IEEE.moveOnHorizontal IEEE.moveOnVertical
  simp only [hdx, hdy, gt_iff_lt, lt_irrefl, if_false, ne_eq, not_true_eq_false, ite_self]

theorem ieee_moveLoop_of_still (time : ℚ) (s : MoveState)
    (hdx : s.speed_.dx = 0) (hdy : s.speed_.dy = 0) :
    ∀ roads : List Road, IEEE.moveLoop time roads s = s
  | [] => rfl
  | r :: roads => by
    rw [IEEE.moveLoop, ieee_moveStep_of_still time r s hdx hdy]
    simp only [Bool.false_eq_true, if_false]
    exact ieee_moveLoop_of_still time s hdx hdy roads

theorem ieee_Move_eq_of_first_along (d : Dog) (time : ℚ) (pre post : List Road) (road : Road)
    (hpre : ∀ r ∈ pre, ¬ IEEE.InCorridor r d.pos_) (hin : IEEE.InCorridor road d.pos_)
    (hpar : AlongRoad road d.speed_) :
    IEEE.Move d time (pre ++ road :: post) = IEEE.Move d time [road] := by
  have h1 := ieee_moveLoop_first_along time pre post road (IEEE.moveStart d) hpre hin hpar
  have h2 := ieee_moveLoop_first_along time [] [] road (IEEE.moveStart d) (by simp) hin hpar
  rw [List.nil_append] at h2
  unfold IEEE.Move
  rw [h1, h2]

theorem ieee_forward_x (s : MoveState) (cand hi : ℚ) (r : MoveState × Bool)
    (hr : r =
      (let distance := min cand hi
       let s1 := { s with pos_ := { s.pos_ with x := distance } }
       if distance ≥ hi then
         ({ s1 with at_bound := true, speed_ := { s1.speed_ with dx := 0 } }, true)
       else ({ s1 with at_bound := false }, true))) :
    r.2 = true ∧ r.1.pos_.y = s.pos_.y ∧ r.1.pos_.x = min cand hi
    ∧ (if r.1.at_bound then ({ dx := 0, dy := 0 } : MapSpeed) else r.1.speed_)
        = (if hi ≤ cand then { dx := 0, dy := 0 } else s.speed_) := by
  subst hr
  dsimp only
  by_cases hb : hi ≤ cand
  · have hb' : min cand hi ≥ hi := le_min hb le_rfl
    rw [if_pos hb', if_pos hb]
    exact ⟨rfl, rfl, rfl, rfl⟩
  · have hb' : ¬ min cand hi ≥ hi := fun hle => hb (le_trans hle (min_le_left _ _))
    rw [if_neg hb', if_neg hb]
    exact ⟨rfl, rfl, rfl, rfl⟩

theorem ieee_backward_x (s : MoveState) (cand lo : ℚ) (r : MoveState × Bool)
    (hr : r =
      (let distance := max cand lo
       let s1 := { s with pos_ := { s.pos_ with x := distance } }
       if distance ≤ lo then
         ({ s1 with at_bound := true, speed_ := { s1.speed_ with dx := 0 } }, true)
       else ({ s1 with at_bound := false }, true))) :
    r.2 = true ∧ r.1.pos_.y = s.pos_.y ∧ r.1.pos_.x = max cand lo
    ∧ (if r.1.at_bound then ({ dx := 0, dy := 0 } : MapSpeed) else r.1.speed_)
        = (if cand ≤ lo then { dx := 0, dy := 0 } else s.speed_) := by
  subst hr
  dsimp only
  by_cases hb : cand ≤ lo
  · have hb' : max cand lo ≤ lo := max_le hb le_rfl
    rw [if_pos hb', if_pos hb]
    exact ⟨rfl, rfl, rfl, rfl⟩
  · have hb' : ¬ max cand lo ≤ lo := fun hle => hb (le_trans (le_max_left _ _) hle)
    rw [if_neg hb', if_neg hb]
    exact ⟨rfl, rfl, rfl, rfl⟩

theorem ieee_forward_y (s : MoveState) (cand hi : ℚ) (r : MoveState × Bool)
    (hr : r =
      (let distance := min cand hi
       let s1 := { s with pos_ := { s.pos_ with y := distance } }
       if distance ≥ hi then
         ({ s1 with at_bound := true, speed_ := { s1.speed_ with dy := 0 } }, true)
       else ({ s1 with at_bound := false }, true))) :
    r.2 = true ∧ r.1.pos_.x = s.pos_.x ∧ r.1.pos_.y = min cand hi
    ∧ (if r.1.at_bound then ({ dx := 0, dy := 0 } : MapSpeed) else r.1.speed_)
        = (if hi ≤ cand then { dx := 0, dy := 0 } else s.speed_) := by
  subst hr
  dsimp only
  by_cases hb : hi ≤ cand
  · have hb' : min cand hi ≥ hi := le_min hb le_rfl
    rw [if_pos hb', if_pos hb]
    exact ⟨rfl, rfl, rfl, rfl⟩
  · have hb' : ¬ min cand hi ≥ hi := fun hle => hb (le_trans hle (min_le_left _ _))
    rw [if_neg hb', if_neg hb]
    exact ⟨rfl, rfl, rfl, rfl⟩

theorem ieee_backward_y (s : MoveState) (cand lo : ℚ) (r : MoveState × Bool)
    (hr : r =
      (let distance := max cand lo
       let s1 := { s with pos_ := { s.pos_ with y := distance } }
       if distance ≤ lo then
         ({ s1 with at_bound := true, speed_ := { s1.speed_ with dy := 0 } }, true)
       else ({ s1 with at_bound := false }, true))) :
    r.2 = true ∧ r.1.pos_.x = s.pos_.x ∧ r.1.pos_.y = max cand lo
    ∧ (if r.1.at_bound then ({ dx := 0, dy := 0 } : MapSpeed) else r.1.speed_)
        = (if cand ≤ lo then { dx := 0, dy := 0 } else s.speed_) := by
  subst hr
  dsimp only
  by_cases hb : cand ≤ lo
  · have hb' : max cand lo ≤ lo := max_le hb le_rfl
    rw [if_pos hb', if_pos hb]
    exact ⟨rfl, rfl, rfl, rfl⟩
  · have hb' : ¬ max cand lo ≤ lo := fun hle => hb (le_trans (le_max_left _ _) hle)
    rw [if_neg hb', if_neg hb]
    exact ⟨rfl, rfl, rfl, rfl⟩

/-- The loop of `Dog::Move` over a single horizontal road whose corridor holds the dog,
for a dog that travels along the road. -/
theorem ieee_moveLoop_single_horizontal (time : ℚ) (road : Road) (s : MoveState)
    (hin : IEEE.InCorridor road s.pos_) (hH : road.IsHorizontal = true)
    (hd : s.speed_.dx ≠ 0) :
    (IEEE.moveLoop time [road] s).pos_.y = s.pos_.y
    ∧ (IEEE.moveLoop time [road] s).pos_.x =
        (if 0 < s.speed_.dx then
          min (IEEE.add (IEEE.sub s.pos_.x s.already_traveled) (IEEE.mul s.speed_.dx time))
            (IEEE.add ((max road.GetStart.x road.GetEnd.x : ℤ) : ℚ) IEEE.ROAD_RADIUS)
         else
          max (IEEE.add (IEEE.sub s.pos_.x s.already_traveled) (IEEE.mul s.speed_.dx time))
            (IEEE.sub ((min road.GetStart.x road.GetEnd.x : ℤ) : ℚ) IEEE.ROAD_RADIUS))
    ∧ (if (IEEE.moveLoop time [road] s).at_bound then ({ dx := 0, dy := 0 } : MapSpeed)
        else (IEEE.moveLoop time [road] s).speed_) =
        (if (0 < s.speed_.dx
              ∧ IEEE.add ((max road.GetStart.x road.GetEnd.x : ℤ) : ℚ) IEEE.ROAD_RADIUS
                ≤ IEEE.add (IEEE.sub s.pos_.x s.already_traveled) (IEEE.mul s.speed_.dx time))
            ∨ (s.speed_.dx < 0
              ∧ IEEE.add (IEEE.sub s.pos_.x s.already_traveled) (IEEE.mul s.speed_.dx time)
                ≤ IEEE.sub ((min road.GetStart.x road.GetEnd.x : ℤ) : ℚ) IEEE.ROAD_RADIUS)
         then { dx := 0, dy := 0 } else s.speed_) := by
  have hc := (ieee_InCorridor_of_horizontal road s.pos_ hH).1 hin
  have hloop : IEEE.moveLoop time [road] s = (IEEE.moveOnHorizontal time road s).1 := by
    have h := ieee_moveLoop_first_along time [] [] road s (by simp) hin (Or.inl ⟨hH, hd⟩)
    rw [List.nil_append] at h
    rw [h]
    unfold IEEE.moveStep
    rw [if_pos hH]
  rw [hloop]
  rcases lt_or_gt_of_ne hd with hneg | hpos
  · have hnp : ¬ s.speed_.dx > 0 := not_lt.2 (le_of_lt hneg)
    have hnp' : ¬ 0 < s.speed_.dx := hnp
    obtain ⟨-, h1, h2, h3⟩ := ieee_backward_x s
      (IEEE.add (IEEE.sub s.pos_.x s.already_traveled) (IEEE.mul s.speed_.dx time))
      (IEEE.sub ((min road.GetStart.x road.GetEnd.x : ℤ) : ℚ) IEEE.ROAD_RADIUS)
      (IEEE.moveOnHorizontal time road s)
      (by unfold IEEE.moveOnHorizontal
          simp only [if_pos hc, if_neg hnp, if_pos hneg])
    rw [if_neg hnp']
    refine ⟨h1, h2, ?_⟩
    rw [h3]
    by_cases hb : IEEE.add (IEEE.sub s.pos_.x s.already_traveled) (IEEE.mul s.speed_.dx time)
        ≤ IEEE.sub ((min road.GetStart.x road.GetEnd.x : ℤ) : ℚ) IEEE.ROAD_RADIUS
    · rw [if_pos hb, if_pos (Or.inr ⟨hneg, hb⟩)]
    · rw [if_neg hb, if_neg (fun h => h.elim (fun h' => hnp' h'.1) (fun h' => hb h'.2))]
  · have hnn : ¬ s.speed_.dx < 0 := not_lt.2 (le_of_lt hpos)
    have hpos' : 0 < s.speed_.dx := hpos
    obtain ⟨-, h1, h2, h3⟩ := ieee_forward_x s
      (IEEE.add (IEEE.sub s.pos_.x s.already_traveled) (IEEE.mul s.speed_.dx time))
      (IEEE.add ((max road.GetStart.x road.GetEnd.x : ℤ) : ℚ) IEEE.ROAD_RADIUS)
      (IEEE.moveOnHorizontal time road s)
      (by unfold IEEE.moveOnHorizontal
          simp only [if_pos hc, if_pos hpos])
    rw [if_pos hpos']
    refine ⟨h1, h2, ?_⟩
    rw [h3]
    by_cases hb : IEEE.add ((max road.GetStart.x road.GetEnd.x : ℤ) : ℚ) IEEE.ROAD_RADIUS
        ≤ IEEE.add (IEEE.sub s.pos_.x s.already_traveled) (IEEE.mul s.speed_.dx time)
    · rw [if_pos hb, if_pos (Or.inl ⟨hpos', hb⟩)]
    · rw [if_neg hb, if_neg (fun h => h.elim (fun h' => hb h'.2) (fun h' => hnn h'.1))]

/-- The loop of `Dog::Move` over a single vertical road whose corridor holds the dog,
for a dog that travels along the road. -/
theorem ieee_moveLoop_single_vertical (time : ℚ) (road : Road) (s : MoveState)
    (hin : IEEE.InCorridor road s.pos_) (hH : road.IsHorizontal = false)
    (hV : road.IsVertical = true)
    (hd : s.speed_.dy ≠ 0) :
    (IEEE.moveLoop time [road] s).pos_.x = s.pos_.x
    ∧ (IEEE.moveLoop time [road] s).pos_.y =
        (if 0 < s.speed_.dy then
          min (IEEE.add (IEEE.sub s.pos_.y s.already_traveled) (IEEE.mul s.speed_.dy time))
            (IEEE.add ((max road.GetStart.y road.GetEnd.y : ℤ) : ℚ) IEEE.ROAD_RADIUS)
         else
          max (IEEE.add (IEEE.sub s.pos_.y s.already_traveled) (IEEE.mul s.speed_.dy time))
            (IEEE.sub ((min road.GetStart.y road.GetEnd.y : ℤ) : ℚ) IEEE.ROAD_RADIUS))
    ∧ (if (IEEE.moveLoop time [road] s).at_bound then ({ dx := 0, dy := 0 } : MapSpeed)
        else (IEEE.moveLoop time [road] s).speed_) =
        (if (0 < s.speed_.dy
              ∧ IEEE.add ((max road.GetStart.y road.GetEnd.y : ℤ) : ℚ) IEEE.ROAD_RADIUS
                ≤ IEEE.add (IEEE.sub s.pos_.y s.already_traveled) (IEEE.mul s.speed_.dy time))
            ∨ (s.speed_.dy < 0
              ∧ IEEE.add (IEEE.sub s.pos_.y s.already_traveled) (IEEE.mul s.speed_.dy time)
                ≤ IEEE.sub ((min road.GetStart.y road.GetEnd.y : ℤ) : ℚ) IEEE.ROAD_RADIUS)
         then { dx := 0, dy := 0 } else s.speed_) := by
  have hc := (ieee_InCorridor_of_vertical road s.pos_ hH hV).1 hin
  have hloop : IEEE.moveLoop time [road] s = (IEEE.moveOnVertical time road s).1 := by
    have h := ieee_moveLoop_first_along time [] [] road s (by simp) hin (Or.inr ⟨hH, hV, hd⟩)
    rw [List.nil_append] at h
    rw [h]
    unfold IEEE.moveStep
    rw [hH, hV]
    simp only [Bool.false_eq_true, if_false, if_true]
  rw [hloop]
  rcases lt_or_gt_of_ne hd with hneg | hpos
  · have hnp : ¬ s.speed_.dy > 0 := not_lt.2 (le_of_lt hneg)
    have hnp' : ¬ 0 < s.speed_.dy := hnp
    obtain ⟨-, h1, h2, h3⟩ := ieee_backward_y s
      (IEEE.add (IEEE.sub s.pos_.y s.already_traveled) (IEEE.mul s.speed_.dy time))
      (IEEE.sub ((min road.GetStart.y road.GetEnd.y : ℤ) : ℚ) IEEE.ROAD_RADIUS)
      (IEEE.moveOnVertical time road s)
      (by unfold IEEE.moveOnVertical
          simp only [if_pos hc, if_neg hnp, if_pos hneg])
    rw [if_neg hnp']
    refine ⟨h1, h2, ?_⟩
    rw [h3]
    by_cases hb : IEEE.add (IEEE.sub s.pos_.y s.already_traveled) (IEEE.mul s.speed_.dy time)
        ≤ IEEE.sub ((min road.GetStart.y road.GetEnd.y : ℤ) : ℚ) IEEE.ROAD_RADIUS
    · rw [if_pos hb, if_pos (Or.inr ⟨hneg, hb⟩)]
    · rw [if_neg hb, if_neg (fun h => h.elim (fun h' => hnp' h'.1) (fun h' => hb h'.2))]
  · have hnn : ¬ s.speed_.dy < 0 := not_lt.2 (le_of_lt hpos)
    have hpos' : 0 < s.speed_.dy := hpos
    obtain ⟨-, h1, h2, h3⟩ := ieee_forward_y s
      (IEEE.add (IEEE.sub s.pos_.y s.already_traveled) (IEEE.mul s.speed_.dy time))
      (IEEE.add ((max road.GetStart.y road.GetEnd.y : ℤ) : ℚ) IEEE.ROAD_RADIUS)
      (IEEE.moveOnVertical time road s)
      (by unfold IEEE.moveOnVertical
          simp only [if_pos hc, if_pos hpos])
    rw [if_pos hpos']
    refine ⟨h1, h2, ?_⟩
    rw [h3]
    by_cases hb : IEEE.add ((max road.GetStart.y road.GetEnd.y : ℤ) : ℚ) IEEE.ROAD_RADIUS
        ≤ IEEE.add (IEEE.sub s.pos_.y s.already_traveled) (IEEE.mul s.speed_.dy time)
    · rw [if_pos hb, if_pos (Or.inl ⟨hpos', hb⟩)]
    · rw [if_neg hb, if_neg (fun h => h.elim (fun h' => hb h'.2) (fun h' => hnn h'.1))]

theorem ieee_moveStart_pos (d : Dog) : (IEEE.moveStart d).pos_ = d.pos_ := rfl

theorem ieee_moveStart_speed (d : Dog) : (IEEE.moveStart d).speed_ = d.speed_ := rfl

theorem ieee_moveStart_traveled (d : Dog) : (IEEE.moveStart d).already_traveled = 0 := rfl

theorem ieee_moveFinish_pos (d : Dog) (s : MoveState) : (IEEE.moveFinish d s).pos_ = s.pos_ :=
  rfl

theorem ieee_moveFinish_speed (d : Dog) (s : MoveState) :
    (IEEE.moveFinish d s).speed_
      = if s.at_bound then ({ dx := 0, dy := 0 } : MapSpeed) else s.speed_ := rfl

theorem ieee_Move_eq (d : Dog) (time : ℚ) (roads : List Road) :
    IEEE.Move d time roads = IEEE.moveFinish d (IEEE.moveLoop time roads (IEEE.moveStart d)) :=
  rfl

theorem ieee_Move_single_horizontal (d : Dog) (time : ℚ) (road : Road)
    (hin : IEEE.InCorridor road d.pos_) (hH : road.IsHorizontal = true)
    (hdx : d.speed_.dx ≠ 0) :
    (IEEE.Move d time [road]).pos_.y = d.pos_.y
    ∧ (IEEE.Move d time [road]).pos_.x =
        (if 0 < d.speed_.dx then
          min (IEEE.add (IEEE.sub d.pos_.x 0) (IEEE.mul d.speed_.dx time))
            (IEEE.add ((max road.start_.x road.end_.x : ℤ) : ℚ) IEEE.ROAD_RADIUS)
         else
          max (IEEE.add (IEEE.sub d.pos_.x 0) (IEEE.mul d.speed_.dx time))
            (IEEE.sub ((min road.start_.x road.end_.x : ℤ) : ℚ) IEEE.ROAD_RADIUS))
    ∧ (IEEE.Move d time [road]).speed_ =
        (if (0 < d.speed_.dx
              ∧ IEEE.add ((max road.start_.x road.end_.x : ℤ) : ℚ) IEEE.ROAD_RADIUS
                ≤ IEEE.add (IEEE.sub d.pos_.x 0) (IEEE.mul d.speed_.dx time))
            ∨ (d.speed_.dx < 0
              ∧ IEEE.add (IEEE.sub d.pos_.x 0) (IEEE.mul d.speed_.dx time)
                ≤ IEEE.sub ((min road.start_.x road.end_.x : ℤ) : ℚ) IEEE.ROAD_RADIUS)
         then { dx := 0, dy := 0 } else d.speed_) := by
  have h := ieee_moveLoop_single_horizontal time road (IEEE.moveStart d) hin hH hdx
  rw [ieee_moveStart_pos, ieee_moveStart_speed, ieee_moveStart_traveled] at h
  rw [ieee_Move_eq, ieee_moveFinish_pos, ieee_moveFinish_speed]
  exact h

theorem ieee_Move_single_vertical (d : Dog) (time : ℚ) (road : Road)
    (hin : IEEE.InCorridor road d.pos_) (hH : road.IsHorizontal = false)
    (hV : road.IsVertical = true) (hdy : d.speed_.dy ≠ 0) :
    (IEEE.Move d time [road]).pos_.x = d.pos_.x
    ∧ (IEEE.Move d time [road]).pos_.y =
        (if 0 < d.speed_.dy then
          min (IEEE.add (IEEE.sub d.pos_.y 0) (IEEE.mul d.speed_.dy time))
            (IEEE.add ((max road.start_.y road.end_.y : ℤ) : ℚ) IEEE.ROAD_RADIUS)
         else
          max (IEEE.add (IEEE.sub d.pos_.y 0) (IEEE.mul d.speed_.dy time))
            (IEEE.sub ((min road.start_.y road.end_.y : ℤ) : ℚ) IEEE.ROAD_RADIUS))
    ∧ (IEEE.Move d time [road]).speed_ =
        (if (0 < d.speed_.dy
              ∧ IEEE.add ((max road.start_.y road.end_.y : ℤ) : ℚ) IEEE.ROAD_RADIUS
                ≤ IEEE.add (IEEE.sub d.pos_.y 0) (IEEE.mul d.speed_.dy time))
            ∨ (d.speed_.dy < 0
              ∧ IEEE.add (IEEE.sub d.pos_.y 0) (IEEE.mul d.speed_.dy time)
                ≤ IEEE.sub ((min road.start_.y road.end_.y : ℤ) : ℚ) IEEE.ROAD_RADIUS)
         then { dx := 0, dy := 0 } else d.speed_) := by
  have h := ieee_moveLoop_single_vertical time road (IEEE.moveStart d) hin hH hV hdy
  rw [ieee_moveStart_pos, ieee_moveStart_speed, ieee_moveStart_traveled] at h
  rw [ieee_Move_eq, ieee_moveFinish_pos, ieee_moveFinish_speed]
  exact h
theorem ieee_across_speed_y (s : MoveState) (distance bound lo hi : ℚ) (r : MoveState × Bool)
    (hr : r =
      (let start_pos := s.pos_.y
       let s1 : MoveState :=
         if |distance| ≤ bound then
           { s with pos_ := { s.pos_ with y := distance }, at_bound := false }
         else
           { s with pos_ := { s.pos_ with y := if s.speed_.dy < 0 then lo else hi },
                    at_bound := true }
       ({ s1 with already_traveled := IEEE.sub s1.pos_.y start_pos }, false))) :
    r.1.speed_ = s.speed_ := by
  subst hr
  dsimp only
  split_ifs <;> rfl

theorem ieee_across_speed_x (s : MoveState) (distance bound lo hi : ℚ) (r : MoveState × Bool)
    (hr : r =
      (let start_pos := s.pos_.x
       let s1 : MoveState :=
         if |distance| ≤ bound then
           { s with pos_ := { s.pos_ with x := distance }, at_bound := false }
         else
           { s with pos_ := { s.pos_ with x := if s.speed_.dx < 0 then lo else hi },
                    at_bound := true }
       ({ s1 with already_traveled := IEEE.sub s1.pos_.x start_pos }, false))) :
    r.1.speed_ = s.speed_ := by
  subst hr
  dsimp only
  split_ifs <;> rfl

/-- A step on a road that does not run along the direction of travel leaves the
velocity as it is. -/
theorem ieee_moveStep_speed_of_across (time : ℚ) (road : Road) (s : MoveState)
    (hpar : ¬ AlongRoad road s.speed_) : (IEEE.moveStep time road s).1.speed_ = s.speed_ := by
  unfold AlongRoad at hpar
  by_cases hin : IEEE.InCorridor road s.pos_
  swap
  · rw [ieee_moveStep_of_not_InCorridor time road s hin]
  unfold IEEE.moveStep
  by_cases hH : road.IsHorizontal = true
  · have hdx : s.speed_.dx = 0 := by
      by_contra hne
      exact hpar (Or.inl ⟨hH, hne⟩)
    have hc := (ieee_InCorridor_of_horizontal road s.pos_ hH).1 hin
    have h1 : ¬ s.speed_.dx > 0 := by rw [hdx]; exact lt_irrefl _
    have h2 : ¬ s.speed_.dx < 0 := by rw [hdx]; exact lt_irrefl _
    rw [if_pos hH]
    by_cases hdy : s.speed_.dy ≠ 0
    · exact ieee_across_speed_y s (IEEE.add s.pos_.y (IEEE.mul s.speed_.dy time))
        (IEEE.add (road.GetStart.y : ℚ) IEEE.ROAD_RADIUS)
        (IEEE.sub (road.GetStart.y : ℚ) IEEE.ROAD_RADIUS)
        (IEEE.add (road.GetStart.y : ℚ) IEEE.ROAD_RADIUS)
        (IEEE.moveOnHorizontal time road s)
        (by unfold IEEE.moveOnHorizontal
            simp only [if_pos hc, if_neg h1, if_neg h2, if_pos hdy])
    · have hstep : IEEE.moveOnHorizontal time road s = (s, false) := by
        unfold IEEE.moveOnHorizontal
        simp only [if_pos hc, if_neg h1, if_neg h2, if_neg hdy]
      rw [hstep]
  · have hH' : road.IsHorizontal = false := by simpa using hH
    rw [if_neg hH]
    by_cases hV : road.IsVertical = true
    · have hdy : s.speed_.dy = 0 := by
        by_contra hne
        exact hpar (Or.inr ⟨hH', hV, hne⟩)
      have hc := (ieee_InCorridor_of_vertical road s.pos_ hH' hV).1 hin
      have h1 : ¬ s.speed_.dy > 0 := by rw [hdy]; exact lt_irrefl _
      have h2 : ¬ s.speed_.dy < 0 := by rw [hdy]; exact lt_irrefl _
      rw [if_pos hV]
      by_cases hdx : s.speed_.dx ≠ 0
      · exact ieee_across_speed_x s (IEEE.add s.pos_.x (IEEE.mul s.speed_.dx time))
          (IEEE.add (road.GetStart.x : ℚ) IEEE.ROAD_RADIUS)
          (IEEE.sub (road.GetStart.x : ℚ) IEEE.ROAD_RADIUS)
          (IEEE.add (road.GetStart.x : ℚ) IEEE.ROAD_RADIUS)
          (IEEE.moveOnVertical time road s)
          (by unfold IEEE.moveOnVertical
              simp only [if_pos hc, if_neg h1, if_neg h2, if_pos hdx])
      · have hstep : IEEE.moveOnVertical time road s = (s, false) := by
          unfold IEEE.moveOnVertical
          simp only [if_pos hc, if_neg h1, if_neg h2, if_neg hdx]
        rw [hstep]
    · rw [if_neg hV]

/-- C7: a dog for which the first road (in configuration order) that passes the
corridor test of `Dog::Move` runs along its direction of travel, with non-zero speed:
`Dog::Move` puts the coordinate along the axis at the candidate, the double
`pos − 0 + v·t`, clamped to the corridor bound in the direction of travel (the double
`max + 0.4` going in the positive direction, `min − 0.4` in the negative one) and
keeps the other coordinate; when the candidate reaches or passes the bound the dog is
exactly at the bound with velocity `(0,0)`, otherwise the velocity is unchanged.  The
axis of a road is the one `Dog::Move` gives it: horizontal when `start.y = end.y`,
vertical otherwise.  On the road `x ∈ [0,10]`, a dog at `x = 9` going east at speed
`1` for `3` seconds ends at the double `10.4`, stopped. -/
theorem C7_wall_hit (d : Dog) (time : ℚ) (pre post : List Road) (road : Road)
    (hpre : ∀ r ∈ pre, ¬ IEEE.InCorridor r d.pos_) (hin : IEEE.InCorridor road d.pos_)
    (hpar : AlongRoad road d.speed_) :
    (road.IsHorizontal = true →
      (IEEE.Move d time (pre ++ road :: post)).pos_.y = d.pos_.y
      ∧ (IEEE.Move d time (pre ++ road :: post)).pos_.x =
          (if 0 < d.speed_.dx then
            min (IEEE.add (IEEE.sub d.pos_.x 0) (IEEE.mul d.speed_.dx time))
              (IEEE.add ((max road.start_.x road.end_.x : ℤ) : ℚ) IEEE.ROAD_RADIUS)
           else
            max (IEEE.add (IEEE.sub d.pos_.x 0) (IEEE.mul d.speed_.dx time))
              (IEEE.sub ((min road.start_.x road.end_.x : ℤ) : ℚ) IEEE.ROAD_RADIUS))
      ∧ (IEEE.Move d time (pre ++ road :: post)).speed_ =
          (if (0 < d.speed_.dx
                ∧ IEEE.add ((max road.start_.x road.end_.x : ℤ) : ℚ) IEEE.ROAD_RADIUS
                  ≤ IEEE.add (IEEE.sub d.pos_.x 0) (IEEE.mul d.speed_.dx time))
              ∨ (d.speed_.dx < 0
                ∧ IEEE.add (IEEE.sub d.pos_.x 0) (IEEE.mul d.speed_.dx time)
                  ≤ IEEE.sub ((min road.start_.x road.end_.x : ℤ) : ℚ) IEEE.ROAD_RADIUS)
           then { dx := 0, dy := 0 } else d.speed_))
    ∧ (road.IsHorizontal = false →
      (IEEE.Move d time (pre ++ road :: post)).pos_.x = d.pos_.x
      ∧ (IEEE.Move d time (pre ++ road :: post)).pos_.y =
          (if 0 < d.speed_.dy then
            min (IEEE.add (IEEE.sub d.pos_.y 0) (IEEE.mul d.speed_.dy time))
              (IEEE.add ((max road.start_.y road.end_.y : ℤ) : ℚ) IEEE.ROAD_RADIUS)
           else
            max (IEEE.add (IEEE.sub d.pos_.y 0) (IEEE.mul d.speed_.dy time))
              (IEEE.sub ((min road.start_.y road.end_.y : ℤ) : ℚ) IEEE.ROAD_RADIUS))
      ∧ (IEEE.Move d time (pre ++ road :: post)).speed_ =
          (if (0 < d.speed_.dy
                ∧ IEEE.add ((max road.start_.y road.end_.y : ℤ) : ℚ) IEEE.ROAD_RADIUS
                  ≤ IEEE.add (IEEE.sub d.pos_.y 0) (IEEE.mul d.speed_.dy time))
              ∨ (d.speed_.dy < 0
                ∧ IEEE.add (IEEE.sub d.pos_.y 0) (IEEE.mul d.speed_.dy time)
                  ≤ IEEE.sub ((min road.start_.y road.end_.y : ℤ) : ℚ) IEEE.ROAD_RADIUS)
           then { dx := 0, dy := 0 } else d.speed_))
    ∧ (∀ x : ℚ, IEEE.IsDouble x → IEEE.sub x 0 = x)
    ∧ IEEE.add 10 IEEE.ROAD_RADIUS = IEEE.fl (52 / 5)
    ∧ (IEEE.Move eastDog 3 [eastRoad]).pos_ = { x := IEEE.fl (52 / 5), y := 0 }
    ∧ (IEEE.Move eastDog 3 [eastRoad]).speed_ = { dx := 0, dy := 0 } := by
  rw [ieee_Move_eq_of_first_along d time pre post road hpre hin hpar]
  refine ⟨?_, ?_, ?_, by decide!, by decide!, by decide!⟩
  · intro hH
    rcases hpar with ⟨-, hdx⟩ | ⟨hH', -, -⟩
    · exact ieee_Move_single_horizontal d time road hin hH hdx
    · rw [hH] at hH'
      exact absurd hH' (by decide)
  · intro hH
    rcases hpar with ⟨hH', -⟩ | ⟨-, hV, hdy⟩
    · rw [hH] at hH'
      exact absurd hH' (by decide)
    · exact ieee_Move_single_vertical d time road hin hH hV hdy
  · intro x hx
    unfold IEEE.sub
    rw [sub_zero]
    exact hx

/-- The witness of C7: the dog `eastDog` at `(9,0)` on `eastRoad`, the only road. -/
theorem C7_wall_hit_witness :
    IEEE.InCorridor eastRoad eastDog.pos_ ∧ AlongRoad eastRoad eastDog.speed_
    ∧ (IEEE.Move eastDog 3 ([] ++ eastRoad :: [])).pos_.y = eastDog.pos_.y
    ∧ (IEEE.Move eastDog 3 ([] ++ eastRoad :: [])).pos_.x = IEEE.fl (52 / 5) := by
  have hin : IEEE.InCorridor eastRoad eastDog.pos_ := by decide!
  have hpar : AlongRoad eastRoad eastDog.speed_ := Or.inl ⟨by decide!, by decide!⟩
  have h := (C7_wall_hit eastDog 3 [] [] eastRoad (by simp) hin hpar).1 (by decide!)
  refine ⟨hin, hpar, h.1, ?_⟩
  rw [h.2.1]
  decide!

/-- C24 (the code does not round in `Dog::Move`): a dog at `(0,0)` with velocity `(1,0)` on
the road `y = 0`, `x ∈ [0,10]`, and a tick of `125` ms, that is `0.125` s.  After
`Dog::Move` its `x` is `0.125`, stored as computed: it is no integer multiple of
`1/100`, and not the double nearest to one either.  `Dog::SetPos`, which does round,
stores the double `0.13` for the same point (the half goes away from zero), and the
double `2.68` for the double `2.675`, whose product with `100.0` rounds to `267.5`. -/
theorem C24_move_does_not_round :
    IEEE.fl ((125 : ℚ) / 1000) = 1 / 8
    ∧ IEEE.InCorridor eastRoad slowDog.pos_
    ∧ (IEEE.Move slowDog (1 / 8) [eastRoad]).pos_ = { x := 1 / 8, y := 0 }
    ∧ ¬ IsCentesimal (IEEE.Move slowDog (1 / 8) [eastRoad]).pos_.x
    ∧ (∀ k : ℤ, IEEE.fl ((k : ℚ) / 100) ≠ (IEEE.Move slowDog (1 / 8) [eastRoad]).pos_.x)
    ∧ (IEEE.SetPos slowDog { x := 1 / 8, y := 0 }).pos_ = { x := IEEE.fl (13 / 100), y := 0 }
    ∧ IEEE.mul (IEEE.fl (2675 / 1000)) 100 = 535 / 2
    ∧ (IEEE.SetPos slowDog { x := IEEE.fl (2675 / 1000), y := 0 }).pos_.x
        = IEEE.fl (268 / 100) := by
  have h : (IEEE.Move slowDog (1 / 8) [eastRoad]).pos_ = { x := 1 / 8, y := 0 } := by decide!
  refine ⟨by decide!, by decide!, h, ?_, ?_, by decide!, by decide!, by decide!⟩
  · rw [h]
    rintro ⟨k, hk⟩
    have h8 : (2 : ℚ) * (k : ℚ) = 25 := by
      simp only at hk
      linarith
    have h8' : (2 : ℤ) * k = 25 := by exact_mod_cast h8
    omega
  · rw [h]
    exact ieee_no_centesimal_rounds_to_eighth

end PetGame
